import Mathlib

/-!
# Image server (`is`): dispatcher, HDF5 frame reader, TIFF renderer

A shallow embedding of the parts of `isMain.c`, `isH5.c` and `mr.c` that the
properties below are about, followed by the properties themselves.

Conventions of the embedding

* C `int` values are Lean `Int`s; where a value is stored into a narrower or an
  unsigned object the wrap is written out (`toInt32`, `% 2 ^ 32`, `% 256`). The
  `int` difference and product under the square root of `marTiff2profile` wrap
  as well (`toInt32`).
* C `double` values are exact fractions. The renderer `marTiff2jpeg` computes
  with them exactly; in `marTiff2profile` every operation is followed by the
  rounding to an IEEE 754 double.
* Calls into libraries (hiredis, jansson, HDF5, libc) and into functions of the
  program that live in other files are parameters of the embedding: a record
  of functions giving what the call returns.
* A function that can leave through `exit`, through a failure return or through
  undefined behaviour returns a result type with one constructor per way out.
-/

namespace IS

/-! ## Machine integers -/

/-- Conversion of an integer value to a 32-bit C `int` (two's complement wrap). -/
def toInt32 (n : Int) : Int := (n + 2 ^ 31) % 2 ^ 32 - 2 ^ 31

/-- Conversion of an integer value to a 64-bit unsigned (`hsize_t`, `size_t`). -/
def toUInt64 (n : Int) : Int := n % 2 ^ 64

/-! ## Dispatcher: `main` of `isMain.c` -/

/-- A hiredis reply (`redisReply *`), by `reply->type`; `null` is the NULL pointer. -/
inductive Reply where
  | null
  | error (str : String)
  | nil
  | status (str : String)
  | integer (n : Int)
  | string (str : String)
  | array (elements : List Reply)

/-- A jansson value (`json_t *`, not NULL). -/
inductive Json where
  | null
  | bool (b : Bool)
  | integer (n : Int)
  | string (s : String)
  | array (items : List Json)
  | object (members : List (String × Json))

/-- `json_object_get(j, key)`: NULL (`none`) unless `j` is an object with that key. -/
def json_object_get (j : Option Json) (key : String) : Option Json :=
  match j with
  | some (Json.object members) => (members.find? (fun kv => kv.1 == key)).map Prod.snd
  | _ => none

/-- `json_string_value(j)`: NULL (`none`) unless `j` is a string. -/
def json_string_value (j : Option Json) : Option String :=
  match j with
  | some (Json.string s) => some s
  | _ => none

/-- `json_integer_value(j)`: 0 unless `j` is an integer. -/
def json_integer_value (j : Option Json) : Int :=
  match j with
  | some (Json.integer n) => n
  | _ => 0

/-- What the dispatcher calls but does not define: jansson's parser and printer,
`decryptIsAuth`, and the process list (`isFindProcess`, `isRun`,
`isProcessDoNotCall`) over a process-list state `σ`. -/
structure Deps (σ : Type) where
  json_loads : String → Option Json
  json_dumps : Json → String
  decryptIsAuth : String → Option Json
  isFindProcess : σ → String → Int → σ × Option String
  isRun : σ → Json → Int → σ × Option String
  isProcessDoNotCall : σ → String → Int → σ

/-- What the two Redis servers answer during one turn of the main loop. -/
structure World where
  brpop : Reply
  hgetIsAuth : String → Reply
  existsKey : String → Reply
  lpush : Option String → String → Reply

/-- The calls one turn of the main loop makes, in order. -/
inductive Event where
  | brpop
  | findProcess (pid : String) (esaf : Int)
  | hgetIsAuth (pid : String)
  | decrypt (msg : String)
  | run (isAuth : Json) (esaf : Int)
  | existsKey (pid : String)
  | doNotCall (pid : String) (esaf : Int)
  | lpush (process_key : Option String) (jobstr : String)

/-- How one turn of the main loop ends: `next` is `continue` or the end of the
loop body, `exit` is `exit(-1)`, `fault` is undefined behaviour (`strcmp`
with a NULL argument). -/
inductive Outcome where
  | next
  | exit
  | fault
deriving DecidableEq

/-- Result of one turn: the process list afterwards, the calls made, the way out. -/
structure Turn (σ : Type) where
  plist : σ
  events : List Event
  outcome : Outcome

/-- Is the event the start of a supervisor (`isRun`)? -/
def Event.isRun : Event → Bool
  | Event.run _ _ => true
  | _ => false

/-- Is the event a push onto a private queue (`LPUSH`)? -/
def Event.isLpush : Event → Bool
  | Event.lpush _ _ => true
  | _ => false

/-- Is the event a call of `isProcessDoNotCall`? -/
def Event.isDoNotCall : Event → Bool
  | Event.doNotCall _ _ => true
  | _ => false

/-- Lines 239-257 of `isMain.c`: dump the request and push it onto `process_key`. -/
def pushJob {σ : Type} (D : Deps σ) (w : World) (pl : σ) (pre : List Event)
    (isRequest : Json) (process_key : Option String) : Turn σ :=
  let jobstr := D.json_dumps isRequest
  let events := pre ++ [Event.lpush process_key jobstr]
  match w.lpush process_key jobstr with
  | Reply.null => ⟨pl, events, Outcome.exit⟩
  | Reply.error _ => ⟨pl, events, Outcome.exit⟩
  | _ => ⟨pl, events, Outcome.next⟩

/-- Lines 161-206 of `isMain.c`: `isFindProcess` returned NULL. -/
def cacheMiss {σ : Type} (D : Deps σ) (w : World) (pl : σ) (pre : List Event)
    (isRequest : Json) (pid : String) (esaf : Int) : Turn σ :=
  let pre1 := pre ++ [Event.hgetIsAuth pid]
  match w.hgetIsAuth pid with
  | Reply.null => ⟨pl, pre1, Outcome.exit⟩
  | Reply.error _ => ⟨pl, pre1, Outcome.exit⟩
  | Reply.string str =>
    let isAuth := D.decryptIsAuth str
    let pre2 := pre1 ++ [Event.decrypt str]
    match json_string_value (json_object_get isAuth "pid"), isAuth with
    | some authPid, some auth =>
      if pid ≠ authPid then ⟨pl, pre2, Outcome.next⟩
      else
        let r := D.isRun pl auth esaf
        pushJob D w r.1 (pre2 ++ [Event.run auth esaf]) isRequest r.2
    | _, _ => ⟨pl, pre2, Outcome.fault⟩
  | _ => ⟨pl, pre1, Outcome.next⟩

/-- Lines 207-237 of `isMain.c`: `isFindProcess` returned `process_key`. -/
def cacheHit {σ : Type} (D : Deps σ) (w : World) (pl : σ) (pre : List Event)
    (isRequest : Json) (pid : String) (esaf : Int) (process_key : String) : Turn σ :=
  let pre1 := pre ++ [Event.existsKey pid]
  match w.existsKey pid with
  | Reply.null => ⟨pl, pre1, Outcome.exit⟩
  | Reply.error _ => ⟨pl, pre1, Outcome.exit⟩
  | Reply.integer n =>
    if n ≠ 1 then
      ⟨D.isProcessDoNotCall pl pid esaf, pre1 ++ [Event.doNotCall pid esaf], Outcome.next⟩
    else pushJob D w pl pre1 isRequest (some process_key)
  | _ => ⟨pl, pre1, Outcome.exit⟩

/-- Lines 143-161 of `isMain.c`: parse the request, read `pid` and `esaf`, look
the pair up in the process list. -/
def handleRequest {σ : Type} (D : Deps σ) (w : World) (pl : σ) (str : String) : Turn σ :=
  match D.json_loads str with
  | none => ⟨pl, [Event.brpop], Outcome.next⟩
  | some isRequest =>
    match json_string_value (json_object_get (some isRequest) "pid") with
    | none => ⟨pl, [Event.brpop], Outcome.next⟩
    | some pid =>
      let esaf := toInt32 (json_integer_value (json_object_get (some isRequest) "esaf"))
      let f := D.isFindProcess pl pid esaf
      let pre := [Event.brpop, Event.findProcess pid esaf]
      match f.2 with
      | none => cacheMiss D w f.1 pre isRequest pid esaf
      | some process_key => cacheHit D w f.1 pre isRequest pid esaf process_key

/-- One turn of the `while (1)` loop of `main` (lines 102-258 of `isMain.c`). -/
def mainTurn {σ : Type} (D : Deps σ) (w : World) (pl : σ) : Turn σ :=
  match w.brpop with
  | Reply.array [_, Reply.string str] => handleRequest D w pl str
  | _ => ⟨pl, [Event.brpop], Outcome.exit⟩

/-- The main loop over the answers of the outside world, one `World` per turn:
the calls made, the process list and the way the last turn ended. The loop
stops at the first turn that does not end in `next`; when the list of worlds
is used up the dispatcher is blocked in `BRPOP`. -/
def mainLoop {σ : Type} (D : Deps σ) : List World → σ → List Event × σ × Outcome
  | [], pl => ([], pl, Outcome.next)
  | w :: ws, pl =>
    let t := mainTurn D w pl
    match t.outcome with
    | Outcome.next =>
      let r := mainLoop D ws t.plist
      (t.events ++ r.1, r.2)
    | o => (t.events, t.plist, o)

/-- The auth store holds, under `pid`, an assertion whose decrypted `pid` is `pid`. -/
def AssertionPresent {σ : Type} (D : Deps σ) (w : World) (pid : String) : Prop :=
  ∃ str, w.hgetIsAuth pid = Reply.string str ∧
    json_string_value (json_object_get (D.decryptIsAuth str) "pid") = some pid

/-! ### A concrete dispatcher setting, used to evaluate the embedding -/

/-- Example process list: an association list from `(pid, esaf)` to a queue key. -/
def exDeps : Deps (List ((String × Int) × String)) where
  json_loads := fun s =>
    if s = "reqA" then some (Json.object [("pid", Json.string "A"), ("esaf", Json.integer 42)])
    else none
  json_dumps := fun _ => "job"
  decryptIsAuth := fun s =>
    if s = "encB" then some (Json.object [("pid", Json.string "B")])
    else if s = "encA" then some (Json.object [("pid", Json.string "A")])
    else none
  isFindProcess := fun pl pid esaf =>
    (pl, (pl.find? (fun e => e.1.1 == pid && e.1.2 == esaf)).map Prod.snd)
  isRun := fun pl _ esaf => ((("A", esaf), "keyA") :: pl, some "keyA")
  isProcessDoNotCall := fun pl pid esaf =>
    pl.filter (fun e => !(e.1.1 == pid && e.1.2 == esaf))

/-- Example world: request `reqA` popped; the auth store holds an assertion for
`B` under `A`; key `A` does not exist any more. -/
def exWorldMismatch : World where
  brpop := Reply.array [Reply.string "ISREQUESTS", Reply.string "reqA"]
  hgetIsAuth := fun _ => Reply.string "encB"
  existsKey := fun _ => Reply.integer 0
  lpush := fun _ _ => Reply.integer 1

/-- Example world: request `reqA` popped; key `A` exists but has no `isAuth` field. -/
def exWorldNoAssertion : World where
  brpop := Reply.array [Reply.string "ISREQUESTS", Reply.string "reqA"]
  hgetIsAuth := fun _ => Reply.nil
  existsKey := fun _ => Reply.integer 1
  lpush := fun _ _ => Reply.integer 1

/-- Example process list in which `("A", 42)` was registered earlier. -/
def exPlist : List ((String × Int) × String) := [(("A", 42), "keyA")]

/-! ## HDF5 frame reader: `get_one_frame` of `isH5.c` -/

/-- One entry of the frame-discovery list (`frame_discovery_t`, without `next`
and `done_list`): three HDF5 handles and the `int32_t` frame range. -/
structure frame_discovery_t where
  data_set : Int
  file_space : Int
  file_type : Int
  first_frame : Int
  last_frame : Int
deriving DecidableEq

/-- The `extra` record of an image buffer (`isH5extra_t`): the discovery list in
visit order. -/
structure isH5extra_t where
  frame_discovery_base : List frame_discovery_t
deriving DecidableEq

/-- Modelled from the spec: `isImageBufType` is declared in `is.h`, which is not
among the sources. The fields are those `isH5.c` uses: the requested frame
number, the per-master `extra` record (`none` is NULL), whether `buf` points to
a frame buffer, and the size, height, width and element size of that buffer,
each holding the value `get_one_frame` assigns to it; further the metadata
object `meta` (its integer members, by key) and whether `bad_pixel_map` points
to a loaded mask. -/
structure isImageBufType where
  frame : Int
  extra : Option isH5extra_t
  buf : Bool
  buf_size : Int
  buf_height : Int
  buf_width : Int
  buf_depth : Int
  meta : List (String × Int) := []
  bad_pixel_map : Bool := false
deriving DecidableEq

/-- What `get_one_frame` calls but does not define: HDF5 library functions (each
returning what the call returns for the given handles) and `calloc` (`true`
when it returns a buffer, for the requested size as a `size_t`). -/
structure H5Lib where
  H5Sget_simple_extent_ndims : Int → Int
  H5Sget_simple_extent_dims : Int → Int × (Int × Int × Int)
  H5Tget_size : Int → Int
  calloc : Int → Bool
  H5Screate_simple : Int → Int → Int
  H5Sselect_hyperslab : Int → Int → Int → Int → Int
  H5Dread : Int → Int → Int → Int → Int

/-- The failure returns of `get_one_frame`, in source order. -/
inductive FrameFailure where
  | frameNotFound
  | rankQuery
  | rankMismatch
  | elementSizeQuery
  | badElementSize
  | memSpace
  | hyperslab
  | readError
deriving DecidableEq

/-- What has become of `data_buffer` when `get_one_frame` returns a failure. -/
inductive BufferFate where
  | notAllocated
  | freed
  | notFreed
deriving DecidableEq

/-- The ways `get_one_frame` ends: `return 0` with the image buffer filled in,
`return -1`, `exit(-1)`, or a NULL dereference (`extra` is NULL). -/
inductive FrameResult where
  | success (imb : isImageBufType)
  | failure (why : FrameFailure) (buffer : BufferFate)
  | exit
  | fault
deriving DecidableEq

/-- The loop test of line 603: `fp->first_frame <= imb->frame && fp->last_frame >= imb->frame`. -/
def frameInRecord (frame : Int) (fp : frame_discovery_t) : Bool :=
  decide (fp.first_frame ≤ frame) && decide (fp.last_frame ≥ frame)

/-- Lines 602-606 of `isH5.c`: walk the list from `frame_discovery_base`, stop at
the first record that passes the test; `none` is `fp == NULL` after the loop. -/
def findFrame : List frame_discovery_t → Int → Option frame_discovery_t
  | [], _ => none
  | fp :: rest, frame => if frameInRecord frame fp then some fp else findFrame rest frame

/-- The `switch` of lines 635-646 of `isH5.c`: `data_buffer_size`, an `int`, from
the `hsize_t` product `file_dims[1] * file_dims[2] * sizeof(...)`; `none` is the
`default` case. -/
def frameBytes (dims1 dims2 data_element_size : Int) : Option Int :=
  if data_element_size = 4 then some (toInt32 (toUInt64 (toUInt64 (dims1 * dims2) * 4)))
  else if data_element_size = 2 then some (toInt32 (toUInt64 (toUInt64 (dims1 * dims2) * 2)))
  else none

/-- Lines 612-697 of `isH5.c`: read the frame `imb->frame` out of the record `fp`. -/
def readFrame (h5 : H5Lib) (imb : isImageBufType) (fp : frame_discovery_t) : FrameResult :=
  let rank := h5.H5Sget_simple_extent_ndims fp.file_space
  if rank < 0 then FrameResult.failure FrameFailure.rankQuery BufferFate.notAllocated
  else if rank ≠ 3 then FrameResult.failure FrameFailure.rankMismatch BufferFate.notAllocated
  else
    let herr := (h5.H5Sget_simple_extent_dims fp.file_space).1
    let file_dims := (h5.H5Sget_simple_extent_dims fp.file_space).2
    if herr < 0 then FrameResult.exit
    else
      let data_element_size := toInt32 (h5.H5Tget_size fp.file_type)
      if data_element_size = 0 then
        FrameResult.failure FrameFailure.elementSizeQuery BufferFate.notAllocated
      else
        match frameBytes file_dims.2.1 file_dims.2.2 data_element_size with
        | none => FrameResult.failure FrameFailure.badElementSize BufferFate.notAllocated
        | some data_buffer_size =>
          if h5.calloc (toUInt64 data_buffer_size) = false then FrameResult.exit
          else
            let mem_space := h5.H5Screate_simple file_dims.2.1 file_dims.2.2
            if mem_space < 0 then FrameResult.failure FrameFailure.memSpace BufferFate.freed
            else if h5.H5Sselect_hyperslab fp.file_space
                (toUInt64 (imb.frame - fp.first_frame)) file_dims.2.1 file_dims.2.2 < 0 then
              FrameResult.failure FrameFailure.hyperslab BufferFate.notFreed
            else if h5.H5Dread fp.data_set fp.file_type mem_space fp.file_space < 0 then
              FrameResult.failure FrameFailure.readError BufferFate.notFreed
            else
              FrameResult.success
                { imb with
                  buf := true
                  buf_size := data_buffer_size
                  buf_height := file_dims.2.1
                  buf_width := file_dims.2.2
                  buf_depth := data_element_size }

/-- The function `get_one_frame` of `isH5.c` (lines 581-698). -/
def get_one_frame (h5 : H5Lib) (imb : isImageBufType) : FrameResult :=
  match imb.extra with
  | none => FrameResult.fault
  | some extra =>
    match findFrame extra.frame_discovery_base imb.frame with
    | none => FrameResult.failure FrameFailure.frameNotFound BufferFate.notAllocated
    | some fp => readFrame h5 imb fp

/-- The smallest `first_frame` of a discovery list (`none` for the empty list). -/
def minFirstFrame : List frame_discovery_t → Option Int
  | [] => none
  | fp :: rest => some (rest.foldl (fun m r => min m r.first_frame) fp.first_frame)

/-- The largest `last_frame` of a discovery list (`none` for the empty list). -/
def maxLastFrame : List frame_discovery_t → Option Int
  | [] => none
  | fp :: rest => some (rest.foldl (fun m r => max m r.last_frame) fp.last_frame)

/-- The frame ranges of the list are pairwise disjoint. -/
def DisjointRanges (l : List frame_discovery_t) : Prop :=
  l.Pairwise (fun a b => a.last_frame < b.first_frame ∨ b.last_frame < a.first_frame)

/-- The frame ranges of the list leave no gap: a record either ends at the largest
`last_frame` of the list or is followed by a record that starts at the next frame. -/
def ContiguousRanges (l : List frame_discovery_t) : Prop :=
  ∀ a ∈ l, some a.last_frame = maxLastFrame l ∨ ∃ b ∈ l, b.first_frame = a.last_frame + 1

/-! ### A concrete HDF5 setting, used to evaluate the embedding -/

/-- Example library: every dataset is `dims0 x dims1 x dims2` of `size`-byte
elements and every call succeeds. -/
def exH5 (dims1 dims2 size : Int) : H5Lib where
  H5Sget_simple_extent_ndims := fun _ => 3
  H5Sget_simple_extent_dims := fun _ => (0, (100, dims1, dims2))
  H5Tget_size := fun _ => size
  calloc := fun n => decide (n < 2 ^ 40)
  H5Screate_simple := fun _ _ => 7
  H5Sselect_hyperslab := fun _ _ _ _ => 0
  H5Dread := fun _ _ _ _ => 0

/-- Example discovery list: two data files, frames 1..100 and 101..200. -/
def exFrames : List frame_discovery_t :=
  [⟨11, 12, 13, 1, 100⟩, ⟨21, 22, 23, 101, 200⟩]

/-- Example image buffer asking for frame `frame` of `exFrames`. -/
def exImb (frame : Int) : isImageBufType :=
  ⟨frame, some ⟨exFrames⟩, false, 0, 0, 0, 0, [], false⟩

/-! ## HDF5 frame reader: `discovery_cb` and `isH5GetData` of `isH5.c` -/

/-- Conversion of an integer value to a 32-bit unsigned (`uint32_t`). -/
def toUInt32 (n : Int) : Int := n % 2 ^ 32

/-- What one call of `discovery_cb` gets from `calloc` and from the HDF5 library
for the link it is called on, in call order: the record allocation, `H5Dopen2`,
`H5Dget_type`, `H5Dget_space`, then for `image_nr_high` and for `image_nr_low`
the attribute handle, the `H5Aread` status with the `int` it stores, and the
`H5Aclose` status, last the allocation of `done_list`. -/
structure LinkCalls where
  record : Bool
  data_set : Int
  file_type : Int
  file_space : Int
  image_nr_high : Int
  read_high : Int × Int
  close_high : Int
  image_nr_low : Int
  read_low : Int × Int
  close_low : Int
  done_list : Bool
deriving DecidableEq

/-- The ways `discovery_cb` ends: `return 0` or `return -1`, each with the record
it left at the end of the list, or `exit(-1)`. -/
inductive CallbackResult where
  | ret (code : Int) (these_frames : frame_discovery_t)
  | exit
deriving DecidableEq

/-- The function `discovery_cb` of `isH5.c` (lines 430-572): the record is
allocated zeroed and appended first, then filled field by field until a call
fails. -/
def discovery_cb (c : LinkCalls) : CallbackResult :=
  if c.record = false then CallbackResult.exit
  else if c.data_set < 0 then CallbackResult.ret (-1) ⟨c.data_set, 0, 0, 0, 0⟩
  else if c.file_type < 0 then CallbackResult.ret (-1) ⟨c.data_set, 0, c.file_type, 0, 0⟩
  else if c.file_space < 0 then
    CallbackResult.ret (-1) ⟨c.data_set, c.file_space, c.file_type, 0, 0⟩
  else if c.image_nr_high < 0 then
    CallbackResult.ret (-1) ⟨c.data_set, c.file_space, c.file_type, 0, 0⟩
  else if c.read_high.1 < 0 then
    CallbackResult.ret (-1) ⟨c.data_set, c.file_space, c.file_type, 0, 0⟩
  else if c.close_high < 0 then
    CallbackResult.ret (-1) ⟨c.data_set, c.file_space, c.file_type, 0, c.read_high.2⟩
  else if c.image_nr_low < 0 then
    CallbackResult.ret (-1) ⟨c.data_set, c.file_space, c.file_type, 0, c.read_high.2⟩
  else if c.read_low.1 < 0 then
    CallbackResult.ret (-1) ⟨c.data_set, c.file_space, c.file_type, 0, c.read_high.2⟩
  else if c.close_low < 0 then
    CallbackResult.ret (-1)
      ⟨c.data_set, c.file_space, c.file_type, c.read_low.2, c.read_high.2⟩
  else if c.done_list = false then
    CallbackResult.ret (-1)
      ⟨c.data_set, c.file_space, c.file_type, c.read_low.2, c.read_high.2⟩
  else
    CallbackResult.ret 0 ⟨c.data_set, c.file_space, c.file_type, c.read_low.2, c.read_high.2⟩

/-- The ways the walk over the links ends: every callback returned 0, a callback
returned a negative value (the walk stops and fails), or `exit(-1)`. -/
inductive VisitStatus where
  | done
  | failed
  | exit
deriving DecidableEq

/-- The walk `H5Lvisit_by_name(..., discovery_cb, extra, ...)`: the callback is
called on the links in order, appends its record to the list `base`, and stops
the walk when it does not return 0. -/
def visitLinks : List LinkCalls → List frame_discovery_t → List frame_discovery_t × VisitStatus
  | [], base => (base, VisitStatus.done)
  | c :: rest, base =>
    match discovery_cb c with
    | CallbackResult.exit => (base, VisitStatus.exit)
    | CallbackResult.ret code these_frames =>
      if code = 0 then visitLinks rest (base ++ [these_frames])
      else (base ++ [these_frames], VisitStatus.failed)

/-- What `isH5GetData` calls but does not define, besides the calls of
`get_one_frame`: `H5Fopen` by file name; the links under `/entry/data` of an
open master in the order the walk visits them (`none`: the walk fails before
any callback); the allocation of `extra`; and for the pixel mask `H5Dopen2`,
`H5Dget_space`, `H5Sget_simple_extent_npoints` and `H5Dread`, each by the handle
it is called on. -/
structure MasterLib where
  H5Fopen : String → Int
  links : Int → Option (List LinkCalls)
  extraAlloc : Bool
  H5Dopen2_mask : Int → Int
  H5Dget_space : Int → Int
  H5Sget_simple_extent_npoints : Int → Int
  H5Dread_mask : Int → Int

/-- Modelled from the spec: `set_json_object_integer` is defined in a file that
is not among the sources; it stores the integer `value` under `key` in the
metadata object, in place of an earlier value of that key. -/
def set_json_object_integer (meta : List (String × Int)) (key : String) (value : Int) :
    List (String × Int) :=
  if meta.any (fun kv => kv.1 == key) then
    meta.map (fun kv => if kv.1 == key then (key, value) else kv)
  else meta ++ [(key, value)]

/-- The integer stored under `key` in the metadata object, if any. -/
def metaGet (meta : List (String × Int)) (key : String) : Option Int :=
  (meta.find? (fun kv => kv.1 == key)).map Prod.snd

/-- Lines 762-767 of `isH5.c`: the running `uint32_t` minimum of `first_frame`,
from `0xffffffff`. -/
def scanFirstFrame (l : List frame_discovery_t) : Int :=
  l.foldl
    (fun first_frame fp =>
      if first_frame < toUInt32 fp.first_frame then first_frame else toUInt32 fp.first_frame)
    0xffffffff

/-- Lines 762-767 of `isH5.c`: the running `uint32_t` maximum of `last_frame`,
from 0. -/
def scanLastFrame (l : List frame_discovery_t) : Int :=
  l.foldl
    (fun last_frame fp =>
      if last_frame > toUInt32 fp.last_frame then last_frame else toUInt32 fp.last_frame)
    0

/-- Lines 777-838 of `isH5.c`: read the bad-pixel mask of the open master. `none`:
a call failed before the mask was allocated (`bad_pixel_map` is left as it
was); `some false`: the allocation or the read failed (`bad_pixel_map` is
NULL); `some true`: the mask is loaded. `failed` stays 0 in the last case only. -/
def readPixelMask (h5 : H5Lib) (m : MasterLib) (master_file : Int) : Option Bool :=
  let data_set := m.H5Dopen2_mask master_file
  if data_set < 0 then none
  else
    let data_space := m.H5Dget_space data_set
    if data_space < 0 then none
    else
      let rank := h5.H5Sget_simple_extent_ndims data_space
      if rank < 0 then none
      else if rank ≠ 2 then none
      else if (h5.H5Sget_simple_extent_dims data_space).1 < 0 then none
      else
        let npoints := toInt32 (m.H5Sget_simple_extent_npoints data_space)
        if npoints < 0 then none
        else if h5.calloc (toUInt64 (toUInt64 npoints * 4)) = false then some false
        else if m.H5Dread_mask data_set < 0 then some false
        else some true

/-- The ways `isH5GetData` ends: `return err`, `exit(-1)`, or the NULL dereference
of `get_one_frame`. -/
inductive GetDataResult where
  | ret (err : Int)
  | exit
  | fault
deriving DecidableEq

/-- Lines 841-862 of `isH5.c`: `err = -1`, and the call of `get_one_frame` unless
`failed` is set; the image buffer record afterwards and the way out. -/
def finishGetData (h5 : H5Lib) (imb : isImageBufType) (failed : Bool) :
    isImageBufType × GetDataResult :=
  if failed then (imb, GetDataResult.ret (-1))
  else
    match get_one_frame h5 imb with
    | FrameResult.success out => (out, GetDataResult.ret 0)
    | FrameResult.failure _ _ => (imb, GetDataResult.ret (-1))
    | FrameResult.exit => (imb, GetDataResult.exit)
    | FrameResult.fault => (imb, GetDataResult.fault)

/-- Lines 743-839 of `isH5.c`: the first access to a master (`extra == NULL`),
with `meta` already holding `frame` and the master open. -/
def firstAccess (h5 : H5Lib) (m : MasterLib) (imb : isImageBufType) (master_file : Int) :
    isImageBufType × GetDataResult :=
  if m.extraAlloc = false then (imb, GetDataResult.exit)
  else
    match m.links master_file with
    | none => ({ imb with extra := some ⟨[]⟩ }, GetDataResult.ret (-1))
    | some links =>
      match visitLinks links [] with
      | (base, VisitStatus.exit) => ({ imb with extra := some ⟨base⟩ }, GetDataResult.exit)
      | (base, VisitStatus.failed) => ({ imb with extra := some ⟨base⟩ }, GetDataResult.ret (-1))
      | (base, VisitStatus.done) =>
        let meta1 := set_json_object_integer imb.meta "first_frame" (scanFirstFrame base)
        let meta2 := set_json_object_integer meta1 "last_frame" (scanLastFrame base)
        match readPixelMask h5 m master_file with
        | none =>
          finishGetData h5 { imb with extra := some ⟨base⟩, meta := meta2 } true
        | some loaded =>
          finishGetData h5
            { imb with extra := some ⟨base⟩, meta := meta2, bad_pixel_map := loaded }
            (!loaded)

/-- The function `isH5GetData` of `isH5.c` (lines 708-863) for the file name `fn`:
the image buffer record afterwards and the way out. -/
def isH5GetData (h5 : H5Lib) (m : MasterLib) (fn : String) (imb : isImageBufType) :
    isImageBufType × GetDataResult :=
  let imb1 := { imb with meta := set_json_object_integer imb.meta "frame" imb.frame }
  let master_file := m.H5Fopen fn
  if master_file < 0 then (imb1, GetDataResult.ret (-1))
  else
    match imb1.extra with
    | none => firstAccess h5 m imb1 master_file
    | some _ => finishGetData h5 imb1 false

/-- Example link: a data file whose calls all succeed, holding frames `low` to
`high`. -/
def exLink (handle low high : Int) : LinkCalls :=
  { record := true, data_set := handle, file_type := handle + 1, file_space := handle + 2,
    image_nr_high := 5, read_high := (0, high), close_high := 0,
    image_nr_low := 6, read_low := (0, low), close_low := 0, done_list := true }

/-- Example master: opens, links two data files with frames 1..100 and 101..200,
and has a readable pixel mask. -/
def exMaster : MasterLib where
  H5Fopen := fun _ => 3
  links := fun _ => some [exLink 10 1 100, exLink 20 101 200]
  extraAlloc := true
  H5Dopen2_mask := fun _ => 30
  H5Dget_space := fun _ => 31
  H5Sget_simple_extent_npoints := fun _ => 24
  H5Dread_mask := fun _ => 0

/-- Example library: as `exH5`, the rank being 2 for the data space of the pixel
mask (handle 31). -/
def exH5Master : H5Lib :=
  { exH5 4 6 2 with H5Sget_simple_extent_ndims := fun h => if h = 31 then 2 else 3 }

/-- Example image buffer on first access: frame `frame` requested, `extra` NULL. -/
def exImbFresh (frame : Int) : isImageBufType :=
  { frame := frame, extra := none, buf := false, buf_size := 0, buf_height := 0,
    buf_width := 0, buf_depth := 0 }

/-! ## TIFF renderer: `mr.c` -/

/-- A C `double` by its exact value, the quotient `num / den`, `den > 0`. The
doubles of the renderer `marTiff2jpeg` are quotients of two `int`s plus `int`s
and halves; there the embedding keeps them as exact fractions (no rounding of
the quotient). In `marTiff2profile` every operation is rounded to a double
(`Dbl.round`, further down). -/
structure Dbl where
  num : Int
  den : Int
deriving DecidableEq

/-- Conversion `(double) n` of an `int`. -/
def Dbl.ofInt (n : Int) : Dbl := ⟨n, 1⟩

/-- The quotient `a / (double) b` of two `int`s, for `b > 0`. -/
def Dbl.quot (a b : Int) : Dbl := ⟨a, b⟩

/-- The constant `0.5`. -/
def Dbl.half : Dbl := ⟨1, 2⟩

/-- Sum `a + b` of doubles. -/
def Dbl.add (a b : Dbl) : Dbl := ⟨a.num * b.den + b.num * a.den, a.den * b.den⟩

/-- Difference `a - b` of doubles. -/
def Dbl.sub (a b : Dbl) : Dbl := ⟨a.num * b.den - b.num * a.den, a.den * b.den⟩

/-- Opposite `-a` of a double. -/
def Dbl.neg (a : Dbl) : Dbl := ⟨-a.num, a.den⟩

/-- Comparison `a < b` of doubles (positive denominators). -/
def Dbl.lt (a b : Dbl) : Bool := decide (a.num * b.den < b.num * a.den)

/-- Comparison `a <= b` of doubles (positive denominators). -/
def Dbl.le (a b : Dbl) : Bool := decide (a.num * b.den ≤ b.num * a.den)

/-- Conversion `(int) a` of a double: truncation toward zero. -/
def Dbl.toInt (a : Dbl) : Int := Int.tdiv a.num a.den

/-- The least integer not below `a`. -/
def Dbl.ceil (a : Dbl) : Int := -((-a.num) / a.den)

/-- The greatest integer not above `a`. -/
def Dbl.floor (a : Dbl) : Int := a.num / a.den

/-- The rational number a double stands for. -/
def Dbl.val (a : Dbl) : ℚ := (a.num : ℚ) / (a.den : ℚ)

/-- Modelled from the spec: `isType` is declared in `is.h`, which is not among the
sources. The fields are those `mr.c` reads, each a C `int`: the viewport
`(x, y, width, height)` in source pixels, the output size `(xsize, ysize)`, the
contrast floor `wval` and ceiling `contrast`, the source size
`(inWidth, inHeight)` that `marTiffRead` stores, and the profile endpoints. -/
structure isType where
  x : Int
  y : Int
  width : Int
  height : Int
  xsize : Int
  ysize : Int
  wval : Int
  contrast : Int
  inWidth : Int
  inHeight : Int
  pax : Int
  pay : Int
  pbx : Int
  pby : Int
deriving DecidableEq

/-- The value range of a C `int`. -/
def IsInt32 (n : Int) : Prop := -(2 ^ 31) ≤ n ∧ n < 2 ^ 31

/-- Read of the `unsigned short` at element offset `idx` of the image buffer. -/
def load16 (buf : Int → Int) (idx : Int) : Int := buf idx % 65536

/-- The function `nearestValue` of `mr.c` (lines 22-24). -/
def nearestValue (is : isType) (buf : Int → Int) (k l : Dbl) : Int :=
  load16 buf ((k.add Dbl.half).toInt * is.inWidth + (l.add Dbl.half).toInt)

/-- The values `v` takes in `for (v = start; v < bound; v++)`, `v` an `int` and
`bound` a double: `start`, `start + 1`, ... below `bound`. -/
def loopRange (start : Int) (bound : Dbl) : List Int :=
  (List.range (bound.ceil - start).toNat).map (fun (t : Nat) => start + (t : Int))

/-- The function `maxBox` of `mr.c` (lines 30-44). -/
def maxBox (is : isType) (buf : Int → Int) (k l : Dbl) (yal yau xal xau : Int) : Int :=
  (loopRange (k.sub (Dbl.ofInt yal)).toInt (k.add (Dbl.ofInt yau))).foldl
    (fun d m =>
      (loopRange (l.sub (Dbl.ofInt xal)).toInt (l.add (Dbl.ofInt xau))).foldl
        (fun d n =>
          let d1 := load16 buf (m * is.inWidth + n)
          if d > d1 then d else d1)
        d)
    0

/-- Lines 161-163 (and 165-167) of `mr.c`: the lower half of the box. -/
def lowerHalf (a : Int) : Int := Int.tdiv a 2

/-- Lines 161-163 (and 165-167) of `mr.c`: the upper half of the box, one more
than the lower half when the two halves do not add up to `a`. -/
def upperHalf (a : Int) : Int :=
  if Int.tdiv a 2 + Int.tdiv a 2 < a then Int.tdiv a 2 + 1 else Int.tdiv a 2

/-- Line 159 of `mr.c`: `ya = height / ysize`. -/
def isType.ya (is : isType) : Int := Int.tdiv is.height is.ysize

/-- Line 160 of `mr.c`: `xa = width / xsize`. -/
def isType.xa (is : isType) : Int := Int.tdiv is.width is.xsize

/-- The value of `yal`. -/
def isType.yal (is : isType) : Int := lowerHalf is.ya

/-- The value of `yau`. -/
def isType.yau (is : isType) : Int := upperHalf is.ya

/-- The value of `xal`. -/
def isType.xal (is : isType) : Int := lowerHalf is.xa

/-- The value of `xau`. -/
def isType.xau (is : isType) : Int := upperHalf is.xa

/-- Lines 173, 175-176 of `mr.c`: `jmin`, clamped to 0 from below. -/
def isType.jmin (is : isType) : Int :=
  if Int.tdiv (-is.x * is.xsize) is.width + is.xal < 0 then 0
  else Int.tdiv (-is.x * is.xsize) is.width + is.xal

/-- Lines 174, 177-178 of `mr.c`: `jmax`, clamped to `xsize` from above. -/
def isType.jmax (is : isType) : Int :=
  if Int.tdiv ((is.inWidth - is.x) * is.xsize) is.width - is.xau + 1 > is.xsize then is.xsize
  else Int.tdiv ((is.inWidth - is.x) * is.xsize) is.width - is.xau + 1

/-- Line 194 of `mr.c`: `k = (i * height) / (double) ysize + y`. -/
def isType.rowK (is : isType) (i : Int) : Dbl :=
  (Dbl.quot (i * is.height) is.ysize).add (Dbl.ofInt is.y)

/-- Line 201 of `mr.c`: `l = j * width / (double) xsize + x`. -/
def isType.colL (is : isType) (j : Int) : Dbl :=
  (Dbl.quot (j * is.width) is.xsize).add (Dbl.ofInt is.x)

/-- Line 196 of `mr.c`: `k - yal >= -0.5 && k + yau < inHeight - 0.5`. -/
def isType.rowTest (is : isType) (i : Int) : Bool :=
  Dbl.le Dbl.half.neg ((is.rowK i).sub (Dbl.ofInt is.yal)) &&
    Dbl.lt ((is.rowK i).add (Dbl.ofInt is.yau)) ((Dbl.ofInt is.inHeight).sub Dbl.half)

/-- Lines 208-221 of `mr.c`: the sampled value `d` of output pixel `(i, j)`. -/
def sample (is : isType) (buf : Int → Int) (i j : Int) : Int :=
  if is.ya ≤ 1 ∧ is.xa ≤ 1 then nearestValue is buf (is.rowK i) (is.colL j)
  else maxBox is buf (is.rowK i) (is.colL j) is.yal is.yau is.xal is.xau

/-- Lines 223-232 of `mr.c`: the contrast mapping of `d` (an `unsigned short`) to
`dout` (an `unsigned char`), through `rslt` (an `unsigned int`); the division is
an unsigned one. -/
def contrastMap (wval contrast d : Int) : Int :=
  if d ≤ wval then 0
  else if d ≥ contrast then 255
  else
    let rslt := ((d - wval) * 255) % 2 ^ 32
    (rslt / ((contrast - wval) % 2 ^ 32)) % 256

/-- Lines 235-243 of `mr.c`: the three bytes written for the sampled value `d`. -/
def pixelRGB (is : isType) (d : Int) : Int × Int × Int :=
  if d = 65535 then (255, 0, 0)
  else
    ((255 - contrastMap is.wval is.contrast d) % 256,
      (255 - contrastMap is.wval is.contrast d) % 256,
      (255 - contrastMap is.wval is.contrast d) % 256)

/-- Is output pixel `(i, j)` written by the loops of lines 190-245? -/
def isType.rendered (is : isType) (i j : Int) : Bool :=
  is.rowTest i && decide (is.jmin ≤ j) && decide (j < is.jmax)

/-- The three bytes of output pixel `(i, j)` in `bufo` when row `i` is handed to
the encoder: what the loops wrote, or the zeros of `calloc`. -/
def outputPixel (is : isType) (buf : Int → Int) (i j : Int) : Int × Int × Int :=
  if is.rendered i j then pixelRGB is (sample is buf i j) else (0, 0, 0)

/-- The rows `marTiff2jpeg` (lines 93-256 of `mr.c`) hands to the encoder, for a
source `buf` read by `marTiffRead`; `none` when no image is produced (an output
size that is not positive, or a division by zero). -/
def marTiff2jpeg (is : isType) (buf : Int → Int) : Option (List (List (Int × Int × Int))) :=
  if is.ysize ≤ 0 ∨ is.xsize ≤ 0 ∨ is.width = 0 then none
  else
    some ((List.range is.ysize.toNat).map (fun (i : Nat) =>
      (List.range is.xsize.toNat).map (fun (j : Nat) => outputPixel is buf (i : Int) (j : Int))))

/-- The claimed box of max-pooling, in the words of the specification: the
maximum source pixel over the integer positions `(m, n)` with
`k - yal <= m < k + yau` and `l - xal <= n < l + xau` (0 for an empty box). -/
def specMaxBox (is : isType) (buf : Int → Int) (k l : Dbl) : Int :=
  (loopRange (k.sub (Dbl.ofInt is.yal)).ceil (k.add (Dbl.ofInt is.yau))).foldl
    (fun d m =>
      (loopRange (l.sub (Dbl.ofInt is.xal)).ceil (l.add (Dbl.ofInt is.xau))).foldl
        (fun d n => max d (load16 buf (m * is.inWidth + n)))
        d)
    0

/-- The claimed correspondence between output pixel `(i, j)` and source pixel
`(m, n)`, in the words of the specification: the rounded sampling position in
1:1 or upscale mode, the sampling box `[k - yal, k + yau) x [l - xal, l + xau)`
in downscale mode. -/
def specCorresponds (is : isType) (i j m n : Int) : Bool :=
  if is.ya ≤ 1 ∧ is.xa ≤ 1 then
    decide (((is.rowK i).add Dbl.half).floor = m ∧ ((is.colL j).add Dbl.half).floor = n)
  else
    Dbl.le ((is.rowK i).sub (Dbl.ofInt is.yal)) (Dbl.ofInt m) &&
      Dbl.lt (Dbl.ofInt m) ((is.rowK i).add (Dbl.ofInt is.yau)) &&
      Dbl.le ((is.colL j).sub (Dbl.ofInt is.xal)) (Dbl.ofInt n) &&
      Dbl.lt (Dbl.ofInt n) ((is.colL j).add (Dbl.ofInt is.xau))

/-! ### Concrete renderings, used to evaluate the embedding -/

/-- Example request: the whole of an 8 x 8 source rendered to 4 x 4. -/
def exIs8to4 : isType :=
  { x := 0, y := 0, width := 8, height := 8, xsize := 4, ysize := 4, wval := 0,
    contrast := 65535, inWidth := 8, inHeight := 8, pax := 0, pay := 0, pbx := 0, pby := 0 }

/-- Example source: 8 x 8, value 65535 at `(0, 0)`, 0 elsewhere. -/
def exBufCorner : Int → Int := fun idx => if idx = 0 then 65535 else 0

/-- Example request: the whole of a 5 x 5 source rendered to 2 x 2. -/
def exIs5to2 : isType :=
  { x := 0, y := 0, width := 5, height := 5, xsize := 2, ysize := 2, wval := 0,
    contrast := 65535, inWidth := 5, inHeight := 5, pax := 0, pay := 0, pbx := 0, pby := 0 }

/-- Example source: 5 x 5, value 100 at `(1, 1)`, 0 elsewhere. -/
def exBufOneOne : Int → Int := fun idx => if idx = 6 then 100 else 0

/-- Output pixel `(i, j)` of a rendering, when the rendering has it. -/
def pixelAt (img : Option (List (List (Int × Int × Int)))) (i j : Nat) :
    Option (Int × Int × Int) :=
  match img with
  | none => none
  | some rows =>
    match rows[i]? with
    | none => none
    | some row => row[j]?

/-- The positions `(m, n)` the loops of `maxBox` visit for output pixel `(i, j)`:
`m` from `(int)(k - yal)` while `m < k + yau`, `n` from `(int)(l - xal)` while
`n < l + xau`. -/
def inScannedBox (is : isType) (i j m n : Int) : Prop :=
  ((is.rowK i).sub (Dbl.ofInt is.yal)).toInt ≤ m ∧
    Dbl.lt (Dbl.ofInt m) ((is.rowK i).add (Dbl.ofInt is.yau)) = true ∧
    ((is.colL j).sub (Dbl.ofInt is.xal)).toInt ≤ n ∧
    Dbl.lt (Dbl.ofInt n) ((is.colL j).add (Dbl.ofInt is.xau)) = true

/-- The source positions `(m, n)` whose buffer element the sampling of output
pixel `(i, j)` reads (lines 208-221 of `mr.c`): the one position of
`nearestValue`, or every position the loops of `maxBox` visit. The element read
is the one at offset `m * inWidth + n`. -/
def sampleReads (is : isType) (i j : Int) : List (Int × Int) :=
  if is.ya ≤ 1 ∧ is.xa ≤ 1 then
    [(((is.rowK i).add Dbl.half).toInt, ((is.colL j).add Dbl.half).toInt)]
  else
    (loopRange ((is.rowK i).sub (Dbl.ofInt is.yal)).toInt
        ((is.rowK i).add (Dbl.ofInt is.yau))).flatMap
      (fun m =>
        (loopRange ((is.colL j).sub (Dbl.ofInt is.xal)).toInt
            ((is.colL j).add (Dbl.ofInt is.xau))).map
          (fun n => (m, n)))

/-- Example request: the identity rendering of a 2 x 2 source. -/
def exIsIdentity2 : isType :=
  { x := 0, y := 0, width := 2, height := 2, xsize := 2, ysize := 2, wval := 0,
    contrast := 65535, inWidth := 2, inHeight := 2, pax := 0, pay := 0, pbx := 0, pby := 0 }

/-- Example request: the whole of a 4 x 4 source rendered to 8 x 8. -/
def exIs4to8 : isType :=
  { x := 0, y := 0, width := 4, height := 4, xsize := 8, ysize := 8, wval := 0,
    contrast := 65535, inWidth := 4, inHeight := 4, pax := 0, pay := 0, pbx := 0, pby := 0 }

/-- Example source: 8 x 8, value 65535 at `(3, 3)`, 0 elsewhere. -/
def exBufThreeThree : Int → Int := fun idx => if idx = 27 then 65535 else 0

/-- The number of output pixels of a rendering that are `(255, 0, 0)`. -/
def countRed (img : Option (List (List (Int × Int × Int)))) : Nat :=
  match img with
  | none => 0
  | some rows => (rows.map (fun row => row.countP (fun p => decide (p = (255, 0, 0))))).sum

/-! ### Profile rendering: `marTiff2profile` of `mr.c`

The doubles of `marTiff2profile` are IEEE 754 binary64 values: the result of
every operation on them (product, sum, quotient, square root) is rounded to the
nearest double, by `Dbl.round` and `Dbl.sqrt`; a product and the sum that
follows it are rounded one after the other. -/

/-- Product `a * b` of doubles, before rounding. -/
def Dbl.mul (a b : Dbl) : Dbl := ⟨a.num * b.num, a.den * b.den⟩

/-- Quotient `a / b` of doubles, before rounding, for `b` other than 0. -/
def Dbl.div (a b : Dbl) : Dbl :=
  if b.num < 0 then ⟨-(a.num * b.den), a.den * -b.num⟩ else ⟨a.num * b.den, a.den * b.num⟩

/-- The number of binary digits of `n`, found by halving at most `fuel` times. -/
def bitLengthFuel : Nat → Nat → Nat
  | 0, _ => 0
  | fuel + 1, n => if n = 0 then 0 else bitLengthFuel fuel (n / 2) + 1

/-- The number of binary digits of `n`: 0 for 0, `floor(log2 n) + 1` otherwise. -/
def bitLength (n : Nat) : Nat := bitLengthFuel n n

/-- The binary exponent `floor(log2 (a / b))` of a positive quotient. -/
def floorLog2 (a b : Nat) : Int :=
  if a * 2 ^ ((bitLength b : Int) - (bitLength a : Int)).toNat <
      b * 2 ^ ((bitLength a : Int) - (bitLength b : Int)).toNat then
    (bitLength a : Int) - (bitLength b : Int) - 1
  else (bitLength a : Int) - (bitLength b : Int)

/-- The integer nearest to `n / d`, the even one of the two when `n / d` lies
halfway between two integers. -/
def nearestEven (n d : Nat) : Nat :=
  if 2 * (n % d) > d ∨ (2 * (n % d) = d ∧ (n / d) % 2 = 1) then n / d + 1 else n / d

/-- The binary exponent of the last of the 53 significant bits of a double near
`x`, for `x` other than 0: `floor(log2 |x|) - 52`. -/
def Dbl.ulpExp (x : Dbl) : Int := floorLog2 x.num.natAbs x.den.natAbs - 52

/-- The integer nearest to `|x| / 2^e`, for `e = x.ulpExp`: the 53 significant
bits of the double nearest to `x` (or `2^53`, when the rounding carries). -/
def Dbl.mantissa (x : Dbl) : Nat :=
  nearestEven (x.num.natAbs * 2 ^ (-x.ulpExp).toNat) (x.den.natAbs * 2 ^ x.ulpExp.toNat)

/-- Rounding of the exact value `x` to a double (IEEE 754 binary64: 53
significant bits, round to nearest, ties to even): the double is
`sign * mantissa * 2^ulpExp`. A value that is a double already is returned as it
is written. The exponent range of a double is not modelled (no overflow, no
subnormal values). -/
def Dbl.round (x : Dbl) : Dbl :=
  if x.num = 0 then x
  else if x.num.sign * (x.mantissa : Int) * 2 ^ x.ulpExp.toNat * x.den =
      x.num * 2 ^ (-x.ulpExp).toNat then x
  else ⟨x.num.sign * (x.mantissa : Int) * 2 ^ x.ulpExp.toNat, 2 ^ (-x.ulpExp).toNat⟩

/-- The integer square root by binary search from bit `k` down: the greatest `r`
reached by adding powers of two below `2^k` with `r * r <= n`. -/
def isqrtAux (n : Nat) : Nat → Nat → Nat
  | 0, r => r
  | k + 1, r =>
    if (r + 2 ^ k) * (r + 2 ^ k) ≤ n then isqrtAux n k (r + 2 ^ k) else isqrtAux n k r

/-- The integer square root `floor(sqrt n)`. -/
def isqrt (n : Nat) : Nat := isqrtAux n (bitLength n) 0

/-- The function `sqrt` of the C library on a double `x >= 0`: the double nearest
to the square root (IEEE 754 requires the correctly rounded result). With `e`
half the binary exponent of `x`, less 52, `m0 = floor(sqrt(x / 4^e))` has 53
bits and is rounded up when `sqrt(x / 4^e) > m0 + 1/2`. Zero is returned as it
is. -/
def Dbl.sqrt (x : Dbl) : Dbl :=
  if x.num ≤ 0 then x
  else
    let e : Int := floorLog2 x.num.natAbs x.den.natAbs / 2 - 52
    let n : Nat := x.num.natAbs * 4 ^ (-e).toNat
    let d : Nat := x.den.natAbs * 4 ^ e.toNat
    let m0 : Nat := isqrt (n / d)
    let m : Nat := if 4 * n > (4 * m0 * m0 + 4 * m0 + 1) * d then m0 + 1 else m0
    ⟨(m : Int) * 2 ^ e.toNat, 2 ^ (-e).toNat⟩

/-- Conversion `(int) a` of a double whose value may lie outside the range of
`int`: truncation toward zero inside the range; outside it the conversion is
undefined in C, and the embedding takes the value the conversion instruction of
x86-64 gives, `INT_MIN`. -/
def Dbl.toInt32 (a : Dbl) : Int :=
  if (-(2 ^ 31) - 1) * a.den < a.num ∧ a.num < 2 ^ 31 * a.den then a.toInt else -(2 ^ 31)

/-- Line 273 of `mr.c`: the argument of `sqrt`,
`(double)(pbx - pax) * (pbx - pax) + (pby - pay) * (pby - pay)`: the first
product is a product of doubles, the second a product of `int`s (32-bit wrap),
converted to double for the sum. -/
def isType.profileSum (is : isType) : Dbl :=
  ((((Dbl.ofInt (toInt32 (is.pbx - is.pax))).mul (Dbl.ofInt (toInt32 (is.pbx - is.pax)))).round).add
    (Dbl.ofInt (toInt32 (toInt32 (is.pby - is.pay) * toInt32 (is.pby - is.pay))))).round

/-- Line 273 of `mr.c`: the number of points `n = sqrt(...) + 1`, converted to
`int`. The square root of a negative sum is a NaN, whose conversion is the one
of a value out of range. -/
def isType.profileN (is : isType) : Int :=
  if is.profileSum.num < 0 then -(2 ^ 31)
  else ((is.profileSum.sqrt.add (Dbl.ofInt 1)).round).toInt32

/-- Lines 287-288 and 294 of `mr.c`: `k = mk * s + bk`, with
`mk = (double)(pbx - pax) / (double) n` and `bk = pax`. -/
def isType.profileK (is : isType) (s : Int) : Dbl :=
  ((((((Dbl.ofInt (toInt32 (is.pbx - is.pax))).div (Dbl.ofInt is.profileN)).round).mul
    (Dbl.ofInt s)).round).add (Dbl.ofInt is.pax)).round

/-- Lines 290-291 and 295 of `mr.c`: `l = ml * s + bl`, with
`ml = (double)(pby - pay) / (double) n` and `bl = pay`. -/
def isType.profileL (is : isType) (s : Int) : Dbl :=
  ((((((Dbl.ofInt (toInt32 (is.pby - is.pay))).div (Dbl.ofInt is.profileN)).round).mul
    (Dbl.ofInt s)).round).add (Dbl.ofInt is.pay)).round

/-- Lines 297-301 of `mr.c`: the value stored in `maxs[s]`, the call of
`nearestValue` (lines 22-24) written out. The sums `k + 0.5` and `l + 0.5` are
rounded to doubles before their conversion to `int`. -/
def profileValue (is : isType) (buf : Int → Int) (s : Int) : Int :=
  if 0 ≤ ((is.profileK s).add Dbl.half).round.toInt32 ∧
      ((is.profileK s).add Dbl.half).round.toInt32 < is.inHeight ∧
      0 ≤ ((is.profileL s).add Dbl.half).round.toInt32 ∧
      ((is.profileL s).add Dbl.half).round.toInt32 < is.inWidth then
    load16 buf (((is.profileK s).add Dbl.half).round.toInt32 * is.inWidth +
      ((is.profileL s).add Dbl.half).round.toInt32)
  else 0

/-- The state of the loop of lines 293-304 of `mr.c`: the values stored in `maxs`
so far, `mx` and `mn`. -/
structure ProfileState where
  maxs : List Int
  mx : Int
  mn : Int
deriving DecidableEq

/-- One turn of the loop of lines 293-304 of `mr.c`. -/
def profileStep (is : isType) (buf : Int → Int) (st : ProfileState) (s : Nat) : ProfileState :=
  { maxs := st.maxs ++ [profileValue is buf s]
    mx := if profileValue is buf s > st.mx then profileValue is buf s else st.mx
    mn := if profileValue is buf s < st.mn then profileValue is buf s else st.mn }

/-- The XML document `marTiff2profile` writes: the four attributes of `data` and
the `(x, y)` attributes of the `point` elements, in order. -/
structure ProfileOutput where
  xMin : Int
  xMax : Int
  yMin : Int
  yMax : Int
  points : List (Int × Int)
deriving DecidableEq

/-- Line 275 of `mr.c`: does `calloc(n, sizeof(unsigned short))` return a buffer?
The `int n` is converted to `size_t`; the call returns NULL when the byte count
`n * 2` does not fit `size_t`, and otherwise what the library `calloc` answers
for that number of elements. -/
def callocMaxs (calloc : Int → Bool) (n : Int) : Bool :=
  if 2 ^ 64 ≤ toUInt64 n * 2 then false else calloc (toUInt64 n)

/-- The function `marTiff2profile` of `mr.c` (lines 260-311) for a source `buf`
read by `marTiffRead`; `calloc` tells whether the library returns a buffer for
the given number of elements, and `none` is the return without output when
`maxs` is not allocated. `mn` starts at `(unsigned short) -1 = 65535`. -/
def marTiff2profile (calloc : Int → Bool) (is : isType) (buf : Int → Int) :
    Option ProfileOutput :=
  if callocMaxs calloc is.profileN = false then none
  else
    let st := (List.range is.profileN.toNat).foldl (profileStep is buf) ⟨[], 0, 65535⟩
    some
      { xMin := 0
        xMax := is.profileN
        yMin := st.mn
        yMax := st.mx
        points := (List.range is.profileN.toNat).zipWith (fun (s : Nat) v => ((s : Int), v))
          st.maxs }

/-- The claimed number of points, in the words of the specification:
`floor(sqrt((pbx-pax)^2 + (pby-pay)^2)) + 1`, over the integers. -/
def specProfileN (is : isType) : Int :=
  (isqrt ((is.pbx - is.pax) ^ 2 + (is.pby - is.pay) ^ 2).toNat : Int) + 1

/-- The claimed row coordinate, in the words of the specification:
`k(s) = (pbx-pax)/n * s + pax`, as an exact fraction. -/
def specProfileK (is : isType) (s : Int) : Dbl :=
  ((Dbl.quot (is.pbx - is.pax) (specProfileN is)).mul (Dbl.ofInt s)).add (Dbl.ofInt is.pax)

/-- The claimed column coordinate, in the words of the specification:
`l(s) = (pby-pay)/n * s + pay`, as an exact fraction. -/
def specProfileL (is : isType) (s : Int) : Dbl :=
  ((Dbl.quot (is.pby - is.pay) (specProfileN is)).mul (Dbl.ofInt s)).add (Dbl.ofInt is.pay)

/-- The claimed value of profile point `s`, in the words of the specification:
the source pixel nearest to `(k(s), l(s))`, at row `round(k(s))` and column
`round(l(s))`, when that pixel lies inside the image, and 0 otherwise; `round`
is the nearest integer, `floor(v + 0.5)`. -/
def specProfileValue (is : isType) (buf : Int → Int) (s : Int) : Int :=
  if 0 ≤ ((specProfileK is s).add Dbl.half).floor ∧
      ((specProfileK is s).add Dbl.half).floor < is.inHeight ∧
      0 ≤ ((specProfileL is s).add Dbl.half).floor ∧
      ((specProfileL is s).add Dbl.half).floor < is.inWidth then
    load16 buf (((specProfileK is s).add Dbl.half).floor * is.inWidth +
      ((specProfileL is s).add Dbl.half).floor)
  else 0

/-- Example request: the profile from `(0, 0)` to `(9, 9)` over a 10 x 10 source. -/
def exIsDiagonal : isType :=
  { x := 0, y := 0, width := 10, height := 10, xsize := 10, ysize := 10, wval := 0,
    contrast := 65535, inWidth := 10, inHeight := 10, pax := 0, pay := 0, pbx := 9, pby := 9 }

/-- Example source: 10 x 10, value `i + j` at `(i, j)`. -/
def exBufSum : Int → Int := fun idx => idx / 10 + idx % 10

/-- Example request: the profile from `(-1, 0)` to `(-1, 0)` over a 2 x 2 source. -/
def exIsOutside : isType :=
  { x := 0, y := 0, width := 2, height := 2, xsize := 2, ysize := 2, wval := 0,
    contrast := 65535, inWidth := 2, inHeight := 2, pax := -1, pay := 0, pbx := -1, pby := 0 }

/-- Example request: the profile from `(0, 0)` to `(0, 65536)`. -/
def exIsLong : isType :=
  { x := 0, y := 0, width := 10, height := 10, xsize := 10, ysize := 10, wval := 0,
    contrast := 65535, inWidth := 10, inHeight := 10, pax := 0, pay := 0, pbx := 0,
    pby := 65536 }

/-- Example request: the profile from `(0, 0)` to `(0, 46341)`. -/
def exIsNegativeSum : isType :=
  { x := 0, y := 0, width := 10, height := 10, xsize := 10, ysize := 10, wval := 0,
    contrast := 65535, inWidth := 10, inHeight := 10, pax := 0, pay := 0, pbx := 0,
    pby := 46341 }

/-- Example request: the profile from `(0, 0)` to `(200000000, 20000)`. -/
def exIsFar : isType :=
  { x := 0, y := 0, width := 10, height := 10, xsize := 10, ysize := 10, wval := 0,
    contrast := 65535, inWidth := 10, inHeight := 10, pax := 0, pay := 0, pbx := 200000000,
    pby := 20000 }

/-- Example request: the profile from `(0, 0)` to `(15, 15)` over a 16 x 16 source. -/
def exIsFifteen : isType :=
  { x := 0, y := 0, width := 16, height := 16, xsize := 16, ysize := 16, wval := 0,
    contrast := 65535, inWidth := 16, inHeight := 16, pax := 0, pay := 0, pbx := 15,
    pby := 15 }

/-! ## Metadata extractor: `isH5GetMeta` of `isH5.c` -/

/-- A value of the metadata object: an integer, a string, or another value (a
real or an array) by its JSON text. -/
inductive MetaValue where
  | integer (n : Int)
  | string (s : String)
  | other (text : String)
deriving DecidableEq

/-- Modelled from the spec: `struct h5_json_property` is not declared in the
sources; an entry of a property table is the triple
`(hdf5_path, json_name, type_code)`. -/
structure h5_json_property where
  h5_location : String
  json_name : String
  type : Char
deriving DecidableEq

/-- What `isH5GetMeta` uses but does not define: `H5Fopen` by file name, whether
`json_object()` returns an object, `get_dcu_version` and `h5_property_to_json`
by the handle of the open master (`none` is NULL), whether `json_object_update`
fails for the two objects it is given, the name `json_convert_software_version`
carries, and the two property tables. -/
structure MetaLib where
  H5Fopen : String → Int
  json_object : Bool
  get_dcu_version : Int → Option (List (String × MetaValue))
  software_version_name : String
  json_convert_array_1_8 : List h5_json_property
  json_convert_array_1_6 : List h5_json_property
  h5_property_to_json : Int → h5_json_property → Option (List (String × MetaValue))
  json_object_update_fails : List (String × MetaValue) → List (String × MetaValue) → Bool

/-- The ways `isH5GetMeta` ends: it returns the metadata object, it returns NULL,
or `strcmp` is called with a NULL argument. -/
inductive MetaResult where
  | object (meta : List (String × MetaValue))
  | null
  | fault
deriving DecidableEq

/-- Setting `key` to `value` in a JSON object: in place of an earlier value of
the key, or as a new member. -/
def objectSet (obj : List (String × MetaValue)) (key : String) (value : MetaValue) :
    List (String × MetaValue) :=
  if obj.any (fun kv => kv.1 == key) then
    obj.map (fun kv => if kv.1 == key then (key, value) else kv)
  else obj ++ [(key, value)]

/-- The call `json_object_update(meta, tmp_obj)` when it succeeds: every member of
`tmp_obj` is set in `meta`. -/
def objectUpdate (meta tmp_obj : List (String × MetaValue)) : List (String × MetaValue) :=
  tmp_obj.foldl (fun m kv => objectSet m kv.1 kv.2) meta

/-- The keys of a JSON object. -/
def objectKeys (obj : List (String × MetaValue)) : List String := obj.map Prod.fst

/-- The call `json_string_value(json_object_get(obj, key))` on a possibly NULL
object: NULL unless the member is a string. -/
def objectString (obj : Option (List (String × MetaValue))) (key : String) : Option String :=
  match obj with
  | none => none
  | some members =>
    match (members.find? (fun kv => kv.1 == key)).map Prod.snd with
    | some (MetaValue.string s) => some s
    | _ => none

/-- The call `json_integer_value(json_object_get(obj, key))`: 0 unless the member
is an integer. -/
def objectInteger (obj : List (String × MetaValue)) (key : String) : Int :=
  match (obj.find? (fun kv => kv.1 == key)).map Prod.snd with
  | some (MetaValue.integer n) => n
  | _ => 0

/-- Lines 370-377 of `isH5.c`: the table chosen for the version string; `none`
is the call of `strcmp` with a NULL string. -/
def selectProperties (lib : MetaLib) (dcu_version_str : Option String) :
    Option (List h5_json_property) :=
  match dcu_version_str with
  | none => none
  | some str =>
    if str = "1.8.0" then some lib.json_convert_array_1_8
    else some lib.json_convert_array_1_6

/-- Lines 379-399 of `isH5.c`: the loop over the chosen table; `none` is the
`return NULL` after a failed `json_object_update`. -/
def extractProperties (lib : MetaLib) (master_file : Int) :
    List h5_json_property → List (String × MetaValue) → Option (List (String × MetaValue))
  | [], meta => some meta
  | property :: rest, meta =>
    match lib.h5_property_to_json master_file property with
    | none => extractProperties lib master_file rest meta
    | some tmp_obj =>
      if lib.json_object_update_fails meta tmp_obj then none
      else extractProperties lib master_file rest (objectUpdate meta tmp_obj)

/-- The function `isH5GetMeta` of `isH5.c` (lines 327-413) for the file name `fn`. -/
def isH5GetMeta (lib : MetaLib) (fn : String) : MetaResult :=
  let master_file := lib.H5Fopen fn
  if master_file < 0 then MetaResult.null
  else if lib.json_object = false then MetaResult.null
  else
    match selectProperties lib
        (objectString (lib.get_dcu_version master_file) lib.software_version_name) with
    | none => MetaResult.fault
    | some properties =>
      match extractProperties lib master_file properties [] with
      | none => MetaResult.null
      | some meta =>
        MetaResult.object
          (objectSet
            (objectSet meta "image_depth"
              (MetaValue.integer (Int.tdiv (objectInteger meta "bit_depth_image") 8)))
            "fn" (MetaValue.string fn))

/-- Example master: opens; of the three entries of the older table the second,
`chi_start`, is missing; the software version is `version` (`none`: no readable
software version). -/
def exMetaLib (version : Option String) : MetaLib where
  H5Fopen := fun _ => 3
  json_object := true
  get_dcu_version := fun _ => version.map (fun v => [("software_version", MetaValue.string v)])
  software_version_name := "software_version"
  json_convert_array_1_8 :=
    [⟨"/entry/instrument/detector/bit_depth_image", "bit_depth_image", 'i'⟩,
      ⟨"/entry/instrument/detector/count_time", "count_time", 'f'⟩]
  json_convert_array_1_6 :=
    [⟨"/entry/instrument/detector/bit_depth_image", "bit_depth_image", 'i'⟩,
      ⟨"/entry/sample/goniometer/chi_start", "chi_start", 'f'⟩,
      ⟨"/entry/instrument/detector/count_time", "count_time", 'f'⟩]
  h5_property_to_json := fun _ property =>
    if property.json_name = "bit_depth_image" then
      some [("bit_depth_image", MetaValue.integer 32)]
    else if property.json_name = "count_time" then
      some [("count_time", MetaValue.other "0.1")]
    else none
  json_object_update_fails := fun _ _ => false

/-! ## Worker: `isWorker` of `isWorker.c` -/

/-- What the worker calls but does not define: the parser and the printer of
jansson. -/
structure WorkerDeps where
  json_loads : String → Option Json
  json_dumps : Json → String

/-- The call `strcasecmp(a, b) == 0`: equality of the two strings without regard
to the case of the letters `A` to `Z`. -/
def strcasecmpEq (a b : String) : Bool :=
  decide (a.data.map Char.toLower = b.data.map Char.toLower)

/-- What one turn of the worker loop does, in order: the pop, then the call of the
renderer `isJpeg` or one of the three log lines. -/
inductive WorkerEvent where
  | pop
  | parseError (payload : String)
  | noType (jobstr : String)
  | jpeg (job : Json)
  | unknownType (job_type jobstr : String)

/-- How the worker ends: `return NULL` after the sentinel, `exit(-1)`, or blocked
in `BRPOP` when no further payload arrives. -/
inductive WorkerEnd where
  | returned
  | exit
  | blocked
deriving DecidableEq

/-- Is the event a call of the renderer? -/
def WorkerEvent.isJpeg : WorkerEvent → Bool
  | WorkerEvent.jpeg _ => true
  | _ => false

/-- Is the event a pop? -/
def WorkerEvent.isPop : WorkerEvent → Bool
  | WorkerEvent.pop => true
  | _ => false

/-- Lines 73-97 of `isWorker.c`: what the worker does with a popped payload other
than the sentinel. -/
def handlePayload (D : WorkerDeps) (payload : String) : List WorkerEvent :=
  match D.json_loads payload with
  | none => [WorkerEvent.pop, WorkerEvent.parseError payload]
  | some job =>
    match json_string_value (json_object_get (some job) "type") with
    | none => [WorkerEvent.pop, WorkerEvent.noType (D.json_dumps job)]
    | some job_type =>
      if strcasecmpEq "jpeg" job_type then [WorkerEvent.pop, WorkerEvent.jpeg job]
      else [WorkerEvent.pop, WorkerEvent.unknownType job_type (D.json_dumps job)]

/-- The loop of `isWorker` (lines 32-99 of `isWorker.c`) over the replies to its
successive `BRPOP` commands: what it does, and how it ends. -/
def isWorker (D : WorkerDeps) : List Reply → List WorkerEvent × WorkerEnd
  | [] => ([], WorkerEnd.blocked)
  | Reply.array [_, Reply.string payload] :: rest =>
    if payload = "end" then ([WorkerEvent.pop], WorkerEnd.returned)
    else ((handlePayload D payload) ++ (isWorker D rest).1, (isWorker D rest).2)
  | _ :: _ => ([WorkerEvent.pop], WorkerEnd.exit)

/-- The replies that deliver the payloads `payloads` from the queue `key`. -/
def popReplies (key : String) (payloads : List String) : List Reply :=
  payloads.map (fun payload => Reply.array [Reply.string key, Reply.string payload])

/-- Example worker environment: `jpegJob`, `upperJob`, `profileJob` and `bareJob`
parse to jobs of type `jpeg`, `JPEG`, `profile` and without type; nothing else
parses. -/
def exWorkerDeps : WorkerDeps where
  json_loads := fun str =>
    if str = "jpegJob" then some (Json.object [("type", Json.string "jpeg")])
    else if str = "upperJob" then some (Json.object [("type", Json.string "JPEG")])
    else if str = "profileJob" then some (Json.object [("type", Json.string "profile")])
    else if str = "bareJob" then some (Json.object [("frame", Json.integer 1)])
    else none
  json_dumps := fun _ => "job"

/-! ## Renderer: the division of the contrast mapping -/

/-- Line 230 of `mr.c`: the divisor `contrast - wval`, as the `unsigned int` the
division uses, when the division is executed for the sample `d`; `none` when one
of the two comparisons of lines 223 and 226 holds. -/
def contrastDivisor (wval contrast d : Int) : Option Int :=
  if d ≤ wval then none
  else if d ≥ contrast then none
  else some ((contrast - wval) % 2 ^ 32)

/-- Line 230 of `mr.c`: the quotient `rslt / (contrast - wval)` before it is stored
in `dout`, when the division is executed. -/
def contrastQuotient (wval contrast d : Int) : Option Int :=
  if d ≤ wval then none
  else if d ≥ contrast then none
  else some ((((d - wval) * 255) % 2 ^ 32) / ((contrast - wval) % 2 ^ 32))

/-! ## Properties of the dispatcher -/

/-- Events of `pushJob`: the events so far, then one `LPUSH`. -/
theorem pushJob_events {σ : Type} (D : Deps σ) (w : World) (pl : σ) (pre : List Event)
    (isRequest : Json) (process_key : Option String) :
    (pushJob D w pl pre isRequest process_key).events =
      pre ++ [Event.lpush process_key (D.json_dumps isRequest)] := by
  simp only [pushJob]
  split <;> rfl

/-- The loop goes on after a turn that ends in `next`. -/
theorem mainLoop_next {σ : Type} (D : Deps σ) (w : World) (ws : List World) (pl : σ)
    (h : (mainTurn D w pl).outcome = Outcome.next) :
    mainLoop D (w :: ws) pl =
      ((mainTurn D w pl).events ++ (mainLoop D ws (mainTurn D w pl).plist).1,
        (mainLoop D ws (mainTurn D w pl).plist).2) := by
  simp [mainLoop, h]

/-- C1: on a process-table miss where the auth store returns a string, an
assertion whose decrypted pid differs from the request's pid makes the turn end
without a call of `isRun` and without any `LPUSH`, and the loop goes on with the
next request. -/
theorem C1_pid_mismatch_dropped {σ : Type} (D : Deps σ) (w : World) (ws : List World)
    (pl : σ) (key : Reply) (str : String) (isRequest : Json) (pid enc authPid : String)
    (hpop : w.brpop = Reply.array [key, Reply.string str])
    (hparse : D.json_loads str = some isRequest)
    (hpid : json_string_value (json_object_get (some isRequest) "pid") = some pid)
    (hmiss : (D.isFindProcess pl pid
      (toInt32 (json_integer_value (json_object_get (some isRequest) "esaf")))).2 = none)
    (hget : w.hgetIsAuth pid = Reply.string enc)
    (hauth : json_string_value (json_object_get (D.decryptIsAuth enc) "pid") = some authPid)
    (hne : authPid ≠ pid) :
    (mainTurn D w pl).events.all (fun e => !e.isRun && !e.isLpush) = true ∧
    (mainTurn D w pl).outcome = Outcome.next ∧
    (mainLoop D (w :: ws) pl).1 =
      (mainTurn D w pl).events ++ (mainLoop D ws (mainTurn D w pl).plist).1 := by
  have hdec : ∃ auth, D.decryptIsAuth enc = some auth := by
    cases h : D.decryptIsAuth enc with
    | none => rw [h] at hauth; simp [json_object_get, json_string_value] at hauth
    | some a => exact ⟨a, rfl⟩
  obtain ⟨auth, hdec⟩ := hdec
  rw [hdec] at hauth
  have hne2 : pid ≠ authPid := fun h => hne h.symm
  have hturn : mainTurn D w pl =
      ⟨(D.isFindProcess pl pid
          (toInt32 (json_integer_value (json_object_get (some isRequest) "esaf")))).1,
        [Event.brpop,
          Event.findProcess pid
            (toInt32 (json_integer_value (json_object_get (some isRequest) "esaf"))),
          Event.hgetIsAuth pid, Event.decrypt enc], Outcome.next⟩ := by
    simp [mainTurn, hpop, handleRequest, hparse, hpid, hmiss, cacheMiss, hget, hdec, hauth,
      hne2]
  refine ⟨?_, ?_, ?_⟩
  · rw [hturn]; rfl
  · rw [hturn]
  · rw [mainLoop_next D w ws pl (by rw [hturn])]

/-- C1, evaluated: request `pid = "A"`, assertion `pid = "B"`. -/
theorem C1_pid_mismatch_dropped_witness :
    (mainTurn exDeps exWorldMismatch []).events.all (fun e => !e.isRun && !e.isLpush) = true ∧
    (mainTurn exDeps exWorldMismatch []).outcome = Outcome.next ∧
    (mainLoop exDeps (exWorldMismatch :: []) []).1 =
      (mainTurn exDeps exWorldMismatch []).events ++
        (mainLoop exDeps [] (mainTurn exDeps exWorldMismatch []).plist).1 :=
  C1_pid_mismatch_dropped exDeps exWorldMismatch [] [] (Reply.string "ISREQUESTS") "reqA"
    (Json.object [("pid", Json.string "A"), ("esaf", Json.integer 42)]) "A" "encB" "B"
    rfl rfl rfl rfl rfl rfl (by decide)

/-- C2 as stated fails on the cache-hit path: `("A", 42)` is in the process list,
`EXISTS A` answers 1 and the request is pushed onto `keyA`, while the auth store
holds no assertion under `A`. -/
theorem C2_hit_path_counterexample :
    (mainTurn exDeps exWorldNoAssertion exPlist).events =
      [Event.brpop, Event.findProcess "A" 42, Event.existsKey "A",
        Event.lpush (some "keyA") "job"] ∧
    ¬ AssertionPresent exDeps exWorldNoAssertion "A" := by
  refine ⟨rfl, ?_⟩
  rintro ⟨str, h, -⟩
  simp [exWorldNoAssertion] at h

/-- C2, amended: a turn that pushes a request onto a private queue has popped a
request with a `pid`, and either the pair missed the process list and the auth
store holds under that `pid` an assertion whose decrypted pid is the request's
pid, or the pair hit the process list and `EXISTS pid` answered 1. -/
theorem C2_accepted_request_authenticated {σ : Type} (D : Deps σ) (w : World) (pl : σ)
    (hacc : (mainTurn D w pl).events.any Event.isLpush = true) :
    ∃ key str isRequest pid,
      w.brpop = Reply.array [key, Reply.string str] ∧
      D.json_loads str = some isRequest ∧
      json_string_value (json_object_get (some isRequest) "pid") = some pid ∧
      (((D.isFindProcess pl pid
          (toInt32 (json_integer_value (json_object_get (some isRequest) "esaf")))).2 = none ∧
          AssertionPresent D w pid) ∨
        ((∃ process_key, (D.isFindProcess pl pid
          (toInt32 (json_integer_value (json_object_get (some isRequest) "esaf")))).2 =
            some process_key) ∧
          w.existsKey pid = Reply.integer 1)) := by
  unfold mainTurn at hacc
  split at hacc
  next key str hpop =>
    refine ⟨key, str, ?_⟩
    unfold handleRequest at hacc
    split at hacc
    · simp [Event.isLpush] at hacc
    next isRequest hparse =>
      split at hacc
      · simp [Event.isLpush] at hacc
      next pid hpid =>
        refine ⟨isRequest, pid, hpop, hparse, hpid, ?_⟩
        simp only at hacc
        split at hacc
        next hmiss =>
          left
          refine ⟨hmiss, ?_⟩
          unfold cacheMiss at hacc
          simp only at hacc
          split at hacc
          · simp [Event.isLpush] at hacc
          · simp [Event.isLpush] at hacc
          next enc hget =>
            split at hacc
            next authPid auth hauth hdec =>
              split at hacc
              · simp [Event.isLpush] at hacc
              next heq =>
                simp only [ne_eq, not_not] at heq
                exact ⟨enc, hget, by rw [hauth, heq]⟩
            · simp [Event.isLpush] at hacc
          · simp [Event.isLpush] at hacc
        next process_key hhit =>
          right
          refine ⟨⟨process_key, hhit⟩, ?_⟩
          unfold cacheHit at hacc
          simp only at hacc
          split at hacc
          · simp [Event.isLpush] at hacc
          · simp [Event.isLpush] at hacc
          next n hex =>
            split at hacc
            · simp [Event.isLpush] at hacc
            next hn =>
              simp only [ne_eq, not_not] at hn
              rw [hex, hn]
          · simp [Event.isLpush] at hacc
  · simp [Event.isLpush] at hacc

/-- C2 amended, evaluated on the mismatch-free miss path: request `A`, assertion `A`. -/
theorem C2_accepted_request_authenticated_witness :
    ∃ key str isRequest pid,
      ({ exWorldMismatch with hgetIsAuth := fun _ => Reply.string "encA" } : World).brpop =
        Reply.array [key, Reply.string str] ∧
      exDeps.json_loads str = some isRequest ∧
      json_string_value (json_object_get (some isRequest) "pid") = some pid ∧
      (((exDeps.isFindProcess [] pid
          (toInt32 (json_integer_value (json_object_get (some isRequest) "esaf")))).2 = none ∧
          AssertionPresent exDeps
            { exWorldMismatch with hgetIsAuth := fun _ => Reply.string "encA" } pid) ∨
        ((∃ process_key, (exDeps.isFindProcess [] pid
          (toInt32 (json_integer_value (json_object_get (some isRequest) "esaf")))).2 =
            some process_key) ∧
          ({ exWorldMismatch with hgetIsAuth := fun _ => Reply.string "encA" } : World).existsKey
            pid = Reply.integer 1)) :=
  C2_accepted_request_authenticated exDeps
    { exWorldMismatch with hgetIsAuth := fun _ => Reply.string "encA" } [] rfl

/-- C3: on a process-table hit for `(pid, esaf)`, an `EXISTS pid` reply that is an
integer other than 1 makes the turn call `isProcessDoNotCall(pid, esaf)` (once),
push nothing and go on with the next request; the reply 1 makes the turn push the
request exactly once, onto the key `isFindProcess` returned. -/
theorem C3_hit_path {σ : Type} (D : Deps σ) (w : World) (ws : List World)
    (pl : σ) (key : Reply) (str : String) (isRequest : Json) (pid process_key : String)
    (n : Int)
    (hpop : w.brpop = Reply.array [key, Reply.string str])
    (hparse : D.json_loads str = some isRequest)
    (hpid : json_string_value (json_object_get (some isRequest) "pid") = some pid)
    (hhit : (D.isFindProcess pl pid
      (toInt32 (json_integer_value (json_object_get (some isRequest) "esaf")))).2 =
        some process_key)
    (hex : w.existsKey pid = Reply.integer n) :
    (n ≠ 1 →
      (mainTurn D w pl).events.filter Event.isDoNotCall =
        [Event.doNotCall pid
          (toInt32 (json_integer_value (json_object_get (some isRequest) "esaf")))] ∧
      (mainTurn D w pl).events.filter Event.isLpush = [] ∧
      (mainTurn D w pl).outcome = Outcome.next ∧
      (mainLoop D (w :: ws) pl).1 =
        (mainTurn D w pl).events ++ (mainLoop D ws (mainTurn D w pl).plist).1) ∧
    (n = 1 →
      (mainTurn D w pl).events.filter Event.isLpush =
        [Event.lpush (some process_key) (D.json_dumps isRequest)] ∧
      (mainTurn D w pl).events.filter Event.isDoNotCall = []) := by
  constructor
  · intro hn
    have hturn : mainTurn D w pl =
        ⟨D.isProcessDoNotCall (D.isFindProcess pl pid
            (toInt32 (json_integer_value (json_object_get (some isRequest) "esaf")))).1 pid
            (toInt32 (json_integer_value (json_object_get (some isRequest) "esaf"))),
          [Event.brpop,
            Event.findProcess pid
              (toInt32 (json_integer_value (json_object_get (some isRequest) "esaf"))),
            Event.existsKey pid,
            Event.doNotCall pid
              (toInt32 (json_integer_value (json_object_get (some isRequest) "esaf")))],
          Outcome.next⟩ := by
      simp [mainTurn, hpop, handleRequest, hparse, hpid, hhit, cacheHit, hex, hn]
    refine ⟨?_, ?_, ?_, ?_⟩
    · rw [hturn]; rfl
    · rw [hturn]; rfl
    · rw [hturn]
    · rw [mainLoop_next D w ws pl (by rw [hturn])]
  · intro hn
    have hev : (mainTurn D w pl).events =
        [Event.brpop,
          Event.findProcess pid
            (toInt32 (json_integer_value (json_object_get (some isRequest) "esaf"))),
          Event.existsKey pid,
          Event.lpush (some process_key) (D.json_dumps isRequest)] := by
      simp [mainTurn, hpop, handleRequest, hparse, hpid, hhit, cacheHit, hex, hn,
        pushJob_events]
    rw [hev]
    exact ⟨rfl, rfl⟩

/-- C3, evaluated: `("A", 42)` registered, `EXISTS A` answers 0. -/
theorem C3_hit_path_witness :
    ((0 : Int) ≠ 1 →
      (mainTurn exDeps exWorldMismatch exPlist).events.filter Event.isDoNotCall =
        [Event.doNotCall "A"
          (toInt32 (json_integer_value (json_object_get
            (some (Json.object [("pid", Json.string "A"), ("esaf", Json.integer 42)]))
            "esaf")))] ∧
      (mainTurn exDeps exWorldMismatch exPlist).events.filter Event.isLpush = [] ∧
      (mainTurn exDeps exWorldMismatch exPlist).outcome = Outcome.next ∧
      (mainLoop exDeps (exWorldMismatch :: []) exPlist).1 =
        (mainTurn exDeps exWorldMismatch exPlist).events ++
          (mainLoop exDeps [] (mainTurn exDeps exWorldMismatch exPlist).plist).1) ∧
    ((0 : Int) = 1 →
      (mainTurn exDeps exWorldMismatch exPlist).events.filter Event.isLpush =
        [Event.lpush (some "keyA")
          (exDeps.json_dumps
            (Json.object [("pid", Json.string "A"), ("esaf", Json.integer 42)]))] ∧
      (mainTurn exDeps exWorldMismatch exPlist).events.filter Event.isDoNotCall = []) :=
  C3_hit_path exDeps exWorldMismatch [] exPlist (Reply.string "ISREQUESTS") "reqA"
    (Json.object [("pid", Json.string "A"), ("esaf", Json.integer 42)]) "A" "keyA" 0
    rfl rfl rfl rfl rfl

/-! ## Properties of the frame reader -/

/-- A record returned by the scan is in the list and passes the test. -/
theorem findFrame_some {l : List frame_discovery_t} {frame : Int} {fp : frame_discovery_t}
    (h : findFrame l frame = some fp) : fp ∈ l ∧ frameInRecord frame fp = true := by
  induction l with
  | nil => simp [findFrame] at h
  | cons a rest ih =>
    unfold findFrame at h
    split at h
    next ha =>
      cases h
      exact ⟨List.mem_cons_self _ _, ha⟩
    next =>
      exact ⟨List.mem_cons_of_mem _ (ih h).1, (ih h).2⟩

/-- The scan returns `fp` exactly when `fp` is the first record of the list, in
list order, that passes the test. -/
theorem findFrame_eq_some_iff (l : List frame_discovery_t) (frame : Int)
    (fp : frame_discovery_t) :
    findFrame l frame = some fp ↔
      ∃ before after, l = before ++ fp :: after ∧ frameInRecord frame fp = true ∧
        ∀ r ∈ before, frameInRecord frame r = false := by
  induction l with
  | nil => simp [findFrame]
  | cons a rest ih =>
    unfold findFrame
    by_cases ha : frameInRecord frame a = true
    · rw [if_pos ha]
      constructor
      · intro h
        cases h
        exact ⟨[], rest, rfl, ha, by simp⟩
      · rintro ⟨before, after, hl, hfp, hbefore⟩
        cases before with
        | nil =>
          simp only [List.nil_append, List.cons.injEq] at hl
          rw [hl.1]
        | cons b bs =>
          simp only [List.cons_append, List.cons.injEq] at hl
          have := hbefore b (List.mem_cons_self _ _)
          rw [← hl.1, ha] at this
          cases this
    · rw [if_neg ha, ih]
      constructor
      · rintro ⟨before, after, hl, hfp, hbefore⟩
        refine ⟨a :: before, after, by rw [hl]; rfl, hfp, ?_⟩
        intro r hr
        rcases List.mem_cons.1 hr with h | h
        · rw [h]; simpa using ha
        · exact hbefore r h
      · rintro ⟨before, after, hl, hfp, hbefore⟩
        cases before with
        | nil =>
          simp only [List.nil_append, List.cons.injEq] at hl
          rw [hl.1, hfp] at ha
          exact absurd rfl ha
        | cons b bs =>
          simp only [List.cons_append, List.cons.injEq] at hl
          exact ⟨bs, after, hl.2, hfp, fun r hr => hbefore r (List.mem_cons_of_mem _ hr)⟩

/-- The scan ends with `fp == NULL` exactly when no record passes the test. -/
theorem findFrame_eq_none_iff (l : List frame_discovery_t) (frame : Int) :
    findFrame l frame = none ↔ ∀ r ∈ l, frameInRecord frame r = false := by
  induction l with
  | nil => simp [findFrame]
  | cons a rest ih =>
    unfold findFrame
    by_cases ha : frameInRecord frame a = true
    · simp [ha]
    · simp [ha, ih]

/-- The test of the scan is the inclusive range test. -/
theorem frameInRecord_iff (frame : Int) (fp : frame_discovery_t) :
    frameInRecord frame fp = true ↔ fp.first_frame ≤ frame ∧ frame ≤ fp.last_frame := by
  simp [frameInRecord]

/-- No return of `readFrame` is the frame-not-found failure. -/
theorem readFrame_ne_frameNotFound (h5 : H5Lib) (imb : isImageBufType)
    (fp : frame_discovery_t) (b : BufferFate) :
    readFrame h5 imb fp ≠ FrameResult.failure FrameFailure.frameNotFound b := by
  unfold readFrame
  simp only
  repeat' split
  all_goals simp

/-- C4: `get_one_frame` goes on with the first record, in discovery-list order,
whose inclusive range `first_frame <= f <= last_frame` holds the requested
frame `f`; it returns the frame-not-found failure exactly when no record holds
`f`; a frame equal to the `first_frame` or to the `last_frame` of a record is
found. -/
theorem C4_first_matching_record (h5 : H5Lib) (imb : isImageBufType) (extra : isH5extra_t)
    (hextra : imb.extra = some extra) :
    (∀ fp, findFrame extra.frame_discovery_base imb.frame = some fp ↔
      ∃ before after, extra.frame_discovery_base = before ++ fp :: after ∧
        (fp.first_frame ≤ imb.frame ∧ imb.frame ≤ fp.last_frame) ∧
        ∀ r ∈ before, ¬ (r.first_frame ≤ imb.frame ∧ imb.frame ≤ r.last_frame)) ∧
    (∀ fp, findFrame extra.frame_discovery_base imb.frame = some fp →
      get_one_frame h5 imb = readFrame h5 imb fp) ∧
    ((∃ b, get_one_frame h5 imb = FrameResult.failure FrameFailure.frameNotFound b) ↔
      ∀ r ∈ extra.frame_discovery_base,
        ¬ (r.first_frame ≤ imb.frame ∧ imb.frame ≤ r.last_frame)) ∧
    (∀ r ∈ extra.frame_discovery_base, r.first_frame ≤ r.last_frame →
      imb.frame = r.first_frame ∨ imb.frame = r.last_frame →
      ∃ fp, findFrame extra.frame_discovery_base imb.frame = some fp) := by
  refine ⟨?_, ?_, ?_, ?_⟩
  · intro fp
    rw [findFrame_eq_some_iff]
    constructor
    · rintro ⟨before, after, hl, hfp, hb⟩
      refine ⟨before, after, hl, (frameInRecord_iff _ _).1 hfp, ?_⟩
      intro r hr hc
      have := hb r hr
      rw [(frameInRecord_iff _ _).2 hc] at this
      cases this
    · rintro ⟨before, after, hl, hfp, hb⟩
      refine ⟨before, after, hl, (frameInRecord_iff _ _).2 hfp, ?_⟩
      intro r hr
      cases h : frameInRecord imb.frame r with
      | false => rfl
      | true => exact absurd ((frameInRecord_iff _ _).1 h) (hb r hr)
  · intro fp h
    simp [get_one_frame, hextra, h]
  · constructor
    · rintro ⟨b, hb⟩
      have hnone : findFrame extra.frame_discovery_base imb.frame = none := by
        cases h : findFrame extra.frame_discovery_base imb.frame with
        | none => rfl
        | some fp =>
          simp only [get_one_frame, hextra, h] at hb
          exact absurd hb (readFrame_ne_frameNotFound h5 imb fp b)
      intro r hr hc
      have := (findFrame_eq_none_iff _ _).1 hnone r hr
      rw [(frameInRecord_iff _ _).2 hc] at this
      cases this
    · intro hall
      refine ⟨BufferFate.notAllocated, ?_⟩
      have hnone : findFrame extra.frame_discovery_base imb.frame = none := by
        rw [findFrame_eq_none_iff]
        intro r hr
        cases h : frameInRecord imb.frame r with
        | false => rfl
        | true => exact absurd ((frameInRecord_iff _ _).1 h) (hall r hr)
      simp [get_one_frame, hextra, hnone]
  · intro r hr hle hf
    cases h : findFrame extra.frame_discovery_base imb.frame with
    | some fp => exact ⟨fp, rfl⟩
    | none =>
      have := (findFrame_eq_none_iff _ _).1 h r hr
      have hc : frameInRecord imb.frame r = true := by
        rw [frameInRecord_iff]
        rcases hf with hf | hf <;> rw [hf] <;> simp [hle]
      rw [hc] at this
      cases this

/-- C4, evaluated: frame 101 of the two files 1..100 and 101..200. -/
theorem C4_first_matching_record_witness :
    (∀ fp, findFrame exFrames (exImb 101).frame = some fp ↔
      ∃ before after, exFrames = before ++ fp :: after ∧
        (fp.first_frame ≤ (exImb 101).frame ∧ (exImb 101).frame ≤ fp.last_frame) ∧
        ∀ r ∈ before, ¬ (r.first_frame ≤ (exImb 101).frame ∧
          (exImb 101).frame ≤ r.last_frame)) ∧
    (∀ fp, findFrame exFrames (exImb 101).frame = some fp →
      get_one_frame (exH5 4 6 2) (exImb 101) = readFrame (exH5 4 6 2) (exImb 101) fp) ∧
    ((∃ b, get_one_frame (exH5 4 6 2) (exImb 101) =
        FrameResult.failure FrameFailure.frameNotFound b) ↔
      ∀ r ∈ exFrames, ¬ (r.first_frame ≤ (exImb 101).frame ∧
        (exImb 101).frame ≤ r.last_frame)) ∧
    (∀ r ∈ exFrames, r.first_frame ≤ r.last_frame →
      (exImb 101).frame = r.first_frame ∨ (exImb 101).frame = r.last_frame →
      ∃ fp, findFrame exFrames (exImb 101).frame = some fp) :=
  C4_first_matching_record (exH5 4 6 2) (exImb 101) ⟨exFrames⟩ rfl

/-- The running minimum of the loop is its start value or a `first_frame` of the list. -/
theorem foldl_min_attained (rest : List frame_discovery_t) (init : Int) :
    rest.foldl (fun m r => min m r.first_frame) init = init ∨
      ∃ r ∈ rest, r.first_frame = rest.foldl (fun m r => min m r.first_frame) init := by
  induction rest generalizing init with
  | nil => left; rfl
  | cons a t ih =>
    simp only [List.foldl_cons]
    rcases ih (min init a.first_frame) with h | ⟨r, hr, h⟩
    · rw [h]
      rcases min_choice init a.first_frame with h2 | h2
      · left; exact h2
      · right; exact ⟨a, List.mem_cons_self _ _, h2.symm⟩
    · right; exact ⟨r, List.mem_cons_of_mem _ hr, h⟩

/-- The running maximum of the loop is at least its start value and every
`last_frame` of the list. -/
theorem foldl_max_ge (rest : List frame_discovery_t) (init : Int) :
    init ≤ rest.foldl (fun m r => max m r.last_frame) init ∧
      ∀ r ∈ rest, r.last_frame ≤ rest.foldl (fun m r => max m r.last_frame) init := by
  induction rest generalizing init with
  | nil => simp
  | cons a t ih =>
    simp only [List.foldl_cons]
    obtain ⟨h1, h2⟩ := ih (max init a.last_frame)
    refine ⟨le_trans (le_max_left _ _) h1, ?_⟩
    intro r hr
    rcases List.mem_cons.1 hr with h | h
    · rw [h]; exact le_trans (le_max_right _ _) h1
    · exact h2 r h

/-- The smallest `first_frame` is the `first_frame` of some record. -/
theorem minFirstFrame_attained {l : List frame_discovery_t} {lo : Int}
    (h : minFirstFrame l = some lo) : ∃ r ∈ l, r.first_frame = lo := by
  cases l with
  | nil => simp [minFirstFrame] at h
  | cons a t =>
    simp only [minFirstFrame, Option.some.injEq] at h
    rcases foldl_min_attained t a.first_frame with h2 | ⟨r, hr, h2⟩
    · exact ⟨a, List.mem_cons_self _ _, by rw [← h, h2]⟩
    · exact ⟨r, List.mem_cons_of_mem _ hr, by rw [← h, h2]⟩

/-- Every `last_frame` is at most the largest one. -/
theorem le_maxLastFrame {l : List frame_discovery_t} {hi : Int}
    (h : maxLastFrame l = some hi) : ∀ r ∈ l, r.last_frame ≤ hi := by
  cases l with
  | nil => simp [maxLastFrame] at h
  | cons a t =>
    simp only [maxLastFrame, Option.some.injEq] at h
    intro r hr
    rw [← h]
    rcases List.mem_cons.1 hr with h2 | h2
    · rw [h2]; exact (foldl_max_ge t a.last_frame).1
    · exact (foldl_max_ge t a.last_frame).2 r h2

/-- Ranges without a gap cover every frame from the smallest `first_frame` to the
largest `last_frame`. -/
theorem contiguous_covers (l : List frame_discovery_t) (lo hi : Int)
    (hrec : ∀ r ∈ l, r.first_frame ≤ r.last_frame)
    (hcont : ContiguousRanges l)
    (hlo : minFirstFrame l = some lo) (hhi : maxLastFrame l = some hi) (n : Nat) :
    lo + n ≤ hi → ∃ r ∈ l, r.first_frame ≤ lo + n ∧ lo + n ≤ r.last_frame := by
  induction n with
  | zero =>
    intro _
    obtain ⟨r, hr, h⟩ := minFirstFrame_attained hlo
    exact ⟨r, hr, by simp [h], by have := hrec r hr; simp; omega⟩
  | succ k ih =>
    intro hk
    obtain ⟨r, hr, h1, h2⟩ := ih (by push_cast at hk ⊢; omega)
    by_cases hlast : lo + (k + 1 : Nat) ≤ r.last_frame
    · exact ⟨r, hr, by push_cast at hk ⊢; omega, hlast⟩
    · have hend : r.last_frame = lo + k := by push_cast at hlast; omega
      rcases hcont r hr with hmax | ⟨b, hb, hnext⟩
      · rw [hhi] at hmax
        simp only [Option.some.injEq] at hmax
        push_cast at hk
        omega
      · refine ⟨b, hb, ?_, ?_⟩
        · push_cast; omega
        · have := hrec b hb
          push_cast; omega

/-- In a list of pairwise disjoint ranges at most one record holds a given frame. -/
theorem disjoint_filter_length (l : List frame_discovery_t) (frame : Int)
    (hdisj : DisjointRanges l) : (l.filter (frameInRecord frame)).length ≤ 1 := by
  induction l with
  | nil => simp
  | cons a t ih =>
    unfold DisjointRanges at hdisj
    rw [List.pairwise_cons] at hdisj
    by_cases ha : frameInRecord frame a = true
    · have hnone : t.filter (frameInRecord frame) = [] := by
        rw [List.filter_eq_nil_iff]
        intro b hb hcb
        have hc := hdisj.1 b hb
        rw [frameInRecord_iff] at ha hcb
        omega
      simp [List.filter_cons, ha, hnone]
    · simp only [List.filter_cons, ha]
      exact ih hdisj.2

/-- The scan returns the head of the list of records that hold the frame. -/
theorem findFrame_eq_head_filter (l : List frame_discovery_t) (frame : Int) :
    findFrame l frame = (l.filter (frameInRecord frame)).head? := by
  induction l with
  | nil => rfl
  | cons a t ih =>
    unfold findFrame
    by_cases ha : frameInRecord frame a = true
    · simp [List.filter_cons, ha]
    · simp [List.filter_cons, ha, ih]

/-- C5: for a discovery list whose records satisfy `first_frame <= last_frame` and
whose ranges are pairwise disjoint and leave no gap, every frame `f` between the
smallest `first_frame` and the largest `last_frame` is held by exactly one
record of the list, and that record is the one the scan of `get_one_frame`
selects. -/
theorem C5_exactly_one_record (l : List frame_discovery_t) (lo hi f : Int)
    (hrec : ∀ r ∈ l, r.first_frame ≤ r.last_frame)
    (hdisj : DisjointRanges l) (hcont : ContiguousRanges l)
    (hlo : minFirstFrame l = some lo) (hhi : maxLastFrame l = some hi)
    (hf : lo ≤ f ∧ f ≤ hi) :
    ∃ fp, l.filter (fun r => decide (r.first_frame ≤ f ∧ f ≤ r.last_frame)) = [fp] ∧
      findFrame l f = some fp := by
  have hfilter : (fun r : frame_discovery_t => decide (r.first_frame ≤ f ∧ f ≤ r.last_frame)) =
      frameInRecord f := by
    funext r
    simp [frameInRecord]
  rw [hfilter]
  obtain ⟨r, hr, h1, h2⟩ := contiguous_covers l lo hi hrec hcont hlo hhi (f - lo).toNat
    (by rw [Int.toNat_of_nonneg (by omega)]; omega)
  rw [Int.toNat_of_nonneg (by omega)] at h1 h2
  have hmem : r ∈ l.filter (frameInRecord f) := by
    rw [List.mem_filter]
    exact ⟨hr, (frameInRecord_iff _ _).2 ⟨by omega, by omega⟩⟩
  have hlen := disjoint_filter_length l f hdisj
  rw [findFrame_eq_head_filter]
  cases hfl : l.filter (frameInRecord f) with
  | nil => rw [hfl] at hmem; cases hmem
  | cons a t =>
    rw [hfl] at hlen
    cases t with
    | nil => exact ⟨a, rfl, rfl⟩
    | cons b t2 => simp at hlen

/-- C5, evaluated: frame 150 of the two files 1..100 and 101..200. -/
theorem C5_exactly_one_record_witness :
    ∃ fp, exFrames.filter (fun r => decide (r.first_frame ≤ 150 ∧ 150 ≤ r.last_frame)) = [fp] ∧
      findFrame exFrames 150 = some fp :=
  C5_exactly_one_record exFrames 1 200 150 (by decide) (by unfold DisjointRanges; decide)
    (by unfold ContiguousRanges; decide) (by decide) (by decide) (by decide)

/-- On success the image buffer record holds `dims[1]`, `dims[2]`, the element
size, and the 32-bit `data_buffer_size`; when the byte count of a frame fits in
an `int` that size is `buf_height * buf_width * buf_depth`. -/
theorem get_one_frame_buf_size_of_fits (h5 : H5Lib) (imb out : isImageBufType)
    (hok : get_one_frame h5 imb = FrameResult.success out)
    (hfit : 0 ≤ out.buf_height * out.buf_width ∧ out.buf_height * out.buf_width * 4 < 2 ^ 31) :
    out.buf_size = out.buf_height * out.buf_width * out.buf_depth := by
  unfold get_one_frame at hok
  split at hok
  · cases hok
  next extra hextra =>
    split at hok
    · cases hok
    next fp hfp =>
      unfold readFrame at hok
      simp only at hok
      split at hok
      · cases hok
      split at hok
      · cases hok
      split at hok
      · cases hok
      split at hok
      · cases hok
      split at hok
      · cases hok
      next sz hsz =>
        split at hok
        · cases hok
        split at hok
        · cases hok
        split at hok
        · cases hok
        split at hok
        · cases hok
        simp only [FrameResult.success.injEq] at hok
        subst hok
        simp only at hfit ⊢
        unfold frameBytes at hsz
        split at hsz
        next h4 =>
          simp only [Option.some.injEq] at hsz
          rw [h4, ← hsz]
          unfold toInt32 toUInt64
          omega
        · split at hsz
          next h2 =>
            simp only [Option.some.injEq] at hsz
            rw [h2, ← hsz]
            unfold toInt32 toUInt64
            omega
          · cases hsz

/-- C6 fails on the code for a frame of 2 GiB or more: for a dataset of
32768 x 32769 four-byte elements `get_one_frame` succeeds with
`buf_height = 32768`, `buf_width = 32769`, `buf_depth = 4`, and
`buf_size = 131072`, which is not `32768 * 32769 * 4 = 4295098368`. -/
theorem C6_buf_size_wraps :
    get_one_frame (exH5 32768 32769 4) (exImb 150) =
      FrameResult.success
        { exImb 150 with
          buf := true, buf_size := 131072, buf_height := 32768, buf_width := 32769,
          buf_depth := 4 } ∧
    (131072 : Int) ≠ 32768 * 32769 * 4 := by
  constructor
  · decide
  · decide

/-! ## Properties of the renderer -/

/-- The sum of doubles stands for the sum of the rationals. -/
theorem Dbl.val_add (a b : Dbl) (ha : 0 < a.den) (hb : 0 < b.den) :
    (a.add b).val = a.val + b.val := by
  have h1 : (a.den : ℚ) ≠ 0 := by exact_mod_cast ne_of_gt ha
  have h2 : (b.den : ℚ) ≠ 0 := by exact_mod_cast ne_of_gt hb
  unfold Dbl.add Dbl.val
  push_cast
  field_simp

/-- The difference of doubles stands for the difference of the rationals. -/
theorem Dbl.val_sub (a b : Dbl) (ha : 0 < a.den) (hb : 0 < b.den) :
    (a.sub b).val = a.val - b.val := by
  have h1 : (a.den : ℚ) ≠ 0 := by exact_mod_cast ne_of_gt ha
  have h2 : (b.den : ℚ) ≠ 0 := by exact_mod_cast ne_of_gt hb
  unfold Dbl.sub Dbl.val
  push_cast
  field_simp
  ring

/-- The comparison `<` of doubles is the comparison of the rationals. -/
theorem Dbl.lt_iff_val (a b : Dbl) (ha : 0 < a.den) (hb : 0 < b.den) :
    a.lt b = true ↔ a.val < b.val := by
  have h1 : (0 : ℚ) < a.den := by exact_mod_cast ha
  have h2 : (0 : ℚ) < b.den := by exact_mod_cast hb
  unfold Dbl.lt Dbl.val
  rw [decide_eq_true_eq, div_lt_div_iff₀ h1 h2]
  exact_mod_cast Iff.rfl

/-- The comparison `<=` of doubles is the comparison of the rationals. -/
theorem Dbl.le_iff_val (a b : Dbl) (ha : 0 < a.den) (hb : 0 < b.den) :
    a.le b = true ↔ a.val ≤ b.val := by
  have h1 : (0 : ℚ) < a.den := by exact_mod_cast ha
  have h2 : (0 : ℚ) < b.den := by exact_mod_cast hb
  unfold Dbl.le Dbl.val
  rw [decide_eq_true_eq, div_le_div_iff₀ h1 h2]
  exact_mod_cast Iff.rfl

/-- The floor of a double is the floor of the rational. -/
theorem Dbl.floor_eq_val (a : Dbl) (ha : 0 < a.den) : a.floor = ⌊a.val⌋ := by
  unfold Dbl.floor Dbl.val
  have hcast : ((a.den : Int) : ℚ) = ((a.den.toNat : ℕ) : ℚ) := by
    have := Int.toNat_of_nonneg (le_of_lt ha)
    exact_mod_cast this.symm
  rw [hcast, Rat.floor_intCast_div_natCast, Int.toNat_of_nonneg (le_of_lt ha)]

/-- The ceiling of a double is the ceiling of the rational. -/
theorem Dbl.ceil_eq_val (a : Dbl) (ha : 0 < a.den) : a.ceil = ⌈a.val⌉ := by
  have hcast : ((a.den : Int) : ℚ) = ((a.den.toNat : ℕ) : ℚ) := by
    have := Int.toNat_of_nonneg (le_of_lt ha)
    exact_mod_cast this.symm
  have hneg : (-((a.num : ℚ) / (a.den : ℚ))) = ((-a.num : Int) : ℚ) / ((a.den.toNat : ℕ) : ℚ) := by
    rw [← hcast]
    push_cast
    ring
  unfold Dbl.ceil Dbl.val
  rw [← neg_neg ((a.num : ℚ) / (a.den : ℚ)), Int.ceil_neg, hneg,
    Rat.floor_intCast_div_natCast, Int.toNat_of_nonneg (le_of_lt ha)]

/-- Without wrap of `rslt` the contrast mapping is the piecewise formula. -/
theorem contrastMap_eq_of_fits (wval contrast d : Int)
    (hw : IsInt32 wval) (hc : IsInt32 contrast) (hfit : (d - wval) * 255 < 2 ^ 32) :
    contrastMap wval contrast d =
      if d ≤ wval then 0
      else if d ≥ contrast then 255
      else ((d - wval) * 255) / (contrast - wval) := by
  unfold IsInt32 at hw hc
  unfold contrastMap
  by_cases h1 : d ≤ wval
  · simp [h1]
  · by_cases h2 : d ≥ contrast
    · simp [h1, h2]
    · simp only [h1, h2, if_false]
      have hnum : 0 ≤ (d - wval) * 255 := by omega
      have hden : 0 < contrast - wval := by omega
      rw [Int.emod_eq_of_lt hnum hfit, Int.emod_eq_of_lt (le_of_lt hden) (by omega)]
      have hq0 : 0 ≤ (d - wval) * 255 / (contrast - wval) := Int.ediv_nonneg hnum (le_of_lt hden)
      have hq1 : (d - wval) * 255 / (contrast - wval) < 255 := by
        apply Int.ediv_lt_of_lt_mul hden
        nlinarith
      exact Int.emod_eq_of_lt hq0 (by omega)

/-- The contrast mapping yields a value from 0 to 255. -/
theorem contrastMap_range (wval contrast d : Int) :
    0 ≤ contrastMap wval contrast d ∧ contrastMap wval contrast d ≤ 255 := by
  unfold contrastMap
  split
  · simp
  · split
    · simp
    · simp only
      constructor
      · exact Int.emod_nonneg _ (by norm_num)
      · have := Int.emod_lt_of_pos
          ((d - wval) * 255 % 2 ^ 32 / ((contrast - wval) % 2 ^ 32)) (by norm_num : (0 : Int) < 256)
        omega

/-- C7 as stated fails on the code: for `d = 0`, `wval = -16843010`,
`contrast = 1` neither of the first two cases applies, the product
`(d - wval) * 255 = 4294967550` wraps in the 32-bit `rslt` to 254 and `dout` is
0, while the claimed value is `floor(4294967550 / 16843011) = 254`. -/
theorem C7_rslt_wraps_counterexample :
    ¬ ((0 : Int) ≤ -16843010) ∧ ¬ ((0 : Int) ≥ 1) ∧
    IsInt32 (-16843010) ∧ IsInt32 1 ∧
    contrastMap (-16843010) 1 0 = 0 ∧
    ((0 : Int) - (-16843010)) * 255 / (1 - (-16843010)) = 254 := by
  unfold IsInt32
  decide

/-- C7, amended: for every 16-bit sample value `d` and all `int` values `wval`,
`contrast` such that `wval >= 0` or, more generally, the product
`(d - wval) * 255` fits the 32-bit `rslt`, `dout` is 0 if `d <= wval`, else 255
if `d >= contrast`, else `floor(((d - wval) * 255) / (contrast - wval))`. -/
theorem C7_contrast_mapping (wval contrast d : Int)
    (hd : 0 ≤ d ∧ d ≤ 65535) (hw : IsInt32 wval) (hc : IsInt32 contrast)
    (hfit : 0 ≤ wval ∨ (d - wval) * 255 < 2 ^ 32) :
    (d ≤ wval → contrastMap wval contrast d = 0) ∧
    (¬ d ≤ wval → d ≥ contrast → contrastMap wval contrast d = 255) ∧
    (¬ d ≤ wval → ¬ d ≥ contrast →
      contrastMap wval contrast d =
        ⌊(((d - wval) * 255 : Int) : ℚ) / ((contrast - wval : Int) : ℚ)⌋) := by
  have hfit2 : (d - wval) * 255 < 2 ^ 32 := by
    rcases hfit with h0 | h0
    · omega
    · exact h0
  have h := contrastMap_eq_of_fits wval contrast d hw hc hfit2
  refine ⟨?_, ?_, ?_⟩
  · intro h1; rw [h, if_pos h1]
  · intro h1 h2; rw [h, if_neg h1, if_pos h2]
  · intro h1 h2
    have hden : 0 ≤ contrast - wval := by omega
    have hcast : ((contrast - wval : Int) : ℚ) = (((contrast - wval).toNat : ℕ) : ℚ) := by
      have := Int.toNat_of_nonneg hden
      exact_mod_cast this.symm
    rw [h, if_neg h1, if_neg h2, hcast, Rat.floor_intCast_div_natCast,
      Int.toNat_of_nonneg hden]

/-- C7 amended, evaluated: `d = 1000`, `wval = 100`, `contrast = 5000`. -/
theorem C7_contrast_mapping_witness :
    ((1000 : Int) ≤ 100 → contrastMap 100 5000 1000 = 0) ∧
    (¬ (1000 : Int) ≤ 100 → (1000 : Int) ≥ 5000 → contrastMap 100 5000 1000 = 255) ∧
    (¬ (1000 : Int) ≤ 100 → ¬ (1000 : Int) ≥ 5000 →
      contrastMap 100 5000 1000 =
        ⌊(((1000 - 100) * 255 : Int) : ℚ) / ((5000 - 100 : Int) : ℚ)⌋) :=
  C7_contrast_mapping 100 5000 1000 (by decide) (by unfold IsInt32; decide)
    (by unfold IsInt32; decide) (Or.inl (by decide))

/-- C8: for `int` values with `contrast > wval >= 0`, the intensity `dout(d)` of
16-bit samples is non-decreasing in `d` on `[wval, contrast]`, and
`dout(wval) = 0`, `dout(contrast) = 255`. -/
theorem C8_monotone_and_saturating (wval contrast d1 d2 : Int)
    (hw : 0 ≤ wval) (hwc : wval < contrast) (hc : IsInt32 contrast)
    (h1 : wval ≤ d1) (h12 : d1 ≤ d2) (h2 : d2 ≤ contrast) (h16 : d2 ≤ 65535) :
    contrastMap wval contrast d1 ≤ contrastMap wval contrast d2 ∧
    contrastMap wval contrast wval = 0 ∧
    contrastMap wval contrast contrast = 255 := by
  have hwi : IsInt32 wval := by unfold IsInt32 at hc ⊢; omega
  refine ⟨?_, ?_, ?_⟩
  · by_cases ha : d1 ≤ wval
    · have : contrastMap wval contrast d1 = 0 := by unfold contrastMap; simp [ha]
      rw [this]
      exact (contrastMap_range wval contrast d2).1
    · by_cases hb : d2 ≥ contrast
      · have : contrastMap wval contrast d2 = 255 := by
          unfold contrastMap
          have : ¬ d2 ≤ wval := by omega
          simp [this, hb]
        rw [this]
        exact (contrastMap_range wval contrast d1).2
      · rw [contrastMap_eq_of_fits wval contrast d1 hwi hc (by omega),
          contrastMap_eq_of_fits wval contrast d2 hwi hc (by omega)]
        have hb1 : ¬ d1 ≥ contrast := by omega
        have ha2 : ¬ d2 ≤ wval := by omega
        rw [if_neg ha, if_neg hb1, if_neg ha2, if_neg hb]
        exact Int.ediv_le_ediv (by omega) (by omega)
  · unfold contrastMap; simp
  · unfold contrastMap
    have : ¬ contrast ≤ wval := by omega
    simp [this]

/-- C8, evaluated: `wval = 100`, `contrast = 5000`, samples 1000 and 3000. -/
theorem C8_monotone_and_saturating_witness :
    contrastMap 100 5000 1000 ≤ contrastMap 100 5000 3000 ∧
    contrastMap 100 5000 100 = 0 ∧
    contrastMap 100 5000 5000 = 255 :=
  C8_monotone_and_saturating 100 5000 1000 3000 (by decide) (by decide)
    (by unfold IsInt32; decide) (by decide) (by decide) (by decide) (by decide)

/-- The loop `for (v = start; v < bound; v++)` visits exactly the integers from
`start` on that are below `bound`. -/
theorem mem_loopRange (start v : Int) (b : Dbl) (hb : 0 < b.den) :
    v ∈ loopRange start b ↔ start ≤ v ∧ Dbl.lt (Dbl.ofInt v) b = true := by
  have key : v < b.ceil ↔ v * b.den < b.num := by
    unfold Dbl.ceil
    constructor
    · intro h
      have h1 : -b.num / b.den < -v := by omega
      have h2 := (Int.ediv_lt_iff_lt_mul hb).1 h1
      linarith
    · intro h
      have h2 : -b.num / b.den < -v := (Int.ediv_lt_iff_lt_mul hb).2 (by linarith)
      omega
  unfold loopRange Dbl.lt Dbl.ofInt
  simp only [List.mem_map, List.mem_range, decide_eq_true_eq, mul_one]
  rw [← key]
  constructor
  · rintro ⟨t, ht, rfl⟩
    have := Int.lt_toNat.1 ht
    omega
  · rintro ⟨h1, h2⟩
    refine ⟨(v - start).toNat, ?_, ?_⟩
    · apply Int.lt_toNat.2
      rw [Int.toNat_of_nonneg (by omega)]
      omega
    · rw [Int.toNat_of_nonneg (by omega)]
      omega

/-- The running maximum of two nested loops: at least the start value and every
value visited, and equal to the start value or to a value visited. -/
theorem nested_max_spec {α β : Type} (rows : List α) (cols : List β) (f : α → β → Int)
    (init : Int) :
    init ≤ rows.foldl (fun d m => cols.foldl (fun d n => if d > f m n then d else f m n) d) init ∧
    (∀ m ∈ rows, ∀ n ∈ cols,
      f m n ≤ rows.foldl (fun d m => cols.foldl (fun d n => if d > f m n then d else f m n) d) init) ∧
    (rows.foldl (fun d m => cols.foldl (fun d n => if d > f m n then d else f m n) d) init = init ∨
      ∃ m ∈ rows, ∃ n ∈ cols,
        rows.foldl (fun d m => cols.foldl (fun d n => if d > f m n then d else f m n) d) init =
          f m n) := by
  have inner : ∀ (m : α) (cs : List β) (d0 : Int),
      d0 ≤ cs.foldl (fun d n => if d > f m n then d else f m n) d0 ∧
      (∀ n ∈ cs, f m n ≤ cs.foldl (fun d n => if d > f m n then d else f m n) d0) ∧
      (cs.foldl (fun d n => if d > f m n then d else f m n) d0 = d0 ∨
        ∃ n ∈ cs, cs.foldl (fun d n => if d > f m n then d else f m n) d0 = f m n) := by
    intro m cs
    induction cs with
    | nil => intro d0; simp
    | cons c t ih =>
      intro d0
      simp only [List.foldl_cons]
      obtain ⟨h1, h2, h3⟩ := ih (if d0 > f m c then d0 else f m c)
      have hstep : d0 ≤ (if d0 > f m c then d0 else f m c) ∧
          f m c ≤ (if d0 > f m c then d0 else f m c) := by
        split <;> constructor <;> omega
      refine ⟨le_trans hstep.1 h1, ?_, ?_⟩
      · intro n hn
        rcases List.mem_cons.1 hn with h | h
        · rw [h]; exact le_trans hstep.2 h1
        · exact h2 n h
      · rcases h3 with h | ⟨n, hn, h⟩
        · rw [h]
          by_cases hc : d0 > f m c
          · left; simp [hc]
          · right; exact ⟨c, List.mem_cons_self _ _, by simp [hc]⟩
        · right; exact ⟨n, List.mem_cons_of_mem _ hn, h⟩
  induction rows generalizing init with
  | nil => simp
  | cons r t ih =>
    simp only [List.foldl_cons]
    obtain ⟨h1, h2, h3⟩ := ih (cols.foldl (fun d n => if d > f r n then d else f r n) init)
    obtain ⟨i1, i2, i3⟩ := inner r cols init
    refine ⟨le_trans i1 h1, ?_, ?_⟩
    · intro m hm n hn
      rcases List.mem_cons.1 hm with h | h
      · rw [h]; exact le_trans (i2 n hn) h1
      · exact h2 m h n hn
    · rcases h3 with h | ⟨m, hm, n, hn, h⟩
      · rw [h]
        rcases i3 with h' | ⟨n, hn, h'⟩
        · left; exact h'
        · right; exact ⟨r, List.mem_cons_self _ _, n, hn, h'⟩
      · right; exact ⟨m, List.mem_cons_of_mem _ hm, n, hn, h⟩

/-- A read of the image buffer yields a 16-bit value. -/
theorem load16_range (buf : Int → Int) (idx : Int) :
    0 ≤ load16 buf idx ∧ load16 buf idx ≤ 65535 := by
  unfold load16
  have h1 := Int.emod_nonneg (buf idx) (by norm_num : (65536 : Int) ≠ 0)
  have h2 := Int.emod_lt_of_pos (buf idx) (by norm_num : (0 : Int) < 65536)
  omega

/-- In downscale mode the sampled value is the maximum of the source pixels over
the positions the loops of `maxBox` visit (0 when they visit none). -/
theorem sample_maxBox_spec (is : isType) (buf : Int → Int) (i j : Int)
    (hx : 0 < is.xsize) (hy : 0 < is.ysize) (hmode : ¬ (is.ya ≤ 1 ∧ is.xa ≤ 1)) :
    (∀ m n, inScannedBox is i j m n → load16 buf (m * is.inWidth + n) ≤ sample is buf i j) ∧
    (sample is buf i j = 0 ∨
      ∃ m n, inScannedBox is i j m n ∧ sample is buf i j = load16 buf (m * is.inWidth + n)) := by
  have hk : 0 < ((is.rowK i).add (Dbl.ofInt is.yau)).den := by
    simp [isType.rowK, Dbl.add, Dbl.quot, Dbl.ofInt, hy]
  have hl : 0 < ((is.colL j).add (Dbl.ofInt is.xau)).den := by
    simp [isType.colL, Dbl.add, Dbl.quot, Dbl.ofInt, hx]
  have hs : sample is buf i j =
      maxBox is buf (is.rowK i) (is.colL j) is.yal is.yau is.xal is.xau := by
    unfold sample
    rw [if_neg hmode]
  obtain ⟨-, h2, h3⟩ := nested_max_spec
    (loopRange ((is.rowK i).sub (Dbl.ofInt is.yal)).toInt ((is.rowK i).add (Dbl.ofInt is.yau)))
    (loopRange ((is.colL j).sub (Dbl.ofInt is.xal)).toInt ((is.colL j).add (Dbl.ofInt is.xau)))
    (fun m n => load16 buf (m * is.inWidth + n)) 0
  rw [hs]
  unfold maxBox
  constructor
  · rintro m n ⟨hm1, hm2, hn1, hn2⟩
    exact h2 m ((mem_loopRange _ _ _ hk).2 ⟨hm1, hm2⟩) n ((mem_loopRange _ _ _ hl).2 ⟨hn1, hn2⟩)
  · rcases h3 with h | ⟨m, hm, n, hn, h⟩
    · left; exact h
    · right
      have hm' := (mem_loopRange _ _ _ hk).1 hm
      have hn' := (mem_loopRange _ _ _ hl).1 hn
      exact ⟨m, n, ⟨hm'.1, hm'.2, hn'.1, hn'.2⟩, h⟩

/-- Output pixel `(i, j)` of the rendering is `outputPixel`. -/
theorem marTiff2jpeg_pixelAt (is : isType) (buf : Int → Int) (i j : Nat)
    (hw : is.width ≠ 0) (hi : (i : Int) < is.ysize) (hj : (j : Int) < is.xsize) :
    pixelAt (marTiff2jpeg is buf) i j = some (outputPixel is buf i j) := by
  have hcond : ¬ (is.ysize ≤ 0 ∨ is.xsize ≤ 0 ∨ is.width = 0) := by
    have h1 : (0 : Int) ≤ i := Int.natCast_nonneg i
    have h2 : (0 : Int) ≤ j := Int.natCast_nonneg j
    omega
  have hi' : i < is.ysize.toNat := by omega
  have hj' : j < is.xsize.toNat := by omega
  unfold marTiff2jpeg
  rw [if_neg hcond]
  simp [pixelAt, List.getElem?_map, List.getElem?_range hi', List.getElem?_range hj']

/-- The clamped `jmax` is at most `xsize`. -/
theorem jmax_le_xsize (is : isType) : is.jmax ≤ is.xsize := by
  unfold isType.jmax
  split <;> omega

/-- The clamped `jmin` is at least 0. -/
theorem jmin_nonneg (is : isType) : 0 ≤ is.jmin := by
  unfold isType.jmin
  split <;> omega

/-- A rendered output pixel whose sampled value is 65535 is pure red. -/
theorem saturated_sample_is_red (is : isType) (buf : Int → Int) (i j : Nat)
    (hwid : is.width ≠ 0) (hi : (i : Int) < is.ysize)
    (hrend : is.rendered i j = true)
    (hsat : (is.ya ≤ 1 ∧ is.xa ≤ 1 ∧
        load16 buf (((is.rowK i).add Dbl.half).toInt * is.inWidth +
          ((is.colL j).add Dbl.half).toInt) = 65535) ∨
      (¬ (is.ya ≤ 1 ∧ is.xa ≤ 1) ∧
        ∃ m n, inScannedBox is i j m n ∧ load16 buf (m * is.inWidth + n) = 65535)) :
    pixelAt (marTiff2jpeg is buf) i j = some (255, 0, 0) := by
  have hj : (j : Int) < is.xsize := by
    have h1 := jmax_le_xsize is
    unfold isType.rendered at hrend
    simp only [Bool.and_eq_true, decide_eq_true_eq] at hrend
    omega
  have hx : 0 < is.xsize := by
    have : (0 : Int) ≤ j := Int.natCast_nonneg j
    omega
  have hy : 0 < is.ysize := by
    have : (0 : Int) ≤ i := Int.natCast_nonneg i
    omega
  rw [marTiff2jpeg_pixelAt is buf i j hwid hi hj]
  unfold outputPixel
  rw [if_pos hrend]
  have hs : sample is buf i j = 65535 := by
    rcases hsat with ⟨h1, h2, h3⟩ | ⟨hmode, m, n, hbox, hval⟩
    · unfold sample nearestValue
      rw [if_pos ⟨h1, h2⟩]
      exact h3
    · obtain ⟨hge, hor⟩ := sample_maxBox_spec is buf i j hx hy hmode
      have h1 := hge m n hbox
      rw [hval] at h1
      rcases hor with h0 | ⟨m', n', -, h'⟩
      · omega
      · have := (load16_range buf (m' * is.inWidth + n')).2
        omega
  rw [hs]
  rfl

/-- C9 as stated fails on the code: in the rendering of an 8 x 8 source to 4 x 4
from the origin, source pixel `(0, 0)` has value 65535 and lies in the viewport,
output pixel `(0, 0)` is the one whose sampling box `[-1, 1) x [-1, 1)` holds
it, but row 0 fails the row test, so output pixel `(0, 0)` is `(0, 0, 0)`; no
output pixel of the rendering is `(255, 0, 0)`. -/
theorem C9_border_pixel_counterexample :
    load16 exBufCorner (0 * exIs8to4.inWidth + 0) = 65535 ∧
    (exIs8to4.x ≤ 0 ∧ 0 < exIs8to4.x + exIs8to4.width ∧
      exIs8to4.y ≤ 0 ∧ 0 < exIs8to4.y + exIs8to4.height) ∧
    specCorresponds exIs8to4 0 0 0 0 = true ∧
    pixelAt (marTiff2jpeg exIs8to4 exBufCorner) 0 0 = some (0, 0, 0) ∧
    (∀ i ∈ List.range 4, ∀ j ∈ List.range 4,
      pixelAt (marTiff2jpeg exIs8to4 exBufCorner) i j ≠ some (255, 0, 0)) := by
  decide

/-- C9, amended: for every rendering and every output pixel `(i, j)` that is
rendered (row `i` passes the row test and `jmin <= j < jmax`), if the source
pixel it reads in 1:1 or upscale mode, or some source pixel of the box `maxBox`
scans in downscale mode, has value 65535, then output pixel `(i, j)` is
`(255, 0, 0)`, whatever `wval` and `contrast` are. -/
theorem C9_saturated_pixel_red (is : isType) (buf : Int → Int) (i j : Nat)
    (hwid : is.width ≠ 0) (hi : (i : Int) < is.ysize)
    (hrend : is.rendered i j = true)
    (hsat : (is.ya ≤ 1 ∧ is.xa ≤ 1 ∧
        load16 buf (((is.rowK i).add Dbl.half).toInt * is.inWidth +
          ((is.colL j).add Dbl.half).toInt) = 65535) ∨
      (¬ (is.ya ≤ 1 ∧ is.xa ≤ 1) ∧
        ∃ m n, inScannedBox is i j m n ∧ load16 buf (m * is.inWidth + n) = 65535)) :
    ∀ w c : Int,
      pixelAt (marTiff2jpeg { is with wval := w, contrast := c } buf) i j = some (255, 0, 0) :=
  fun w c =>
    saturated_sample_is_red { is with wval := w, contrast := c } buf i j hwid hi hrend hsat

/-- C9 amended, evaluated: 8 x 8 to 4 x 4 with 65535 at source `(3, 3)`, output
pixel `(2, 2)`, with `wval = 500` and `contrast = 100`. -/
theorem C9_saturated_pixel_red_witness :
    pixelAt (marTiff2jpeg { exIs8to4 with wval := 500, contrast := 100 }
      (fun idx => if idx = 27 then 65535 else 0)) 2 2 = some (255, 0, 0) :=
  C9_saturated_pixel_red exIs8to4 (fun idx => if idx = 27 then 65535 else 0) 2 2
    (by decide) (by decide) (by decide)
    (Or.inr ⟨by decide, 3, 3, by unfold inScannedBox; decide, by decide⟩) 500 100

/-- For a double that is not negative the conversion to `int` is the floor. -/
theorem toInt_eq_floor_of_nonneg (a : Dbl) (hden : 0 < a.den) (hnum : 0 ≤ a.num) :
    a.toInt = a.floor := by
  unfold Dbl.toInt Dbl.floor
  exact Int.tdiv_eq_ediv hnum (le_of_lt hden)

/-- C10 fails on the code when `k - yal` is not an integer: the comments of
`mr.c` describe `maxBox` as the maximum of the `xa` by `ya` box with lower bound
`k - yal`, but the loop variable is an `int` and its start `k - yal` is truncated.
In the rendering of a 5 x 5 source to 2 x 2, output pixel `(1, 1)` is rendered
in downscale mode with `k = l = 5/2`, `ya = xa = 2` and
`yal = yau = xal = xau = 1`; `maxBox` starts at `(int)(1.5) = 1`, scans 3 x 3
positions, finds the value 100 at source `(1, 1)` and returns 100, while the
maximum over the positions with `1.5 <= m < 3.5` and `1.5 <= n < 3.5` is 0. -/
theorem C10_truncated_box_counterexample :
    exIs5to2.rendered 1 1 = true ∧
    ¬ (exIs5to2.ya ≤ 1 ∧ exIs5to2.xa ≤ 1) ∧
    exIs5to2.rowK 1 = ⟨5, 2⟩ ∧ exIs5to2.colL 1 = ⟨5, 2⟩ ∧
    (exIs5to2.yal, exIs5to2.yau, exIs5to2.xal, exIs5to2.xau) = (1, 1, 1, 1) ∧
    sample exIs5to2 exBufOneOne 1 1 = 100 ∧
    specMaxBox exIs5to2 exBufOneOne (exIs5to2.rowK 1) (exIs5to2.colL 1) = 0 := by
  decide

/-- What the sampling computes, for every output pixel with source coordinates
`(k, l)`: if `ya <= 1` and `xa <= 1` the sampled value is the source pixel at
row `(int)(k + 0.5)`, column `(int)(l + 0.5)`, which is the floor of `k + 0.5`
(of `l + 0.5`) when `k >= -0.5` (`l >= -0.5`); otherwise it is the maximum
source pixel over exactly the integer positions `(m, n)` with
`(int)(k - yal) <= m < k + yau` and `(int)(l - xal) <= n < l + xau`, the
conversion to `int` truncating toward zero (0 when there is no such position). -/
theorem sampling_scanned_box (is : isType) (buf : Int → Int) (i j : Int)
    (hx : 0 < is.xsize) (hy : 0 < is.ysize) :
    (is.ya ≤ 1 ∧ is.xa ≤ 1 →
      sample is buf i j =
        load16 buf (((is.rowK i).add Dbl.half).toInt * is.inWidth +
          ((is.colL j).add Dbl.half).toInt) ∧
      (Dbl.le Dbl.half.neg (is.rowK i) = true →
        ((is.rowK i).add Dbl.half).toInt = ((is.rowK i).add Dbl.half).floor) ∧
      (Dbl.le Dbl.half.neg (is.colL j) = true →
        ((is.colL j).add Dbl.half).toInt = ((is.colL j).add Dbl.half).floor)) ∧
    (¬ (is.ya ≤ 1 ∧ is.xa ≤ 1) →
      (∀ m n, inScannedBox is i j m n → load16 buf (m * is.inWidth + n) ≤ sample is buf i j) ∧
      (sample is buf i j = 0 ∨
        ∃ m n, inScannedBox is i j m n ∧
          sample is buf i j = load16 buf (m * is.inWidth + n))) := by
  constructor
  · intro hmode
    refine ⟨?_, ?_, ?_⟩
    · unfold sample nearestValue
      rw [if_pos hmode]
    · intro hk
      apply toInt_eq_floor_of_nonneg
      · simp [isType.rowK, Dbl.add, Dbl.quot, Dbl.ofInt, Dbl.half, hy]
      · simp only [isType.rowK, Dbl.add, Dbl.quot, Dbl.ofInt, Dbl.half, Dbl.le, Dbl.neg,
          decide_eq_true_eq] at hk ⊢
        omega
    · intro hl
      apply toInt_eq_floor_of_nonneg
      · simp [isType.colL, Dbl.add, Dbl.quot, Dbl.ofInt, Dbl.half, hx]
      · simp only [isType.colL, Dbl.add, Dbl.quot, Dbl.ofInt, Dbl.half, Dbl.le, Dbl.neg,
          decide_eq_true_eq] at hl ⊢
        omega
  · intro hmode
    exact sample_maxBox_spec is buf i j hx hy hmode

/-- The sampling, evaluated: output pixel `(1, 1)` of the 5 x 5 to 2 x 2 rendering. -/
theorem sampling_scanned_box_example :
    (exIs5to2.ya ≤ 1 ∧ exIs5to2.xa ≤ 1 →
      sample exIs5to2 exBufOneOne 1 1 =
        load16 exBufOneOne (((exIs5to2.rowK 1).add Dbl.half).toInt * exIs5to2.inWidth +
          ((exIs5to2.colL 1).add Dbl.half).toInt) ∧
      (Dbl.le Dbl.half.neg (exIs5to2.rowK 1) = true →
        ((exIs5to2.rowK 1).add Dbl.half).toInt = ((exIs5to2.rowK 1).add Dbl.half).floor) ∧
      (Dbl.le Dbl.half.neg (exIs5to2.colL 1) = true →
        ((exIs5to2.colL 1).add Dbl.half).toInt = ((exIs5to2.colL 1).add Dbl.half).floor)) ∧
    (¬ (exIs5to2.ya ≤ 1 ∧ exIs5to2.xa ≤ 1) →
      (∀ m n, inScannedBox exIs5to2 1 1 m n →
        load16 exBufOneOne (m * exIs5to2.inWidth + n) ≤ sample exIs5to2 exBufOneOne 1 1) ∧
      (sample exIs5to2 exBufOneOne 1 1 = 0 ∨
        ∃ m n, inScannedBox exIs5to2 1 1 m n ∧
          sample exIs5to2 exBufOneOne 1 1 = load16 exBufOneOne (m * exIs5to2.inWidth + n))) :=
  sampling_scanned_box exIs5to2 exBufOneOne 1 1 (by decide) (by decide)

/-- Truncation of `r + 1/2`, written over the denominator `2 * b`, is `r`. -/
theorem tdiv_half_up (r b : Int) (hr : 0 ≤ r) (hb : 0 < b) :
    Int.tdiv (2 * r * b + b) (2 * b) = r := by
  have h0 : 0 ≤ 2 * r * b + b := by positivity
  rw [Int.tdiv_eq_ediv h0 (by omega)]
  have h1 : 2 * r * b + b = b + r * (2 * b) := by ring
  rw [h1, Int.add_mul_ediv_right _ _ (by omega : (2 * b) ≠ 0),
    Int.ediv_eq_zero_of_lt (le_of_lt hb) (by omega)]
  simp

/-- With `wval = 0` and `contrast = 65535` a 16-bit sample other than 65535 is
mapped to `floor(d * 255 / 65535)`. -/
theorem contrastMap_full_window (d : Int) (h0 : 0 ≤ d) (h1 : d < 65535) :
    contrastMap 0 65535 d = d * 255 / 65535 := by
  rw [contrastMap_eq_of_fits 0 65535 d (by unfold IsInt32; decide) (by unfold IsInt32; decide)
    (by omega)]
  by_cases hd : d ≤ 0
  · have : d = 0 := by omega
    subst this
    decide
  · rw [if_neg hd, if_neg (by omega)]
    simp

/-- C11 fails on the code for the last row: in the identity rendering of a 2 x 2
source of zeros, source pixel `(1, 0)` has value 0, not 65535, and output pixel
`(1, 0)` is `(0, 0, 0)`, not `255 - floor(0 * 255 / 65535) = 255` on all three
channels; the last column, `(0, 1)`, is rendered. -/
theorem C11_identity_last_row_black :
    (exIsIdentity2.x = 0 ∧ exIsIdentity2.y = 0 ∧
      exIsIdentity2.xsize = exIsIdentity2.inWidth ∧ exIsIdentity2.width = exIsIdentity2.inWidth ∧
      exIsIdentity2.ysize = exIsIdentity2.inHeight ∧
      exIsIdentity2.height = exIsIdentity2.inHeight ∧
      exIsIdentity2.wval = 0 ∧ exIsIdentity2.contrast = 65535) ∧
    load16 (fun _ => 0) (1 * exIsIdentity2.inWidth + 0) = 0 ∧
    pixelAt (marTiff2jpeg exIsIdentity2 (fun _ => 0)) 1 0 = some (0, 0, 0) ∧
    (255 - (0 : Int) * 255 / 65535) = 255 ∧
    pixelAt (marTiff2jpeg exIsIdentity2 (fun _ => 0)) 0 1 = some (255, 255, 255) := by
  decide

/-- Identity rendering (`xsize = width = inWidth`, `ysize = height = inHeight`,
`x = y = 0`, `wval = 0`, `contrast = 65535`): for every source pixel `(r, c)`
with value `d != 65535` in a row `r` of `[0, inHeight - 1)` and a column `c` of
`[0, inWidth)`, output pixel `(r, c)` has all three channels equal to
`255 - floor(d * 255 / 65535)`; the last output row, `r = inHeight - 1`, fails
the row test and is `(0, 0, 0)`. -/
theorem identity_rendering_pixels (is : isType) (buf : Int → Int) (r c : Nat)
    (hx : is.x = 0) (hy : is.y = 0)
    (hW : is.xsize = is.inWidth ∧ is.width = is.inWidth)
    (hH : is.ysize = is.inHeight ∧ is.height = is.inHeight)
    (hw : is.wval = 0) (hc : is.contrast = 65535)
    (hrow : (r : Int) < is.inHeight) (hcol : (c : Int) < is.inWidth) :
    ((r : Int) + 1 < is.inHeight → load16 buf (r * is.inWidth + c) ≠ 65535 →
      pixelAt (marTiff2jpeg is buf) r c =
        some (255 - load16 buf (r * is.inWidth + c) * 255 / 65535,
          255 - load16 buf (r * is.inWidth + c) * 255 / 65535,
          255 - load16 buf (r * is.inWidth + c) * 255 / 65535)) ∧
    ((r : Int) + 1 = is.inHeight → pixelAt (marTiff2jpeg is buf) r c = some (0, 0, 0)) := by
  obtain ⟨hW1, hW2⟩ := hW
  obtain ⟨hH1, hH2⟩ := hH
  have hr0 : (0 : Int) ≤ r := Int.natCast_nonneg r
  have hc0 : (0 : Int) ≤ c := Int.natCast_nonneg c
  have hWpos : 0 < is.inWidth := by omega
  have hHpos : 0 < is.inHeight := by omega
  have hya : is.ya = 1 := by
    unfold isType.ya
    rw [hH1, hH2]
    exact Int.tdiv_self (ne_of_gt hHpos)
  have hxa : is.xa = 1 := by
    unfold isType.xa
    rw [hW1, hW2]
    exact Int.tdiv_self (ne_of_gt hWpos)
  have hyal : is.yal = 0 := by unfold isType.yal; rw [hya]; decide
  have hyau : is.yau = 1 := by unfold isType.yau; rw [hya]; decide
  have hxal : is.xal = 0 := by unfold isType.xal; rw [hxa]; decide
  have hxau : is.xau = 1 := by unfold isType.xau; rw [hxa]; decide
  have hjmin : is.jmin = 0 := by
    unfold isType.jmin
    rw [hxal, hx]
    simp [Int.zero_tdiv]
  have hjmax : is.jmax = is.inWidth := by
    unfold isType.jmax
    rw [hxau, hx, hW1, hW2]
    simp [Int.mul_tdiv_cancel _ (ne_of_gt hWpos)]
  have hpix := marTiff2jpeg_pixelAt is buf r c (by omega) (by omega) (by omega)
  constructor
  · intro hr hd
    have hrowt : is.rowTest r = true := by
      unfold isType.rowTest isType.rowK
      rw [hyal, hyau, hy, hH1, hH2]
      simp only [Dbl.le, Dbl.lt, Dbl.sub, Dbl.add, Dbl.quot, Dbl.ofInt, Dbl.half, Dbl.neg,
        Bool.and_eq_true, decide_eq_true_eq]
      constructor
      · nlinarith
      · nlinarith
    have hrend : is.rendered r c = true := by
      unfold isType.rendered
      rw [hrowt, hjmin, hjmax]
      simp [hc0, hcol]
    have hsample : sample is buf r c = load16 buf (r * is.inWidth + c) := by
      unfold sample nearestValue
      rw [if_pos ⟨by omega, by omega⟩]
      have hk : ((is.rowK r).add Dbl.half).toInt = r := by
        unfold isType.rowK
        rw [hy, hH1, hH2]
        simp only [Dbl.toInt, Dbl.add, Dbl.quot, Dbl.ofInt, Dbl.half]
        have := tdiv_half_up r is.inHeight hr0 hHpos
        convert this using 2 <;> ring
      have hl : ((is.colL c).add Dbl.half).toInt = c := by
        unfold isType.colL
        rw [hx, hW1, hW2]
        simp only [Dbl.toInt, Dbl.add, Dbl.quot, Dbl.ofInt, Dbl.half]
        have := tdiv_half_up c is.inWidth hc0 hWpos
        convert this using 2 <;> ring
      rw [hk, hl]
    rw [hpix]
    unfold outputPixel
    rw [if_pos hrend, hsample]
    unfold pixelRGB
    rw [if_neg hd, hw, hc]
    have hrange := load16_range buf (r * is.inWidth + c)
    rw [contrastMap_full_window _ hrange.1 (by omega)]
    have hq0 : 0 ≤ load16 buf (r * is.inWidth + c) * 255 / 65535 :=
      Int.ediv_nonneg (by omega) (by norm_num)
    have hq1 : load16 buf (r * is.inWidth + c) * 255 / 65535 < 255 :=
      Int.ediv_lt_of_lt_mul (by norm_num) (by omega)
    have : (255 - load16 buf (r * is.inWidth + c) * 255 / 65535) % 256 =
        255 - load16 buf (r * is.inWidth + c) * 255 / 65535 :=
      Int.emod_eq_of_lt (by omega) (by omega)
    rw [this]
  · intro hlast
    have hrowt : is.rowTest r = false := by
      unfold isType.rowTest isType.rowK
      rw [hyal, hyau, hy, hH1, hH2]
      simp only [Dbl.le, Dbl.lt, Dbl.sub, Dbl.add, Dbl.quot, Dbl.ofInt, Dbl.half, Dbl.neg,
        Bool.and_eq_false_iff, decide_eq_false_iff_not]
      right
      have hr' : (r : Int) = is.inHeight - 1 := by omega
      rw [hr']
      nlinarith
    rw [hpix]
    unfold outputPixel isType.rendered
    rw [hrowt]
    simp

/-- The identity rendering of a 2 x 2 source, evaluated at pixel `(0, 1)`. -/
theorem identity_rendering_pixels_example :
    (((0 : Nat) : Int) + 1 < exIsIdentity2.inHeight →
      load16 (fun idx => idx * 1000) (((0 : Nat) : Int) * exIsIdentity2.inWidth + ((1 : Nat) : Int))
        ≠ 65535 →
      pixelAt (marTiff2jpeg exIsIdentity2 (fun idx => idx * 1000)) 0 1 =
        some (255 - load16 (fun idx => idx * 1000)
              (((0 : Nat) : Int) * exIsIdentity2.inWidth + ((1 : Nat) : Int)) * 255 / 65535,
          255 - load16 (fun idx => idx * 1000)
              (((0 : Nat) : Int) * exIsIdentity2.inWidth + ((1 : Nat) : Int)) * 255 / 65535,
          255 - load16 (fun idx => idx * 1000)
              (((0 : Nat) : Int) * exIsIdentity2.inWidth + ((1 : Nat) : Int)) * 255 / 65535)) ∧
    (((0 : Nat) : Int) + 1 = exIsIdentity2.inHeight →
      pixelAt (marTiff2jpeg exIsIdentity2 (fun idx => idx * 1000)) 0 1 = some (0, 0, 0)) :=
  identity_rendering_pixels exIsIdentity2 (fun idx => idx * 1000) 0 1 rfl rfl ⟨rfl, rfl⟩ ⟨rfl, rfl⟩
    rfl rfl (by decide) (by decide)

/-- C12 fails on the code: rendering the whole of a 4 x 4 source to 8 x 8 (1:1 or
upscale mode, `jmin = 0`, `jmax = 8`), output pixel `(6, 7)` is rendered and
`nearestValue` reads source row 3, column 4: the column is `inWidth`, outside
`[0, inWidth)`, and the element offset `3 * 4 + 4 = 16` is the length of the
source buffer. -/
theorem C12_upscale_reads_past_last_column :
    (0 < exIs4to8.width ∧ 0 < exIs4to8.xsize) ∧
    (exIs4to8.ya ≤ 1 ∧ exIs4to8.xa ≤ 1) ∧
    (exIs4to8.jmin = 0 ∧ exIs4to8.jmax = 8) ∧
    exIs4to8.rendered 6 7 = true ∧
    sampleReads exIs4to8 6 7 = [(3, 4)] ∧
    ¬ ((4 : Int) < exIs4to8.inWidth) ∧
    (3 : Int) * exIs4to8.inWidth + 4 = exIs4to8.inHeight * exIs4to8.inWidth := by
  decide

/-- C13: rendering the 8 x 8 source that is 0 except for 65535 at `(3, 3)` to
4 x 4 with `x = y = 0`, `width = height = 8`, `wval = 0`, `contrast = 65535`
gives exactly one output pixel equal to `(255, 0, 0)`: output pixel `(2, 2)`, the
only one whose sampling box holds source pixel `(3, 3)`. -/
theorem C13_exactly_one_red_pixel :
    countRed (marTiff2jpeg exIs8to4 exBufThreeThree) = 1 ∧
    pixelAt (marTiff2jpeg exIs8to4 exBufThreeThree) 2 2 = some (255, 0, 0) ∧
    specCorresponds exIs8to4 2 2 3 3 = true ∧
    (3, 3) ∈ sampleReads exIs8to4 2 2 ∧
    (∀ i ∈ List.range 4, ∀ j ∈ List.range 4,
      specCorresponds exIs8to4 i j 3 3 = true → i = 2 ∧ j = 2) ∧
    (∀ idx ∈ List.range 64, load16 exBufThreeThree idx = if idx = 3 * 8 + 3 then 65535 else 0) := by
  decide

/-- C14 as stated fails on the code: in the same rendering output pixel `(0, 0)`,
which is not the red one, is `(0, 0, 0)`, not `(255, 255, 255)`. -/
theorem C14_border_counterexample :
    pixelAt (marTiff2jpeg exIs8to4 exBufThreeThree) 0 0 = some (0, 0, 0) ∧
    pixelAt (marTiff2jpeg exIs8to4 exBufThreeThree) 2 2 = some (255, 0, 0) := by
  decide

/-- C14, amended: in the same rendering the 8 output pixels of rows 1 to 3 and
columns 1 to 3 other than the red one are `(255, 255, 255)`; the 7 output pixels
of row 0 and of column 0 are not rendered and are `(0, 0, 0)`. -/
theorem C14_rendering_of_single_saturated_pixel :
    marTiff2jpeg exIs8to4 exBufThreeThree =
      some [[(0, 0, 0), (0, 0, 0), (0, 0, 0), (0, 0, 0)],
        [(0, 0, 0), (255, 255, 255), (255, 255, 255), (255, 255, 255)],
        [(0, 0, 0), (255, 255, 255), (255, 0, 0), (255, 255, 255)],
        [(0, 0, 0), (255, 255, 255), (255, 255, 255), (255, 255, 255)]] ∧
    (∀ i ∈ List.range 4, ∀ j ∈ List.range 4,
      exIs8to4.rendered i j = (decide (1 ≤ i) && decide (1 ≤ j))) := by
  decide

/-! ## Properties of `get_one_frame` and `isH5GetData` -/

/-- What a successful `get_one_frame` says about the dataset: the frame was found
in a record of rank 3 whose element size, as an `int`, is 2 or 4, and the image
buffer record differs from the one passed in only in the five `buf` fields. -/
theorem get_one_frame_success (h5 : H5Lib) (imb out : isImageBufType)
    (hok : get_one_frame h5 imb = FrameResult.success out) :
    ∃ extra fp, imb.extra = some extra ∧
      findFrame extra.frame_discovery_base imb.frame = some fp ∧
      h5.H5Sget_simple_extent_ndims fp.file_space = 3 ∧
      out.buf_depth = toInt32 (h5.H5Tget_size fp.file_type) ∧
      (out.buf_depth = 2 ∨ out.buf_depth = 4) ∧
      out.meta = imb.meta ∧ out.extra = imb.extra ∧ out.frame = imb.frame ∧
      out.bad_pixel_map = imb.bad_pixel_map := by
  unfold get_one_frame at hok
  split at hok
  · cases hok
  next extra hextra =>
    split at hok
    · cases hok
    next fp hfp =>
      refine ⟨extra, fp, hextra, hfp, ?_⟩
      unfold readFrame at hok
      simp only at hok
      split at hok
      · cases hok
      split at hok
      · cases hok
      next hr1 hr2 =>
        split at hok
        · cases hok
        split at hok
        · cases hok
        split at hok
        · cases hok
        next sz hsz =>
          split at hok
          · cases hok
          split at hok
          · cases hok
          split at hok
          · cases hok
          split at hok
          · cases hok
          simp only [FrameResult.success.injEq] at hok
          subst hok
          refine ⟨by simpa using hr2, rfl, ?_, rfl, rfl, rfl, rfl⟩
          simp only
          unfold frameBytes at hsz
          split at hsz
          next h4 => right; exact h4
          · split at hsz
            next h2 => left; exact h2
            · cases hsz

/-- The failure returns of `readFrame` by cause: before the allocation the buffer
does not exist, on the memory-space failure it has been freed, on the
hyperslab and read failures it has not. -/
theorem readFrame_buffer_fate (h5 : H5Lib) (imb : isImageBufType) (fp : frame_discovery_t)
    (why : FrameFailure) (b : BufferFate)
    (h : readFrame h5 imb fp = FrameResult.failure why b) :
    (why = FrameFailure.memSpace → b = BufferFate.freed) ∧
    (why = FrameFailure.hyperslab ∨ why = FrameFailure.readError → b = BufferFate.notFreed) ∧
    (why ≠ FrameFailure.memSpace → why ≠ FrameFailure.hyperslab →
      why ≠ FrameFailure.readError → b = BufferFate.notAllocated) := by
  unfold readFrame at h
  simp only at h
  repeat' split at h
  all_goals simp only [FrameResult.failure.injEq, reduceCtorEq] at h
  all_goals obtain ⟨h1, h2⟩ := h
  all_goals subst h1 h2
  all_goals simp

/-- C18 fails on the code for an element size that the `int data_element_size`
does not hold: for a rank-3 dataset whose `H5Tget_size` is
`4294967298 = 2^32 + 2` the size is cut to 2, the `switch` takes `case 2`, and
`get_one_frame` succeeds with `buf_depth = 2`, although the element size is
neither 2 nor 4. -/
theorem C18_element_size_truncated :
    (exH5 4 6 4294967298).H5Sget_simple_extent_ndims 22 = 3 ∧
    (exH5 4 6 4294967298).H5Tget_size 23 = 4294967298 ∧
    toInt32 4294967298 = 2 ∧
    get_one_frame (exH5 4 6 4294967298) (exImb 150) =
      FrameResult.success
        { exImb 150 with
          buf := true, buf_size := 48, buf_height := 4, buf_width := 6, buf_depth := 2 } := by
  decide

/-- Rank and element size, for element sizes that the `int data_element_size`
holds unchanged: once a record is selected, `get_one_frame` returns a failure
when the rank of its dataset is not 3, and when its element size is neither 2
nor 4 (in the second case `exit(-1)` takes the place of the failure return if
the dimension query of a rank-3 dataset fails); in both cases it does not
succeed, and whenever it succeeds the rank is 3 and `buf_depth` is the element
size, 2 or 4. -/
theorem rank_and_element_size_of_int (h5 : H5Lib) (imb : isImageBufType) (extra : isH5extra_t)
    (fp : frame_discovery_t)
    (hextra : imb.extra = some extra)
    (hfp : findFrame extra.frame_discovery_base imb.frame = some fp)
    (hsize : 0 ≤ h5.H5Tget_size fp.file_type ∧ h5.H5Tget_size fp.file_type < 2 ^ 31) :
    (h5.H5Sget_simple_extent_ndims fp.file_space ≠ 3 →
      ∃ why, get_one_frame h5 imb = FrameResult.failure why BufferFate.notAllocated ∧
        (why = FrameFailure.rankQuery ∨ why = FrameFailure.rankMismatch)) ∧
    (h5.H5Tget_size fp.file_type ≠ 2 ∧ h5.H5Tget_size fp.file_type ≠ 4 →
      h5.H5Sget_simple_extent_ndims fp.file_space = 3 →
      0 ≤ (h5.H5Sget_simple_extent_dims fp.file_space).1 →
      ∃ why, get_one_frame h5 imb = FrameResult.failure why BufferFate.notAllocated ∧
        (why = FrameFailure.elementSizeQuery ∨ why = FrameFailure.badElementSize)) ∧
    (h5.H5Sget_simple_extent_ndims fp.file_space ≠ 3 ∨
        (h5.H5Tget_size fp.file_type ≠ 2 ∧ h5.H5Tget_size fp.file_type ≠ 4) →
      ∀ out, get_one_frame h5 imb ≠ FrameResult.success out) ∧
    (∀ out, get_one_frame h5 imb = FrameResult.success out →
      h5.H5Sget_simple_extent_ndims fp.file_space = 3 ∧
      out.buf_depth = h5.H5Tget_size fp.file_type ∧
      (out.buf_depth = 2 ∨ out.buf_depth = 4)) := by
  have hconv : toInt32 (h5.H5Tget_size fp.file_type) = h5.H5Tget_size fp.file_type := by
    unfold toInt32
    omega
  have hsucc : ∀ out, get_one_frame h5 imb = FrameResult.success out →
      h5.H5Sget_simple_extent_ndims fp.file_space = 3 ∧
      out.buf_depth = h5.H5Tget_size fp.file_type ∧
      (out.buf_depth = 2 ∨ out.buf_depth = 4) := by
    intro out hok
    obtain ⟨extra', fp', he, hf, hrank, hdepth, h24, -⟩ := get_one_frame_success h5 imb out hok
    rw [hextra] at he
    cases he
    rw [hfp] at hf
    cases hf
    exact ⟨hrank, by rw [hdepth, hconv], h24⟩
  have hgo : get_one_frame h5 imb = readFrame h5 imb fp := by
    simp [get_one_frame, hextra, hfp]
  refine ⟨?_, ?_, ?_, hsucc⟩
  · intro hrank
    rw [hgo]
    unfold readFrame
    by_cases hneg : h5.H5Sget_simple_extent_ndims fp.file_space < 0
    · exact ⟨FrameFailure.rankQuery, by simp [hneg], Or.inl rfl⟩
    · exact ⟨FrameFailure.rankMismatch, by simp [hneg, hrank], Or.inr rfl⟩
  · rintro ⟨h2, h4⟩ hrank hdims
    rw [hgo]
    unfold readFrame
    by_cases h0 : h5.H5Tget_size fp.file_type = 0
    · refine ⟨FrameFailure.elementSizeQuery, ?_, Or.inl rfl⟩
      have hd : ¬ (h5.H5Sget_simple_extent_dims fp.file_space).1 < 0 := by omega
      have hz : toInt32 0 = 0 := by decide
      simp [hrank, hd, h0, hz]
    · refine ⟨FrameFailure.badElementSize, ?_, Or.inr rfl⟩
      have hd : ¬ (h5.H5Sget_simple_extent_dims fp.file_space).1 < 0 := by omega
      simp [hrank, hd, hconv, h0, frameBytes, h2, h4]
  · intro hbad out hok
    obtain ⟨hrank, hdepth, h24⟩ := hsucc out hok
    rcases hbad with h | ⟨h2, h4⟩
    · exact h hrank
    · rw [hdepth] at h24
      rcases h24 with h | h
      · exact h2 h
      · exact h4 h

/-- Rank and element size, evaluated: frame 150 in a dataset of 8-byte elements. -/
theorem rank_and_element_size_of_int_example :
    ((exH5 4 6 8).H5Sget_simple_extent_ndims 22 ≠ 3 →
      ∃ why, get_one_frame (exH5 4 6 8) (exImb 150) =
          FrameResult.failure why BufferFate.notAllocated ∧
        (why = FrameFailure.rankQuery ∨ why = FrameFailure.rankMismatch)) ∧
    ((exH5 4 6 8).H5Tget_size 23 ≠ 2 ∧ (exH5 4 6 8).H5Tget_size 23 ≠ 4 →
      (exH5 4 6 8).H5Sget_simple_extent_ndims 22 = 3 →
      0 ≤ ((exH5 4 6 8).H5Sget_simple_extent_dims 22).1 →
      ∃ why, get_one_frame (exH5 4 6 8) (exImb 150) =
          FrameResult.failure why BufferFate.notAllocated ∧
        (why = FrameFailure.elementSizeQuery ∨ why = FrameFailure.badElementSize)) ∧
    ((exH5 4 6 8).H5Sget_simple_extent_ndims 22 ≠ 3 ∨
        ((exH5 4 6 8).H5Tget_size 23 ≠ 2 ∧ (exH5 4 6 8).H5Tget_size 23 ≠ 4) →
      ∀ out, get_one_frame (exH5 4 6 8) (exImb 150) ≠ FrameResult.success out) ∧
    (∀ out, get_one_frame (exH5 4 6 8) (exImb 150) = FrameResult.success out →
      (exH5 4 6 8).H5Sget_simple_extent_ndims 22 = 3 ∧
      out.buf_depth = (exH5 4 6 8).H5Tget_size 23 ∧
      (out.buf_depth = 2 ∨ out.buf_depth = 4)) :=
  rank_and_element_size_of_int (exH5 4 6 8) (exImb 150) ⟨exFrames⟩ ⟨21, 22, 23, 101, 200⟩
    rfl (by decide) (by decide)

/-- C19 fails on the code: when the hyperslab selection fails and when the read
fails, `get_one_frame` returns the failure with the frame buffer allocated and
not freed; only the memory-space failure frees it. -/
theorem C19_buffer_not_freed :
    get_one_frame { exH5 4 6 2 with H5Sselect_hyperslab := fun _ _ _ _ => -1 } (exImb 150) =
      FrameResult.failure FrameFailure.hyperslab BufferFate.notFreed ∧
    get_one_frame { exH5 4 6 2 with H5Dread := fun _ _ _ _ => -1 } (exImb 150) =
      FrameResult.failure FrameFailure.readError BufferFate.notFreed ∧
    get_one_frame { exH5 4 6 2 with H5Screate_simple := fun _ _ => -1 } (exImb 150) =
      FrameResult.failure FrameFailure.memSpace BufferFate.freed := by
  decide

/-- After the replacement of the value of `key` the first member with that key
holds `value`. -/
theorem find_replaced_same (key : String) (value : Int) (l : List (String × Int)) :
    l.any (fun kv => kv.1 == key) = true →
      ((l.map (fun kv => if kv.1 == key then (key, value) else kv)).find?
        (fun kv => kv.1 == key)).map Prod.snd = some value := by
  induction l with
  | nil => intro h; simp at h
  | cons a t ih =>
    intro h
    rw [List.map_cons, List.find?_cons]
    by_cases ha : (a.1 == key) = true
    · rw [if_pos ha]
      have : ((key, value).1 == key) = true := by simp
      rw [this]
      rfl
    · rw [if_neg ha]
      have hf : (a.1 == key) = false := by simpa using ha
      rw [hf]
      apply ih
      rw [List.any_cons, hf] at h
      simpa using h

/-- The replacement of the value of `key` does not change the first member with
another key. -/
theorem find_replaced_other (key other : String) (value : Int) (hne : other ≠ key)
    (l : List (String × Int)) :
    (l.map (fun kv => if kv.1 == key then (key, value) else kv)).find?
      (fun kv => kv.1 == other) = l.find? (fun kv => kv.1 == other) := by
  induction l with
  | nil => rfl
  | cons a t ih =>
    rw [List.map_cons, List.find?_cons, List.find?_cons, ih]
    by_cases ha : (a.1 == key) = true
    · rw [if_pos ha]
      have hk : a.1 = key := by simpa using ha
      have h1 : ((key, value).1 == other) = false := by
        simp only [beq_eq_false_iff_ne, ne_eq]
        exact fun h => hne h.symm
      have h2 : (a.1 == other) = false := by
        rw [hk]; exact h1
      rw [h1, h2]
    · rw [if_neg ha]

/-- Reading back the key just stored gives the value stored. -/
theorem metaGet_set_same (meta : List (String × Int)) (key : String) (value : Int) :
    metaGet (set_json_object_integer meta key value) key = some value := by
  unfold metaGet set_json_object_integer
  split
  next hany => exact find_replaced_same key value meta hany
  next hany =>
    have hnone : meta.find? (fun kv => kv.1 == key) = none := by
      rw [List.find?_eq_none]
      intro x hx hk
      apply hany
      rw [List.any_eq_true]
      exact ⟨x, hx, hk⟩
    rw [List.find?_append, hnone]
    simp

/-- Storing a key leaves the value of every other key as it was. -/
theorem metaGet_set_other (meta : List (String × Int)) (key other : String) (value : Int)
    (hne : other ≠ key) :
    metaGet (set_json_object_integer meta key value) other = metaGet meta other := by
  unfold metaGet set_json_object_integer
  split
  · rw [find_replaced_other key other value hne meta]
  · have h1 : ((key, value).1 == other) = false := by
      simp only [beq_eq_false_iff_ne, ne_eq]
      exact fun h => hne h.symm
    rw [List.find?_append, List.find?_cons, h1]
    simp

/-- Neither the call of `get_one_frame` nor a set `failed` flag changes `meta`. -/
theorem finishGetData_meta (h5 : H5Lib) (imb : isImageBufType) (failed : Bool) :
    (finishGetData h5 imb failed).1.meta = imb.meta := by
  unfold finishGetData
  split
  · rfl
  · split
    next out hok =>
      obtain ⟨-, -, -, -, -, -, -, hmeta, -⟩ := get_one_frame_success h5 imb out hok
      exact hmeta
    · rfl
    · rfl
    · rfl

/-- Neither the call of `get_one_frame` nor a set `failed` flag changes `extra`. -/
theorem finishGetData_extra (h5 : H5Lib) (imb : isImageBufType) (failed : Bool) :
    (finishGetData h5 imb failed).1.extra = imb.extra := by
  unfold finishGetData
  split
  · rfl
  · split
    next out hok =>
      obtain ⟨-, -, -, -, -, -, -, -, hex, -⟩ := get_one_frame_success h5 imb out hok
      exact hex
    · rfl
    · rfl
    · rfl

/-- For records with `1 <= first_frame < 2^31` the running `uint32_t` minimum from
a start value is the running minimum of the `first_frame` values. -/
theorem foldl_uint32_min (rest : List frame_discovery_t) (init : Int)
    (hrec : ∀ r ∈ rest, 0 ≤ r.first_frame ∧ r.first_frame < 2 ^ 32) :
    rest.foldl
      (fun first_frame fp =>
        if first_frame < toUInt32 fp.first_frame then first_frame else toUInt32 fp.first_frame)
      init = rest.foldl (fun m r => min m r.first_frame) init := by
  induction rest generalizing init with
  | nil => rfl
  | cons a t ih =>
    simp only [List.foldl_cons]
    have ha := hrec a (List.mem_cons_self _ _)
    have hconv : toUInt32 a.first_frame = a.first_frame := by
      unfold toUInt32
      omega
    have hstep : (if init < toUInt32 a.first_frame then init else toUInt32 a.first_frame) =
        min init a.first_frame := by
      rw [hconv]
      by_cases h : init < a.first_frame
      · rw [if_pos h, min_eq_left (le_of_lt h)]
      · rw [if_neg h, min_eq_right (by omega)]
    rw [hstep]
    exact ih _ (fun r hr => hrec r (List.mem_cons_of_mem _ hr))

/-- For records with `0 <= last_frame < 2^32` the running `uint32_t` maximum from a
start value is the running maximum of the `last_frame` values. -/
theorem foldl_uint32_max (rest : List frame_discovery_t) (init : Int)
    (hrec : ∀ r ∈ rest, 0 ≤ r.last_frame ∧ r.last_frame < 2 ^ 32) :
    rest.foldl
      (fun last_frame fp =>
        if last_frame > toUInt32 fp.last_frame then last_frame else toUInt32 fp.last_frame)
      init = rest.foldl (fun m r => max m r.last_frame) init := by
  induction rest generalizing init with
  | nil => rfl
  | cons a t ih =>
    simp only [List.foldl_cons]
    have ha := hrec a (List.mem_cons_self _ _)
    have hconv : toUInt32 a.last_frame = a.last_frame := by
      unfold toUInt32
      omega
    have hstep : (if init > toUInt32 a.last_frame then init else toUInt32 a.last_frame) =
        max init a.last_frame := by
      rw [hconv]
      by_cases h : init > a.last_frame
      · rw [if_pos h, max_eq_left (le_of_lt h)]
      · rw [if_neg h, max_eq_right (by omega)]
    rw [hstep]
    exact ih _ (fun r hr => hrec r (List.mem_cons_of_mem _ hr))

/-- The minimum loop of `isH5GetData` yields the smallest `first_frame`. -/
theorem scanFirstFrame_eq (base : List frame_discovery_t) (lo : Int)
    (hrec : ∀ r ∈ base, 1 ≤ r.first_frame ∧ r.first_frame ≤ r.last_frame ∧
      r.last_frame < 2 ^ 31)
    (hlo : minFirstFrame base = some lo) : scanFirstFrame base = lo := by
  cases base with
  | nil => simp [minFirstFrame] at hlo
  | cons a t =>
    simp only [minFirstFrame, Option.some.injEq] at hlo
    have ha := hrec a (List.mem_cons_self _ _)
    unfold scanFirstFrame
    simp only [List.foldl_cons]
    have h0 : (if (0xffffffff : Int) < toUInt32 a.first_frame then (0xffffffff : Int)
        else toUInt32 a.first_frame) = a.first_frame := by
      unfold toUInt32
      split <;> omega
    rw [h0, foldl_uint32_min t _ (fun r hr => by
      have := hrec r (List.mem_cons_of_mem _ hr); omega)]
    exact hlo

/-- The maximum loop of `isH5GetData` yields the largest `last_frame`. -/
theorem scanLastFrame_eq (base : List frame_discovery_t) (hi : Int)
    (hrec : ∀ r ∈ base, 1 ≤ r.first_frame ∧ r.first_frame ≤ r.last_frame ∧
      r.last_frame < 2 ^ 31)
    (hhi : maxLastFrame base = some hi) : scanLastFrame base = hi := by
  cases base with
  | nil => simp [maxLastFrame] at hhi
  | cons a t =>
    simp only [maxLastFrame, Option.some.injEq] at hhi
    have ha := hrec a (List.mem_cons_self _ _)
    unfold scanLastFrame
    simp only [List.foldl_cons]
    have h0 : (if (0 : Int) > toUInt32 a.last_frame then (0 : Int)
        else toUInt32 a.last_frame) = a.last_frame := by
      unfold toUInt32
      split <;> omega
    rw [h0, foldl_uint32_max t _ (fun r hr => by
      have := hrec r (List.mem_cons_of_mem _ hr); omega)]
    exact hhi

/-- C20: on first access (`extra` is NULL) to a master that opens and whose walk
yields a non-empty discovery list with `1 <= first_frame <= last_frame` in every
record, `isH5GetData` stores in the metadata `frame` = the requested frame
number, `first_frame` = the minimum of `first_frame` over the records and
`last_frame` = the maximum of `last_frame` over the records. -/
theorem C20_first_access_metadata (h5 : H5Lib) (m : MasterLib) (fn : String)
    (imb : isImageBufType) (links : List LinkCalls) (base : List frame_discovery_t)
    (lo hi : Int)
    (hfirst : imb.extra = none)
    (hopen : 0 ≤ m.H5Fopen fn) (halloc : m.extraAlloc = true)
    (hlinks : m.links (m.H5Fopen fn) = some links)
    (hvisit : visitLinks links [] = (base, VisitStatus.done))
    (hrec : ∀ r ∈ base, 1 ≤ r.first_frame ∧ r.first_frame ≤ r.last_frame ∧
      r.last_frame < 2 ^ 31)
    (hlo : minFirstFrame base = some lo) (hhi : maxLastFrame base = some hi) :
    metaGet (isH5GetData h5 m fn imb).1.meta "frame" = some imb.frame ∧
    metaGet (isH5GetData h5 m fn imb).1.meta "first_frame" = some lo ∧
    metaGet (isH5GetData h5 m fn imb).1.meta "last_frame" = some hi ∧
    (isH5GetData h5 m fn imb).1.extra = some ⟨base⟩ := by
  have hmeta : (isH5GetData h5 m fn imb).1.meta =
      set_json_object_integer
        (set_json_object_integer (set_json_object_integer imb.meta "frame" imb.frame)
          "first_frame" lo) "last_frame" hi ∧
      (isH5GetData h5 m fn imb).1.extra = some ⟨base⟩ := by
    unfold isH5GetData
    simp only [not_lt.2 hopen, if_false, hfirst]
    unfold firstAccess
    simp only [halloc, hlinks, hvisit, scanFirstFrame_eq base lo hrec hlo,
      scanLastFrame_eq base hi hrec hhi]
    split
    next h => cases h
    · split
      · exact ⟨by rw [finishGetData_meta], by rw [finishGetData_extra]⟩
      · exact ⟨by rw [finishGetData_meta], by rw [finishGetData_extra]⟩
  obtain ⟨hm, hex⟩ := hmeta
  refine ⟨?_, ?_, ?_, hex⟩
  · rw [hm, metaGet_set_other _ _ _ _ (by decide), metaGet_set_other _ _ _ _ (by decide),
      metaGet_set_same]
  · rw [hm, metaGet_set_other _ _ _ _ (by decide), metaGet_set_same]
  · rw [hm, metaGet_set_same]

/-- C20, evaluated: two data files 1..100 and 101..200, requested frame 150:
`frame = 150`, `first_frame = 1`, `last_frame = 200`. -/
theorem C20_first_access_metadata_witness :
    metaGet (isH5GetData exH5Master exMaster "master.h5" (exImbFresh 150)).1.meta "frame" =
      some 150 ∧
    metaGet (isH5GetData exH5Master exMaster "master.h5" (exImbFresh 150)).1.meta "first_frame" =
      some 1 ∧
    metaGet (isH5GetData exH5Master exMaster "master.h5" (exImbFresh 150)).1.meta "last_frame" =
      some 200 ∧
    (isH5GetData exH5Master exMaster "master.h5" (exImbFresh 150)).1.extra =
      some ⟨[⟨10, 12, 11, 1, 100⟩, ⟨20, 22, 21, 101, 200⟩]⟩ :=
  C20_first_access_metadata exH5Master exMaster "master.h5" (exImbFresh 150)
    [exLink 10 1 100, exLink 20 101 200] [⟨10, 12, 11, 1, 100⟩, ⟨20, 22, 21, 101, 200⟩] 1 200
    rfl (by decide) rfl rfl (by decide) (by decide) (by decide) (by decide)

/-! ## Properties of the profile renderer -/

set_option maxRecDepth 4000

/-- The count of `bitLengthFuel` is the number of binary digits when the fuel
suffices: `n < 2^count`, and `2^(count - 1) <= n` for `n` other than 0. -/
theorem bitLengthFuel_spec (fuel n : Nat) (h : n ≤ fuel) :
    n < 2 ^ bitLengthFuel fuel n ∧ (n ≠ 0 → 2 ^ (bitLengthFuel fuel n - 1) ≤ n) := by
  induction fuel generalizing n with
  | zero =>
    have hn : n = 0 := by omega
    subst hn
    simp [bitLengthFuel]
  | succ f ih =>
    unfold bitLengthFuel
    by_cases hn : n = 0
    · subst hn
      simp
    · rw [if_neg hn]
      obtain ⟨h1, h2⟩ := ih (n / 2) (by omega)
      constructor
      · rw [pow_succ]
        omega
      · intro _
        simp only [Nat.add_sub_cancel]
        by_cases h0 : n / 2 = 0
        · have hb : bitLengthFuel f (n / 2) = 0 := by
            rw [h0]
            cases f <;> simp [bitLengthFuel]
          rw [hb]
          simp only [pow_zero]
          omega
        · have h3 := h2 h0
          have hB : 1 ≤ bitLengthFuel f (n / 2) := by
            by_contra hc
            have hz : bitLengthFuel f (n / 2) = 0 := by omega
            rw [hz] at h1
            simp only [pow_zero] at h1
            omega
          have hp : 2 ^ bitLengthFuel f (n / 2) = 2 * 2 ^ (bitLengthFuel f (n / 2) - 1) := by
            rw [← pow_succ']
            congr 1
            omega
          omega

/-- The number of binary digits: `n < 2^(bitLength n)`, and
`2^(bitLength n - 1) <= n` for `n` other than 0. -/
theorem bitLength_spec (n : Nat) :
    n < 2 ^ bitLength n ∧ (n ≠ 0 → 2 ^ (bitLength n - 1) ≤ n) :=
  bitLengthFuel_spec n n (le_refl n)

/-- The exponent found by `floorLog2` is not above the quotient:
`2^(floorLog2 a b) <= a / b`, written without division. -/
theorem floorLog2_le (a b : Nat) (ha : 0 < a) :
    b * 2 ^ (floorLog2 a b).toNat ≤ a * 2 ^ (-(floorLog2 a b)).toNat := by
  obtain ⟨ha1, ha2⟩ := bitLength_spec a
  obtain ⟨hb1, -⟩ := bitLength_spec b
  have ha3 := ha2 (by omega)
  have hda : 1 ≤ bitLength a := by
    by_contra hc
    have hz : bitLength a = 0 := by omega
    rw [hz] at ha1
    simp only [pow_zero] at ha1
    omega
  unfold floorLog2
  split
  · by_cases hle : bitLength b + 1 ≤ bitLength a
    · have e1 : ((bitLength a : Int) - (bitLength b : Int) - 1).toNat =
          bitLength a - bitLength b - 1 := by omega
      have e2 : (-((bitLength a : Int) - (bitLength b : Int) - 1)).toNat = 0 := by omega
      rw [e1, e2, pow_zero, Nat.mul_one]
      have hpow : 2 ^ bitLength b * 2 ^ (bitLength a - bitLength b - 1) =
          2 ^ (bitLength a - 1) := by
        rw [← pow_add]
        congr 1
        omega
      calc b * 2 ^ (bitLength a - bitLength b - 1)
          ≤ 2 ^ bitLength b * 2 ^ (bitLength a - bitLength b - 1) :=
            Nat.mul_le_mul_right _ (le_of_lt hb1)
        _ = 2 ^ (bitLength a - 1) := hpow
        _ ≤ a := ha3
    · have e1 : ((bitLength a : Int) - (bitLength b : Int) - 1).toNat = 0 := by omega
      have e2 : (-((bitLength a : Int) - (bitLength b : Int) - 1)).toNat =
          bitLength b - bitLength a + 1 := by omega
      rw [e1, e2, pow_zero, Nat.mul_one]
      have hpow : 2 ^ (bitLength a - 1) * 2 ^ (bitLength b - bitLength a + 1) =
          2 ^ bitLength b := by
        rw [← pow_add]
        congr 1
        omega
      calc b ≤ 2 ^ bitLength b := le_of_lt hb1
        _ = 2 ^ (bitLength a - 1) * 2 ^ (bitLength b - bitLength a + 1) := hpow.symm
        _ ≤ a * 2 ^ (bitLength b - bitLength a + 1) := Nat.mul_le_mul_right _ ha3
  next hnot =>
    have e : -((bitLength a : Int) - (bitLength b : Int)) =
        (bitLength b : Int) - (bitLength a : Int) := by ring
    rw [e]
    exact Nat.le_of_not_lt hnot

/-- The exponent found by `floorLog2` is the greatest one not above the quotient:
`a / b < 2^(floorLog2 a b + 1)`, written without division. -/
theorem floorLog2_lt (a b : Nat) (hb : 0 < b) :
    a * 2 ^ (-(floorLog2 a b + 1)).toNat < b * 2 ^ (floorLog2 a b + 1).toNat := by
  obtain ⟨ha1, -⟩ := bitLength_spec a
  obtain ⟨hb1, hb2⟩ := bitLength_spec b
  have hb3 := hb2 (by omega)
  have hdb : 1 ≤ bitLength b := by
    by_contra hc
    have hz : bitLength b = 0 := by omega
    rw [hz] at hb1
    simp only [pow_zero] at hb1
    omega
  unfold floorLog2
  split
  next hlt =>
    have e1 : -((bitLength a : Int) - (bitLength b : Int) - 1 + 1) =
        (bitLength b : Int) - (bitLength a : Int) := by ring
    have e2 : (bitLength a : Int) - (bitLength b : Int) - 1 + 1 =
        (bitLength a : Int) - (bitLength b : Int) := by ring
    rw [e1, e2]
    exact hlt
  · by_cases hle : bitLength b ≤ bitLength a + 1
    · have e1 : (-((bitLength a : Int) - (bitLength b : Int) + 1)).toNat = 0 := by omega
      have e2 : ((bitLength a : Int) - (bitLength b : Int) + 1).toNat =
          bitLength a + 1 - bitLength b := by omega
      rw [e1, e2, pow_zero, Nat.mul_one]
      have hpow : 2 ^ (bitLength b - 1) * 2 ^ (bitLength a + 1 - bitLength b) =
          2 ^ bitLength a := by
        rw [← pow_add]
        congr 1
        omega
      calc a < 2 ^ bitLength a := ha1
        _ = 2 ^ (bitLength b - 1) * 2 ^ (bitLength a + 1 - bitLength b) := hpow.symm
        _ ≤ b * 2 ^ (bitLength a + 1 - bitLength b) := Nat.mul_le_mul_right _ hb3
    · have e1 : (-((bitLength a : Int) - (bitLength b : Int) + 1)).toNat =
          bitLength b - bitLength a - 1 := by omega
      have e2 : ((bitLength a : Int) - (bitLength b : Int) + 1).toNat = 0 := by omega
      rw [e1, e2, pow_zero, Nat.mul_one]
      have hpow : 2 ^ bitLength a * 2 ^ (bitLength b - bitLength a - 1) =
          2 ^ (bitLength b - 1) := by
        rw [← pow_add]
        congr 1
        omega
      calc a * 2 ^ (bitLength b - bitLength a - 1)
          < 2 ^ bitLength a * 2 ^ (bitLength b - bitLength a - 1) :=
            Nat.mul_lt_mul_of_pos_right ha1 (pow_pos (by decide) _)
        _ = 2 ^ (bitLength b - 1) := hpow
        _ ≤ b := hb3

/-- The integer found by `nearestEven` is at most one half away from `n / d`. -/
theorem nearestEven_near (n d : Nat) (hd : 0 < d) :
    2 * n ≤ 2 * (nearestEven n d * d) + d ∧ 2 * (nearestEven n d * d) ≤ 2 * n + d := by
  have hn : d * (n / d) + n % d = n := Nat.div_add_mod n d
  have hr : n % d < d := Nat.mod_lt n hd
  have hcomm : n / d * d = d * (n / d) := Nat.mul_comm _ _
  unfold nearestEven
  split
  next hup =>
    have hexp : (n / d + 1) * d = d * (n / d) + d := by ring
    rw [hexp]
    omega
  next hdown =>
    rw [hcomm]
    omega

/-- The nearest integer is not below the integer part. -/
theorem div_le_nearestEven (n d : Nat) : n / d ≤ nearestEven n d := by
  unfold nearestEven
  split <;> omega

/-- Rounding keeps the denominator positive. -/
theorem round_den_pos (x : Dbl) (h : 0 < x.den) : 0 < x.round.den := by
  unfold Dbl.round
  split
  · exact h
  · split
    · exact h
    · show (0 : Int) < 2 ^ _
      positivity

/-- Rounding does not take a value that is at least 1 below 1. -/
theorem round_ge_one (x : Dbl) (hden : 0 < x.den) (h : x.den ≤ x.num) :
    x.round.den ≤ x.round.num := by
  have ha : 0 < x.num.natAbs := by omega
  have hb : 0 < x.den.natAbs := by omega
  have hab : x.den.natAbs ≤ x.num.natAbs := by omega
  have hlog := floorLog2_le x.num.natAbs x.den.natAbs ha
  unfold Dbl.round
  split
  · exact h
  · split
    · exact h
    · simp only
      rw [Int.sign_eq_one_of_pos (by omega), one_mul]
      have key : 2 ^ (-x.ulpExp).toNat ≤ x.mantissa * 2 ^ x.ulpExp.toNat := by
        unfold Dbl.mantissa Dbl.ulpExp
        generalize floorLog2 x.num.natAbs x.den.natAbs = L at hlog ⊢
        by_cases hL : L ≤ 52
        · have e0 : (L - 52).toNat = 0 := by omega
          rw [e0, pow_zero, Nat.mul_one, Nat.mul_one]
          refine le_trans ?_ (div_le_nearestEven _ _)
          rw [Nat.le_div_iff_mul_le hb]
          rw [Nat.mul_comm]
          exact Nat.mul_le_mul_right _ hab
        · have e0 : (-(L - 52)).toNat = 0 := by omega
          have e1 : (-L).toNat = 0 := by omega
          rw [e0, pow_zero, Nat.mul_one]
          rw [e1, pow_zero, Nat.mul_one] at hlog
          have hpow : 2 ^ (L - 52).toNat ≤ 2 ^ L.toNat :=
            Nat.pow_le_pow_right (by decide) (by omega)
          have hD : x.den.natAbs * 2 ^ (L - 52).toNat ≤ x.num.natAbs :=
            le_trans (Nat.mul_le_mul_left _ hpow) hlog
          have hDpos : 0 < x.den.natAbs * 2 ^ (L - 52).toNat :=
            Nat.mul_pos hb (pow_pos (by decide) _)
          have hq : 1 ≤ x.num.natAbs / (x.den.natAbs * 2 ^ (L - 52).toNat) := by
            rw [Nat.le_div_iff_mul_le hDpos, Nat.one_mul]
            exact hD
          have hm := le_trans hq (div_le_nearestEven x.num.natAbs
            (x.den.natAbs * 2 ^ (L - 52).toNat))
          exact Nat.mul_le_mul hm (Nat.one_le_two_pow)
      exact_mod_cast key

/-- The square root of a double that is not negative is not negative. -/
theorem sqrt_nonneg (x : Dbl) (hnum : 0 ≤ x.num) (hden : 0 < x.den) :
    0 ≤ x.sqrt.num ∧ 0 < x.sqrt.den := by
  unfold Dbl.sqrt
  split
  · exact ⟨hnum, hden⟩
  · simp only
    constructor <;> positivity

/-- Rounding and square root, evaluated on values whose doubles are known: `1/3`
is `0x1.5555555555555p-2`, `2^53 + 1` lies halfway and goes to the even
`2^53`, `2^53 + 3` goes to `2^53 + 4`, `0.1 + 0.2` as exact sum of the
doubles nearest to `1/10` and `2/10` is `0x1.3333333333334p-2`, the square
root of 2 is `0x1.6a09e667f3bcdp+0`, and a double is left as it is. -/
theorem round_examples :
    Dbl.round ⟨1, 3⟩ = ⟨6004799503160661, 2 ^ 54⟩ ∧
    Dbl.round ⟨2 ^ 53 + 1, 1⟩ = ⟨2 ^ 53, 1⟩ ∧
    Dbl.round ⟨2 ^ 53 + 3, 1⟩ = ⟨2 ^ 53 + 4, 1⟩ ∧
    ((Dbl.round ⟨1, 10⟩).add (Dbl.round ⟨2, 10⟩)).round = ⟨5404319552844596, 2 ^ 54⟩ ∧
    Dbl.sqrt ⟨2, 1⟩ = ⟨6369051672525773, 2 ^ 52⟩ ∧
    Dbl.round ⟨-5, 2⟩ = ⟨-5, 2⟩ ∧
    Dbl.sqrt ⟨0, 1⟩ = ⟨0, 1⟩ := by
  decide

/-- The binary search keeps `r * r <= n < (r + 2^k) * (r + 2^k)` and ends with the
integer square root. -/
theorem isqrtAux_spec (n k r : Nat) (h1 : r * r ≤ n) (h2 : n < (r + 2 ^ k) * (r + 2 ^ k)) :
    isqrtAux n k r * isqrtAux n k r ≤ n ∧
      n < (isqrtAux n k r + 1) * (isqrtAux n k r + 1) := by
  induction k generalizing r with
  | zero =>
    simp only [isqrtAux]
    simp only [pow_zero] at h2
    exact ⟨h1, h2⟩
  | succ k ih =>
    unfold isqrtAux
    split
    next hle =>
      apply ih _ hle
      have e : r + 2 ^ k + 2 ^ k = r + 2 ^ (k + 1) := by
        rw [pow_succ]
        omega
      rw [e]
      exact h2
    next hnot =>
      exact ih r h1 (Nat.lt_of_not_le hnot)

/-- The function `isqrt` is the integer square root. -/
theorem isqrt_eq_sqrt (n : Nat) : isqrt n = Nat.sqrt n := by
  rw [Nat.eq_sqrt]
  unfold isqrt
  apply isqrtAux_spec
  · exact Nat.zero_le _
  · have h := (bitLength_spec n).1
    have h1 : 1 ≤ 2 ^ bitLength n := Nat.one_le_two_pow
    have h2 : 2 ^ bitLength n ≤ 2 ^ bitLength n * 2 ^ bitLength n := by
      calc 2 ^ bitLength n = 2 ^ bitLength n * 1 := (Nat.mul_one _).symm
        _ ≤ 2 ^ bitLength n * 2 ^ bitLength n := Nat.mul_le_mul_left _ h1
    simp only [Nat.zero_add]
    omega

/-- The claimed number of points is `floor(sqrt((pbx-pax)^2 + (pby-pay)^2)) + 1`
over the reals. -/
theorem specProfileN_eq_floor_sqrt (is : isType) :
    specProfileN is =
      ⌊Real.sqrt ((((is.pbx - is.pax) ^ 2 + (is.pby - is.pay) ^ 2 : Int) : ℝ))⌋ + 1 := by
  have hnn : (0 : Int) ≤ (is.pbx - is.pax) ^ 2 + (is.pby - is.pay) ^ 2 := by positivity
  have hcast : ((((is.pbx - is.pax) ^ 2 + (is.pby - is.pay) ^ 2 : Int)) : ℝ) =
      ((((is.pbx - is.pax) ^ 2 + (is.pby - is.pay) ^ 2).toNat : ℕ) : ℝ) := by
    have := Int.toNat_of_nonneg hnn
    exact_mod_cast this.symm
  rw [hcast, Real.floor_real_sqrt_eq_nat_sqrt]
  unfold specProfileN
  rw [isqrt_eq_sqrt]

/-- The loop of `marTiff2profile` over the positions `L`: `maxs` receives the
values in order, `mx` and `mn` are the running maximum and minimum. -/
theorem profileLoop_spec (is : isType) (buf : Int → Int) (L : List Nat) (st : ProfileState) :
    (L.foldl (profileStep is buf) st).maxs =
      st.maxs ++ L.map (fun (s : Nat) => profileValue is buf (s : Int)) ∧
    (L.foldl (profileStep is buf) st).mx =
      (L.map (fun (s : Nat) => profileValue is buf (s : Int))).foldl (fun mx v => if v > mx then v else mx) st.mx ∧
    (L.foldl (profileStep is buf) st).mn =
      (L.map (fun (s : Nat) => profileValue is buf (s : Int))).foldl (fun mn v => if v < mn then v else mn) st.mn := by
  induction L generalizing st with
  | nil => simp
  | cons a t ih =>
    simp only [List.foldl_cons, List.map_cons]
    obtain ⟨h1, h2, h3⟩ := ih (profileStep is buf st a)
    refine ⟨?_, ?_, ?_⟩
    · rw [h1]; simp [profileStep]
    · rw [h2]; rfl
    · rw [h3]; rfl

/-- The running maximum is at least the start value and every value, and is the
start value or one of the values. -/
theorem running_max_spec (vs : List Int) (init : Int) :
    init ≤ vs.foldl (fun mx v => if v > mx then v else mx) init ∧
    (∀ v ∈ vs, v ≤ vs.foldl (fun mx v => if v > mx then v else mx) init) ∧
    (vs.foldl (fun mx v => if v > mx then v else mx) init = init ∨
      vs.foldl (fun mx v => if v > mx then v else mx) init ∈ vs) := by
  induction vs generalizing init with
  | nil => simp
  | cons a t ih =>
    simp only [List.foldl_cons]
    obtain ⟨h1, h2, h3⟩ := ih (if a > init then a else init)
    have hstep : init ≤ (if a > init then a else init) ∧ a ≤ (if a > init then a else init) := by
      split <;> constructor <;> omega
    refine ⟨le_trans hstep.1 h1, ?_, ?_⟩
    · intro v hv
      rcases List.mem_cons.1 hv with h | h
      · rw [h]; exact le_trans hstep.2 h1
      · exact h2 v h
    · rcases h3 with h | h
      · rw [h]
        by_cases hc : a > init
        · right; rw [if_pos hc]; exact List.mem_cons_self _ _
        · left; rw [if_neg hc]
      · right; exact List.mem_cons_of_mem _ h

/-- The running minimum is at most the start value and every value, and is the
start value or one of the values. -/
theorem running_min_spec (vs : List Int) (init : Int) :
    vs.foldl (fun mn v => if v < mn then v else mn) init ≤ init ∧
    (∀ v ∈ vs, vs.foldl (fun mn v => if v < mn then v else mn) init ≤ v) ∧
    (vs.foldl (fun mn v => if v < mn then v else mn) init = init ∨
      vs.foldl (fun mn v => if v < mn then v else mn) init ∈ vs) := by
  induction vs generalizing init with
  | nil => simp
  | cons a t ih =>
    simp only [List.foldl_cons]
    obtain ⟨h1, h2, h3⟩ := ih (if a < init then a else init)
    have hstep : (if a < init then a else init) ≤ init ∧ (if a < init then a else init) ≤ a := by
      split <;> constructor <;> omega
    refine ⟨le_trans h1 hstep.1, ?_, ?_⟩
    · intro v hv
      rcases List.mem_cons.1 hv with h | h
      · rw [h]; exact le_trans h1 hstep.2
      · exact h2 v h
    · rcases h3 with h | h
      · rw [h]
        by_cases hc : a < init
        · right; rw [if_pos hc]; exact List.mem_cons_self _ _
        · left; rw [if_neg hc]
      · right; exact List.mem_cons_of_mem _ h

/-- Pairing positions with the values computed at them. -/
theorem zipWith_map_values (L : List Nat) (g : Nat → Int) :
    L.zipWith (fun (s : Nat) v => ((s : Int), v)) (L.map g) =
      L.map (fun (s : Nat) => ((s : Int), g s)) := by
  induction L with
  | nil => rfl
  | cons a t ih => simp [List.zipWith, ih]


/-- The sum under the square root has a positive denominator. -/
theorem profileSum_den_pos (is : isType) : 0 < is.profileSum.den := by
  unfold isType.profileSum
  apply round_den_pos
  have h := round_den_pos
    ((Dbl.ofInt (toInt32 (is.pbx - is.pax))).mul (Dbl.ofInt (toInt32 (is.pbx - is.pax))))
    (by simp [Dbl.mul, Dbl.ofInt])
  simp only [Dbl.add, Dbl.ofInt, mul_one]
  exact h

/-- The number of points is at least 1, unless the conversion to `int` is that of
a NaN or of a value out of range. -/
theorem profileN_cases (is : isType) : is.profileN = -(2 ^ 31) ∨ 1 ≤ is.profileN := by
  unfold isType.profileN
  split
  · left
    rfl
  next hneg =>
    have hs := sqrt_nonneg is.profileSum (by omega) (profileSum_den_pos is)
    have hden : 0 < (is.profileSum.sqrt.add (Dbl.ofInt 1)).den := by
      simp only [Dbl.add, Dbl.ofInt, mul_one]
      exact hs.2
    have hge : (is.profileSum.sqrt.add (Dbl.ofInt 1)).den ≤
        (is.profileSum.sqrt.add (Dbl.ofInt 1)).num := by
      simp only [Dbl.add, Dbl.ofInt, mul_one, one_mul]
      omega
    have h1 := round_den_pos _ hden
    have h2 := round_ge_one _ hden hge
    unfold Dbl.toInt32
    split
    · right
      unfold Dbl.toInt
      rw [Int.tdiv_eq_ediv (by omega) (by omega)]
      exact Int.le_ediv_of_mul_le h1 (by omega)
    · left
      rfl

/-- When `maxs` is allocated the number of points is at least 1. -/
theorem profileN_pos_of_calloc (calloc : Int → Bool) (is : isType)
    (hcalloc : callocMaxs calloc is.profileN = true) : 1 ≤ is.profileN := by
  rcases profileN_cases is with hmin | hpos
  · rw [hmin] at hcalloc
    unfold callocMaxs at hcalloc
    have hbig : (2 : Int) ^ 64 ≤ toUInt64 (-(2 ^ 31)) * 2 := by decide
    rw [if_pos hbig] at hcalloc
    cases hcalloc
  · exact hpos

/-- For the endpoints `(0, 0)` and `(9, 9)` the number of points is 13. -/
theorem profileN_diagonal (is : isType) (h1 : is.pax = 0) (h2 : is.pay = 0) (h3 : is.pbx = 9)
    (h4 : is.pby = 9) : is.profileN = 13 := by
  unfold isType.profileN isType.profileSum
  rw [h1, h2, h3, h4]
  decide

/-- A value stored in `maxs` is a 16-bit value. -/
theorem profileValue_range (is : isType) (buf : Int → Int) (s : Int) :
    0 ≤ profileValue is buf s ∧ profileValue is buf s ≤ 65535 := by
  unfold profileValue
  split
  · exact load16_range buf _
  · constructor <;> norm_num

/-- The document `marTiff2profile` writes when `maxs` is allocated. -/
theorem marTiff2profile_eq (calloc : Int → Bool) (is : isType) (buf : Int → Int)
    (hcalloc : callocMaxs calloc is.profileN = true) :
    marTiff2profile calloc is buf =
      some
        { xMin := 0
          xMax := is.profileN
          yMin := ((List.range is.profileN.toNat).map (fun (s : Nat) => profileValue is buf s)).foldl
            (fun mn v => if v < mn then v else mn) 65535
          yMax := ((List.range is.profileN.toNat).map (fun (s : Nat) => profileValue is buf s)).foldl
            (fun mx v => if v > mx then v else mx) 0
          points := (List.range is.profileN.toNat).map
            (fun (s : Nat) => ((s : Int), profileValue is buf s)) } := by
  unfold marTiff2profile
  obtain ⟨h1, h2, h3⟩ := profileLoop_spec is buf (List.range is.profileN.toNat) ⟨[], 0, 65535⟩
  simp only [hcalloc, Bool.true_eq_false, if_false, Option.some.injEq]
  rw [h1, h2, h3]
  simp only [List.nil_append]
  rw [zipWith_map_values]

/-- The points of the profile: when `maxs` is allocated, `marTiff2profile` emits
exactly `n` point elements, `n >= 1` the number computed at line 273, with
`x = 0, 1, ..., n-1` in increasing order, and `xMin = 0`, `xMax = n`; for
endpoints `(0,0)-(9,9)`, `n = 13`. -/
theorem profile_points (calloc : Int → Bool) (is : isType) (buf : Int → Int)
    (hcalloc : callocMaxs calloc is.profileN = true) :
    ∃ out, marTiff2profile calloc is buf = some out ∧
      (out.points.length : Int) = is.profileN ∧
      out.points.map Prod.fst = (List.range is.profileN.toNat).map (fun (s : Nat) => (s : Int)) ∧
      1 ≤ is.profileN ∧
      out.xMin = 0 ∧ out.xMax = is.profileN ∧
      (is.pax = 0 ∧ is.pay = 0 ∧ is.pbx = 9 ∧ is.pby = 9 → is.profileN = 13) := by
  have hn := profileN_pos_of_calloc calloc is hcalloc
  refine ⟨_, marTiff2profile_eq calloc is buf hcalloc, ?_, ?_, hn, rfl, rfl, ?_⟩
  · simp only [List.length_map, List.length_range]
    omega
  · simp [List.map_map, Function.comp_def]
  · rintro ⟨h1, h2, h3, h4⟩
    exact profileN_diagonal is h1 h2 h3 h4

/-- The points of the profile, evaluated: the profile from `(0, 0)` to `(9, 9)`. -/
theorem profile_points_example :
    ∃ out, marTiff2profile (fun _ => true) exIsDiagonal exBufSum = some out ∧
      (out.points.length : Int) = exIsDiagonal.profileN ∧
      out.points.map Prod.fst =
        (List.range exIsDiagonal.profileN.toNat).map (fun (s : Nat) => (s : Int)) ∧
      1 ≤ exIsDiagonal.profileN ∧
      out.xMin = 0 ∧ out.xMax = exIsDiagonal.profileN ∧
      (exIsDiagonal.pax = 0 ∧ exIsDiagonal.pay = 0 ∧ exIsDiagonal.pbx = 9 ∧
        exIsDiagonal.pby = 9 → exIsDiagonal.profileN = 13) :=
  profile_points (fun _ => true) exIsDiagonal exBufSum (by decide)

/-- C15 fails on the code when the `int` product `(pby - pay) * (pby - pay)` of
line 273 overflows: only the first product is computed in double. For the
endpoints `(0, 0)` and `(0, 65536)` the product `2^32` wraps to 0, the code
computes `n = sqrt(0) + 1 = 1` and emits one point, while
`floor(sqrt(0^2 + 65536^2)) + 1 = 65537`. For `(0, 0)` and `(0, 46341)` the
product wraps to a negative number, the square root is a NaN, `n` is `INT_MIN`,
`maxs` is not allocated and nothing is emitted. For `(0,0)-(9,9)` the code gives
the claimed `n = 13`. -/
theorem C15_int_product_wraps :
    exIsLong.profileN = 1 ∧
    specProfileN exIsLong = 65537 ∧
    specProfileN exIsLong =
      ⌊Real.sqrt ((((exIsLong.pbx - exIsLong.pax) ^ 2 +
        (exIsLong.pby - exIsLong.pay) ^ 2 : Int) : ℝ))⌋ + 1 ∧
    (marTiff2profile (fun _ => true) exIsLong exBufSum).map (fun out => out.points) =
      some [(0, 0)] ∧
    exIsNegativeSum.profileN = -(2 ^ 31) ∧
    specProfileN exIsNegativeSum = 46342 ∧
    marTiff2profile (fun _ => true) exIsNegativeSum exBufSum = none ∧
    exIsDiagonal.profileN = 13 ∧
    specProfileN exIsDiagonal = 13 := by
  refine ⟨by decide, by decide, specProfileN_eq_floor_sqrt exIsLong, by decide, by decide,
    by decide, by decide, by decide, by decide⟩

/-- The rounding of the square root shows in the number of points: for the
endpoints `(0, 0)` and `(200000000, 20000)` no `int` operation overflows and
the sum of the squares, `200000001^2 - 1`, is a double; its square root lies
less than half a unit in the last place below `200000001` and is rounded to
`200000001`, so the code computes `n = 200000002`, one more than
`floor(sqrt(...)) + 1 = 200000001`. -/
theorem profileN_sqrt_rounding_example :
    exIsFar.profileSum = ⟨200000001 ^ 2 - 1, 1⟩ ∧
    exIsFar.profileSum.sqrt.num = 200000001 * exIsFar.profileSum.sqrt.den ∧
    exIsFar.profileN = 200000002 ∧
    specProfileN exIsFar = 200000001 := by
  decide

/-- The rounding of the doubles shows in the row that is read: for the profile
from `(0, 0)` to `(15, 15)`, `n = 22` and `mk` is the double nearest to `15/22`;
at `s = 11` the product `mk * 11` is the double just below `7.5`, so the code
reads row `(int)(k + 0.5) = 7` (and column 7), where `k(11) = 7.5` exactly and
`round(7.5) = 8`. -/
theorem profile_rounding_example :
    exIsFifteen.profileN = 22 ∧
    specProfileN exIsFifteen = 22 ∧
    exIsFifteen.profileK 11 = ⟨8444249301319679, 2 ^ 50⟩ ∧
    specProfileK exIsFifteen 11 = ⟨165, 22⟩ ∧
    ((exIsFifteen.profileK 11).add Dbl.half).round.toInt32 = 7 ∧
    ((specProfileK exIsFifteen 11).add Dbl.half).floor = 8 ∧
    profileValue exIsFifteen (fun idx => idx) 11 = 7 * 16 + 7 ∧
    specProfileValue exIsFifteen (fun idx => idx) 11 = 8 * 16 + 8 := by
  decide

/-- C16 fails on the code for a negative coordinate: for the profile from
`(-1, 0)` to `(-1, 0)` over a 2 x 2 source of value 7, `n = 1`, `k(0) = -1` and
`l(0) = 0`; the nearest pixel is at row `round(-1) = -1`, outside the image, so
the claimed value is 0, but `(int)(k + 0.5) = (int)(-0.5) = 0` passes the bounds
test and the value emitted is source pixel `(0, 0)`, 7. -/
theorem C16_negative_coordinate_sampled :
    exIsOutside.profileN = 1 ∧
    exIsOutside.profileK 0 = ⟨-1, 1⟩ ∧ exIsOutside.profileL 0 = ⟨0, 1⟩ ∧
    ((exIsOutside.profileK 0).add Dbl.half).floor = -1 ∧
    ((exIsOutside.profileK 0).add Dbl.half).toInt = 0 ∧
    specProfileValue exIsOutside (fun _ => 7) 0 = 0 ∧
    (marTiff2profile (fun _ => true) exIsOutside (fun _ => 7)).map (fun out => out.points) =
      some [(0, 7)] := by
  decide

/-- C17: when `maxs` is allocated, the `yMin` and `yMax` attributes are the
minimum and the maximum of the emitted `y` values: each is the `y` of some
point, and `yMin <= y <= yMax` for every point; for a source with value `i + j`
at `(i, j)` and endpoints `(0,0)-(9,9)`, `yMin = 0`. -/
theorem C17_profile_min_max (calloc : Int → Bool) (is : isType) (buf : Int → Int)
    (hcalloc : callocMaxs calloc is.profileN = true) :
    ∃ out, marTiff2profile calloc is buf = some out ∧
      (∃ p ∈ out.points, p.2 = out.yMin) ∧
      (∃ p ∈ out.points, p.2 = out.yMax) ∧
      (∀ p ∈ out.points, out.yMin ≤ p.2 ∧ p.2 ≤ out.yMax) ∧
      (is.pax = 0 ∧ is.pay = 0 ∧ is.pbx = 9 ∧ is.pby = 9 →
        (∀ i j : Int, 0 ≤ i → i < is.inHeight → 0 ≤ j → j < is.inWidth →
          load16 buf (i * is.inWidth + j) = i + j) →
        out.yMin = 0) := by
  refine ⟨_, marTiff2profile_eq calloc is buf hcalloc, ?_⟩
  simp only
  have hn := profileN_pos_of_calloc calloc is hcalloc
  have h0mem : (0 : Nat) ∈ List.range is.profileN.toNat := by
    rw [List.mem_range]
    omega
  have hv0 : profileValue is buf ((0 : Nat) : Int) ∈
      (List.range is.profileN.toNat).map (fun (s : Nat) => profileValue is buf s) :=
    List.mem_map.2 ⟨0, h0mem, rfl⟩
  have hrange : ∀ v ∈ (List.range is.profileN.toNat).map (fun (s : Nat) => profileValue is buf s),
      0 ≤ v ∧ v ≤ 65535 := by
    intro v hv
    obtain ⟨s, -, rfl⟩ := List.mem_map.1 hv
    exact profileValue_range is buf s
  obtain ⟨m1, m2, m3⟩ := running_min_spec
    ((List.range is.profileN.toNat).map (fun (s : Nat) => profileValue is buf s)) 65535
  obtain ⟨x1, x2, x3⟩ := running_max_spec
    ((List.range is.profileN.toNat).map (fun (s : Nat) => profileValue is buf s)) 0
  have hpoint : ∀ v, v ∈ (List.range is.profileN.toNat).map
      (fun (s : Nat) => profileValue is buf s) →
      ∃ p ∈ (List.range is.profileN.toNat).map
        (fun (s : Nat) => ((s : Int), profileValue is buf s)), p.2 = v := by
    intro v hv
    obtain ⟨s, hs, rfl⟩ := List.mem_map.1 hv
    exact ⟨((s : Int), profileValue is buf s), List.mem_map.2 ⟨s, hs, rfl⟩, rfl⟩
  have hminmem : ((List.range is.profileN.toNat).map (fun (s : Nat) => profileValue is buf s)).foldl
      (fun mn v => if v < mn then v else mn) 65535 ∈
      (List.range is.profileN.toNat).map (fun (s : Nat) => profileValue is buf s) := by
    rcases m3 with h | h
    · have h1 := m2 _ hv0
      have h2 := (hrange _ hv0).2
      have : profileValue is buf ((0 : Nat) : Int) =
          ((List.range is.profileN.toNat).map (fun (s : Nat) => profileValue is buf s)).foldl
            (fun mn v => if v < mn then v else mn) 65535 := by omega
      rw [← this]
      exact hv0
    · exact h
  have hmaxmem : ((List.range is.profileN.toNat).map (fun (s : Nat) => profileValue is buf s)).foldl
      (fun mx v => if v > mx then v else mx) 0 ∈
      (List.range is.profileN.toNat).map (fun (s : Nat) => profileValue is buf s) := by
    rcases x3 with h | h
    · have h1 := x2 _ hv0
      have h2 := (hrange _ hv0).1
      have : profileValue is buf ((0 : Nat) : Int) =
          ((List.range is.profileN.toNat).map (fun (s : Nat) => profileValue is buf s)).foldl
            (fun mx v => if v > mx then v else mx) 0 := by omega
      rw [← this]
      exact hv0
    · exact h
  refine ⟨hpoint _ hminmem, hpoint _ hmaxmem, ?_, ?_⟩
  · intro p hp
    obtain ⟨s, hs, rfl⟩ := List.mem_map.1 hp
    have hmem : profileValue is buf (s : Int) ∈
        (List.range is.profileN.toNat).map (fun (s : Nat) => profileValue is buf s) :=
      List.mem_map.2 ⟨s, hs, rfl⟩
    exact ⟨m2 _ hmem, x2 _ hmem⟩
  · rintro ⟨h1, h2, h3, h4⟩ hsrc
    have hN := profileN_diagonal is h1 h2 h3 h4
    have hzero : profileValue is buf ((0 : Nat) : Int) = 0 := by
      have hk : ((is.profileK ((0 : Nat) : Int)).add Dbl.half).round.toInt32 = 0 := by
        simp only [isType.profileK, hN, h1, h3]
        decide
      have hl : ((is.profileL ((0 : Nat) : Int)).add Dbl.half).round.toInt32 = 0 := by
        simp only [isType.profileL, hN, h2, h4]
        decide
      unfold profileValue
      rw [hk, hl]
      split
      next hin =>
        rw [hsrc 0 0 (le_refl _) hin.2.1 (le_refl _) hin.2.2.2]
        rfl
      · rfl
    have hle := m2 _ hv0
    rw [hzero] at hle
    have hge := (hrange _ hminmem).1
    omega

/-- C17, evaluated: the profile from `(0, 0)` to `(9, 9)` over the 10 x 10 source
with value `i + j` at `(i, j)`. -/
theorem C17_profile_min_max_witness :
    ∃ out, marTiff2profile (fun _ => true) exIsDiagonal exBufSum = some out ∧
      (∃ p ∈ out.points, p.2 = out.yMin) ∧
      (∃ p ∈ out.points, p.2 = out.yMax) ∧
      (∀ p ∈ out.points, out.yMin ≤ p.2 ∧ p.2 ≤ out.yMax) ∧
      (exIsDiagonal.pax = 0 ∧ exIsDiagonal.pay = 0 ∧ exIsDiagonal.pbx = 9 ∧
          exIsDiagonal.pby = 9 →
        (∀ i j : Int, 0 ≤ i → i < exIsDiagonal.inHeight → 0 ≤ j → j < exIsDiagonal.inWidth →
          load16 exBufSum (i * exIsDiagonal.inWidth + j) = i + j) →
        out.yMin = 0) :=
  C17_profile_min_max (fun _ => true) exIsDiagonal exBufSum (by decide)

/-! ## Properties of the metadata extractor -/

/-- The keys of an object after a member is set: the keys before, and the key set. -/
theorem mem_objectKeys_objectSet (obj : List (String × MetaValue)) (key : String)
    (value : MetaValue) (k : String) :
    k ∈ objectKeys (objectSet obj key value) ↔ k ∈ objectKeys obj ∨ k = key := by
  unfold objectSet objectKeys
  split
  next hany =>
    have hfst : (obj.map (fun kv => if kv.1 == key then (key, value) else kv)).map Prod.fst =
        obj.map Prod.fst := by
      rw [List.map_map]
      apply List.map_congr_left
      intro kv _
      simp only [Function.comp_apply]
      by_cases h : (kv.1 == key) = true
      · rw [if_pos h]
        exact (beq_iff_eq.1 h).symm
      · rw [if_neg h]
    rw [hfst]
    constructor
    · intro h; exact Or.inl h
    · rintro (h | h)
      · exact h
      · rw [List.any_eq_true] at hany
        obtain ⟨kv, hkv, hk⟩ := hany
        rw [h, ← beq_iff_eq.1 hk]
        exact List.mem_map.2 ⟨kv, hkv, rfl⟩
  next =>
    rw [List.map_append, List.mem_append]
    simp

/-- The keys of an object after `json_object_update`: the keys before, and the
keys of the object merged in. -/
theorem mem_objectKeys_objectUpdate (meta tmp_obj : List (String × MetaValue)) (k : String) :
    k ∈ objectKeys (objectUpdate meta tmp_obj) ↔ k ∈ objectKeys meta ∨ k ∈ objectKeys tmp_obj := by
  unfold objectUpdate
  induction tmp_obj generalizing meta with
  | nil => simp [objectKeys]
  | cons a t ih =>
    rw [List.foldl_cons, ih, mem_objectKeys_objectSet]
    simp only [objectKeys, List.map_cons, List.mem_cons]
    constructor
    · rintro ((h | h) | h)
      · exact Or.inl h
      · exact Or.inr (Or.inl h)
      · exact Or.inr (Or.inr h)
    · rintro (h | h | h)
      · exact Or.inl (Or.inl h)
      · exact Or.inl (Or.inr h)
      · exact Or.inr h

/-- The loop over the table, when no `json_object_update` fails: it ends with an
object whose keys are the keys it started with and the keys of the objects
`h5_property_to_json` returned. -/
theorem extractProperties_keys (lib : MetaLib) (master_file : Int)
    (hupd : ∀ m t, lib.json_object_update_fails m t = false)
    (properties : List h5_json_property) (meta : List (String × MetaValue)) :
    ∃ out, extractProperties lib master_file properties meta = some out ∧
      ∀ k, k ∈ objectKeys out ↔
        k ∈ objectKeys meta ∨
          ∃ property ∈ properties, ∃ tmp_obj,
            lib.h5_property_to_json master_file property = some tmp_obj ∧
              k ∈ objectKeys tmp_obj := by
  induction properties generalizing meta with
  | nil => exact ⟨meta, rfl, by simp⟩
  | cons a t ih =>
    unfold extractProperties
    cases ha : lib.h5_property_to_json master_file a with
    | none =>
      obtain ⟨out, hout, hkeys⟩ := ih meta
      refine ⟨out, hout, ?_⟩
      intro k
      rw [hkeys k]
      constructor
      · rintro (h | ⟨q, hq, tmp, h1, h2⟩)
        · exact Or.inl h
        · exact Or.inr ⟨q, List.mem_cons_of_mem _ hq, tmp, h1, h2⟩
      · rintro (h | ⟨q, hq, tmp, h1, h2⟩)
        · exact Or.inl h
        · rcases List.mem_cons.1 hq with h | h
          · rw [h, ha] at h1
            cases h1
          · exact Or.inr ⟨q, h, tmp, h1, h2⟩
    | some tmp_obj =>
      simp only [hupd, Bool.false_eq_true, if_false]
      obtain ⟨out, hout, hkeys⟩ := ih (objectUpdate meta tmp_obj)
      refine ⟨out, hout, ?_⟩
      intro k
      rw [hkeys k, mem_objectKeys_objectUpdate]
      constructor
      · rintro ((h | h) | ⟨q, hq, tmp, h1, h2⟩)
        · exact Or.inl h
        · exact Or.inr ⟨a, List.mem_cons_self _ _, tmp_obj, ha, h⟩
        · exact Or.inr ⟨q, List.mem_cons_of_mem _ hq, tmp, h1, h2⟩
      · rintro (h | ⟨q, hq, tmp, h1, h2⟩)
        · exact Or.inl (Or.inl h)
        · rcases List.mem_cons.1 hq with h | h
          · rw [h, ha] at h1
            cases h1
            exact Or.inl (Or.inr h2)
          · exact Or.inr ⟨q, h, tmp, h1, h2⟩

/-- The key set of the object `isH5GetMeta` returns: for a master file that
opens, with `properties` the table selected for its version string (and
`json_object`, `json_object_update` not failing), `isH5GetMeta` returns an
object whose key set is exactly the keys of the objects that
`h5_property_to_json` returned for the entries it could read, together with
`image_depth` and `fn`; an entry that cannot be read contributes no key and does
not abort the extraction; when the object returned for an entry has the JSON
name of the entry as its only key, no key outside the JSON names of the table
and `image_depth`, `fn`, `first_frame`, `last_frame`, `frame` is emitted. -/
theorem isH5GetMeta_keys (lib : MetaLib) (fn : String) (properties : List h5_json_property)
    (hopen : 0 ≤ lib.H5Fopen fn) (hobj : lib.json_object = true)
    (hsel : selectProperties lib
      (objectString (lib.get_dcu_version (lib.H5Fopen fn)) lib.software_version_name) =
        some properties)
    (hupd : ∀ m t, lib.json_object_update_fails m t = false) :
    ∃ meta, isH5GetMeta lib fn = MetaResult.object meta ∧
      (∀ k, k ∈ objectKeys meta ↔
        (∃ property ∈ properties, ∃ tmp_obj,
          lib.h5_property_to_json (lib.H5Fopen fn) property = some tmp_obj ∧
            k ∈ objectKeys tmp_obj) ∨ k = "image_depth" ∨ k = "fn") ∧
      ((∀ property tmp_obj, lib.h5_property_to_json (lib.H5Fopen fn) property = some tmp_obj →
          ∀ k ∈ objectKeys tmp_obj, k = property.json_name) →
        ∀ k ∈ objectKeys meta,
          k ∈ properties.map (fun property => property.json_name) ∨
            k ∈ ["image_depth", "fn", "first_frame", "last_frame", "frame"]) := by
  obtain ⟨out, hout, hkeys⟩ := extractProperties_keys lib (lib.H5Fopen fn) hupd properties []
  have hres : isH5GetMeta lib fn =
      MetaResult.object
        (objectSet
          (objectSet out "image_depth"
            (MetaValue.integer (Int.tdiv (objectInteger out "bit_depth_image") 8)))
          "fn" (MetaValue.string fn)) := by
    unfold isH5GetMeta
    simp only [not_lt.2 hopen, if_false, hobj, Bool.true_eq_false, hsel, hout]
  have hall : ∀ k, k ∈ objectKeys
      (objectSet
        (objectSet out "image_depth"
          (MetaValue.integer (Int.tdiv (objectInteger out "bit_depth_image") 8)))
        "fn" (MetaValue.string fn)) ↔
      (∃ property ∈ properties, ∃ tmp_obj,
        lib.h5_property_to_json (lib.H5Fopen fn) property = some tmp_obj ∧
          k ∈ objectKeys tmp_obj) ∨ k = "image_depth" ∨ k = "fn" := by
    intro k
    rw [mem_objectKeys_objectSet, mem_objectKeys_objectSet, hkeys k]
    simp only [objectKeys, List.map_nil, List.not_mem_nil, false_or]
    constructor
    · rintro ((h | h) | h)
      · exact Or.inl h
      · exact Or.inr (Or.inl h)
      · exact Or.inr (Or.inr h)
    · rintro (h | h | h)
      · exact Or.inl (Or.inl h)
      · exact Or.inl (Or.inr h)
      · exact Or.inr h
  refine ⟨_, hres, hall, ?_⟩
  intro hname k hk
  rcases (hall k).1 hk with ⟨property, hp, tmp_obj, h1, h2⟩ | h | h
  · left
    rw [hname property tmp_obj h1 k h2]
    exact List.mem_map.2 ⟨property, hp, rfl⟩
  · right; rw [h]; decide
  · right; rw [h]; decide

/-- The key set, evaluated: a master of version 1.6.0 that lacks `chi_start`. -/
theorem isH5GetMeta_keys_example :
    ∃ meta, isH5GetMeta (exMetaLib (some "1.6.0")) "master.h5" = MetaResult.object meta ∧
      (∀ k, k ∈ objectKeys meta ↔
        (∃ property ∈ (exMetaLib (some "1.6.0")).json_convert_array_1_6, ∃ tmp_obj,
          (exMetaLib (some "1.6.0")).h5_property_to_json
              ((exMetaLib (some "1.6.0")).H5Fopen "master.h5") property = some tmp_obj ∧
            k ∈ objectKeys tmp_obj) ∨ k = "image_depth" ∨ k = "fn") ∧
      ((∀ property tmp_obj,
          (exMetaLib (some "1.6.0")).h5_property_to_json
              ((exMetaLib (some "1.6.0")).H5Fopen "master.h5") property = some tmp_obj →
          ∀ k ∈ objectKeys tmp_obj, k = property.json_name) →
        ∀ k ∈ objectKeys meta,
          k ∈ (exMetaLib (some "1.6.0")).json_convert_array_1_6.map
              (fun property => property.json_name) ∨
            k ∈ ["image_depth", "fn", "first_frame", "last_frame", "frame"]) :=
  isH5GetMeta_keys (exMetaLib (some "1.6.0")) "master.h5"
    (exMetaLib (some "1.6.0")).json_convert_array_1_6 (by decide) rfl rfl (fun _ _ => rfl)

/-- C21 fails on the code for a master file that opens but has no readable
software version: `isH5GetMeta` returns no object at all, because the NULL
version string is passed to `strcmp` before the loop over the table is reached.
For the same master with the version string `1.6.0` the object has exactly the
keys of the entries that could be read, `bit_depth_image` and `count_time`
(the missing `chi_start` contributes none), together with `image_depth` and
`fn`. -/
theorem C21_unreadable_version_no_object :
    (exMetaLib none).H5Fopen "master.h5" = 3 ∧
    isH5GetMeta (exMetaLib none) "master.h5" = MetaResult.fault ∧
    (∀ meta, isH5GetMeta (exMetaLib none) "master.h5" ≠ MetaResult.object meta) ∧
    isH5GetMeta (exMetaLib (some "1.6.0")) "master.h5" =
      MetaResult.object
        [("bit_depth_image", MetaValue.integer 32), ("count_time", MetaValue.other "0.1"),
          ("image_depth", MetaValue.integer 4), ("fn", MetaValue.string "master.h5")] := by
  refine ⟨by decide, by decide, ?_, by decide⟩
  intro meta h
  have hfault : isH5GetMeta (exMetaLib none) "master.h5" = MetaResult.fault := by decide
  rw [hfault] at h
  cases h

/-- When the version string is read, the 1.8.0 table is selected exactly for the
string `1.8.0` and the older table for every other string. -/
theorem selectProperties_of_string (lib : MetaLib) (str : String) :
    (str = "1.8.0" → selectProperties lib (some str) = some lib.json_convert_array_1_8) ∧
    (str ≠ "1.8.0" → selectProperties lib (some str) = some lib.json_convert_array_1_6) := by
  unfold selectProperties
  constructor
  · intro h; simp [h]
  · intro h; simp [h]

/-- C22 fails on the code when the master has no readable software version:
`get_dcu_version` returns NULL, the failure is logged, the version string is
NULL and `strcmp("1.8.0", NULL)` is called; no table is selected and no
metadata object is returned. With a version string the 1.8.0 table is selected
for `1.8.0` and the older table otherwise. -/
theorem C22_unreadable_version_faults :
    0 ≤ (exMetaLib none).H5Fopen "master.h5" ∧
    (exMetaLib none).get_dcu_version ((exMetaLib none).H5Fopen "master.h5") = none ∧
    objectString ((exMetaLib none).get_dcu_version ((exMetaLib none).H5Fopen "master.h5"))
      (exMetaLib none).software_version_name = none ∧
    selectProperties (exMetaLib none) none = none ∧
    isH5GetMeta (exMetaLib none) "master.h5" = MetaResult.fault ∧
    selectProperties (exMetaLib (some "1.8.0")) (some "1.8.0") =
      some (exMetaLib (some "1.8.0")).json_convert_array_1_8 ∧
    selectProperties (exMetaLib (some "2.0")) (some "2.0") =
      some (exMetaLib (some "2.0")).json_convert_array_1_6 := by
  decide

/-! ## Properties of the worker -/

/-- The turn of the worker on a payload other than the sentinel: the payload is
handled and the loop goes on with the next pop. -/
theorem isWorker_cons (D : WorkerDeps) (key : Reply) (payload : String) (rest : List Reply)
    (hend : payload ≠ "end") :
    isWorker D (Reply.array [key, Reply.string payload] :: rest) =
      (handlePayload D payload ++ (isWorker D rest).1, (isWorker D rest).2) := by
  simp [isWorker, hend]

/-- The turn of the worker on the sentinel: one pop, then `return NULL`. -/
theorem isWorker_end (D : WorkerDeps) (key : Reply) (rest : List Reply) :
    isWorker D (Reply.array [key, Reply.string "end"] :: rest) =
      ([WorkerEvent.pop], WorkerEnd.returned) := by
  simp [isWorker]

/-- Every handled payload is one pop. -/
theorem handlePayload_pops (D : WorkerDeps) (payload : String) :
    (handlePayload D payload).filter WorkerEvent.isPop = [WorkerEvent.pop] := by
  unfold handlePayload
  split
  · rfl
  · split
    · rfl
    · split <;> rfl

/-- The worker on payloads without the sentinel: every payload is handled, in
order, and the worker waits for the next one. -/
theorem isWorker_no_end (D : WorkerDeps) (key : String) (pre : List String)
    (hpre : "end" ∉ pre) :
    isWorker D (popReplies key pre) = (pre.flatMap (handlePayload D), WorkerEnd.blocked) := by
  induction pre with
  | nil => rfl
  | cons a t ih =>
    have ha : a ≠ "end" := fun h => hpre (by rw [h]; exact List.mem_cons_self _ _)
    have ht : "end" ∉ t := fun h => hpre (List.mem_cons_of_mem _ h)
    have hcons : popReplies key (a :: t) =
        Reply.array [Reply.string key, Reply.string a] :: popReplies key t := rfl
    rw [hcons, isWorker_cons D _ a _ ha, ih ht]
    simp [List.flatMap_cons]

/-- The worker on payloads that hold the sentinel: the payloads before the first
sentinel are handled in order, the sentinel is popped, and the worker returns. -/
theorem isWorker_until_end (D : WorkerDeps) (key : String) (pre post : List String)
    (hpre : "end" ∉ pre) :
    isWorker D (popReplies key (pre ++ "end" :: post)) =
      (pre.flatMap (handlePayload D) ++ [WorkerEvent.pop], WorkerEnd.returned) := by
  induction pre with
  | nil =>
    have hcons : popReplies key ([] ++ "end" :: post) =
        Reply.array [Reply.string key, Reply.string "end"] :: popReplies key post := rfl
    rw [hcons, isWorker_end]
    rfl
  | cons a t ih =>
    have ha : a ≠ "end" := fun h => hpre (by rw [h]; exact List.mem_cons_self _ _)
    have ht : "end" ∉ t := fun h => hpre (List.mem_cons_of_mem _ h)
    have hcons : popReplies key ((a :: t) ++ "end" :: post) =
        Reply.array [Reply.string key, Reply.string a] ::
          popReplies key (t ++ "end" :: post) := rfl
    rw [hcons, isWorker_cons D _ a _ ha, ih ht]
    simp [List.flatMap_cons]

/-- The pops among the events of handled payloads: one for each payload. -/
theorem flatMap_handlePayload_pops (D : WorkerDeps) (pre : List String) :
    ((pre.flatMap (handlePayload D)).filter WorkerEvent.isPop).length = pre.length := by
  induction pre with
  | nil => rfl
  | cons a t ih =>
    rw [List.flatMap_cons, List.filter_append, List.length_append, handlePayload_pops, ih]
    simp [Nat.add_comm]

/-- C23 fails as stated: a job whose type is the string `JPEG`, which is not the
string `jpeg`, makes the worker call the JPEG renderer, because the type is
compared with `strcasecmp`. -/
theorem C23_upper_case_type_renders :
    json_string_value (json_object_get (exWorkerDeps.json_loads "upperJob") "type") =
      some "JPEG" ∧
    "JPEG" ≠ "jpeg" ∧
    (handlePayload exWorkerDeps "upperJob").any WorkerEvent.isJpeg = true := by
  decide

/-- C23 (amended): for a payload that parses to a job, the worker calls the JPEG
renderer if and only if the type of the job is a string that equals `jpeg`
without regard to the case of its letters (so for `jpeg` and for `JPEG`, not for
`profile`); then the renderer is called once on the job; for a type that is a
different string one line is logged and no renderer is called, for a job without
a string type one line is logged and no renderer is called, and in every case the
worker goes on with the next pop. -/
theorem C23_renderer_iff_jpeg_ignoring_case (D : WorkerDeps) (key : Reply) (payload : String)
    (job : Json) (rest : List Reply) (hend : payload ≠ "end")
    (hparse : D.json_loads payload = some job) :
    ((handlePayload D payload).any WorkerEvent.isJpeg = true ↔
      ∃ job_type, json_string_value (json_object_get (some job) "type") = some job_type ∧
        strcasecmpEq "jpeg" job_type = true) ∧
    (∀ job_type, json_string_value (json_object_get (some job) "type") = some job_type →
      strcasecmpEq "jpeg" job_type = true →
        handlePayload D payload = [WorkerEvent.pop, WorkerEvent.jpeg job]) ∧
    (∀ job_type, json_string_value (json_object_get (some job) "type") = some job_type →
      strcasecmpEq "jpeg" job_type = false →
        handlePayload D payload =
          [WorkerEvent.pop, WorkerEvent.unknownType job_type (D.json_dumps job)]) ∧
    (json_string_value (json_object_get (some job) "type") = none →
      handlePayload D payload = [WorkerEvent.pop, WorkerEvent.noType (D.json_dumps job)]) ∧
    isWorker D (Reply.array [key, Reply.string payload] :: rest) =
      (handlePayload D payload ++ (isWorker D rest).1, (isWorker D rest).2) ∧
    strcasecmpEq "jpeg" "jpeg" = true ∧ strcasecmpEq "jpeg" "JPEG" = true ∧
    strcasecmpEq "jpeg" "profile" = false := by
  refine ⟨?_, ?_, ?_, ?_, isWorker_cons D key payload rest hend, by decide, by decide,
    by decide⟩
  · cases htype : json_string_value (json_object_get (some job) "type") with
    | none =>
      have hval : handlePayload D payload =
          [WorkerEvent.pop, WorkerEvent.noType (D.json_dumps job)] := by
        unfold handlePayload
        rw [hparse]
        simp only [htype]
      rw [hval]
      simp [WorkerEvent.isJpeg]
    | some job_type =>
      by_cases hcmp : strcasecmpEq "jpeg" job_type = true
      · have hval : handlePayload D payload = [WorkerEvent.pop, WorkerEvent.jpeg job] := by
          unfold handlePayload
          rw [hparse]
          simp only [htype, hcmp, if_true]
        rw [hval]
        simp [WorkerEvent.isJpeg, hcmp]
      · have hval : handlePayload D payload =
            [WorkerEvent.pop, WorkerEvent.unknownType job_type (D.json_dumps job)] := by
          unfold handlePayload
          rw [hparse]
          simp only [htype, hcmp, Bool.false_eq_true, if_false]
        rw [hval]
        simp [WorkerEvent.isJpeg, hcmp]
  · intro job_type htype hcmp
    unfold handlePayload
    rw [hparse]
    simp only [htype, hcmp, if_true]
  · intro job_type htype hcmp
    unfold handlePayload
    rw [hparse]
    simp only [htype, hcmp, Bool.false_eq_true, if_false]
  · intro htype
    unfold handlePayload
    rw [hparse]
    simp only [htype]

/-- C23 (amended), evaluated on a job of type `JPEG` followed by no further reply. -/
theorem C23_renderer_iff_jpeg_ignoring_case_witness :
    ((handlePayload exWorkerDeps "upperJob").any WorkerEvent.isJpeg = true ↔
      ∃ job_type,
        json_string_value
            (json_object_get (some (Json.object [("type", Json.string "JPEG")])) "type") =
          some job_type ∧
        strcasecmpEq "jpeg" job_type = true) ∧
    (∀ job_type,
      json_string_value
          (json_object_get (some (Json.object [("type", Json.string "JPEG")])) "type") =
        some job_type →
      strcasecmpEq "jpeg" job_type = true →
        handlePayload exWorkerDeps "upperJob" =
          [WorkerEvent.pop, WorkerEvent.jpeg (Json.object [("type", Json.string "JPEG")])]) ∧
    (∀ job_type,
      json_string_value
          (json_object_get (some (Json.object [("type", Json.string "JPEG")])) "type") =
        some job_type →
      strcasecmpEq "jpeg" job_type = false →
        handlePayload exWorkerDeps "upperJob" =
          [WorkerEvent.pop,
            WorkerEvent.unknownType job_type
              (exWorkerDeps.json_dumps (Json.object [("type", Json.string "JPEG")]))]) ∧
    (json_string_value
        (json_object_get (some (Json.object [("type", Json.string "JPEG")])) "type") = none →
      handlePayload exWorkerDeps "upperJob" =
        [WorkerEvent.pop,
          WorkerEvent.noType
            (exWorkerDeps.json_dumps (Json.object [("type", Json.string "JPEG")]))]) ∧
    isWorker exWorkerDeps [Reply.array [Reply.string "q", Reply.string "upperJob"]] =
      (handlePayload exWorkerDeps "upperJob" ++ (isWorker exWorkerDeps []).1,
        (isWorker exWorkerDeps []).2) ∧
    strcasecmpEq "jpeg" "jpeg" = true ∧ strcasecmpEq "jpeg" "JPEG" = true ∧
    strcasecmpEq "jpeg" "profile" = false :=
  C23_renderer_iff_jpeg_ignoring_case exWorkerDeps (Reply.string "q") "upperJob"
    (Json.object [("type", Json.string "JPEG")]) [] (by decide) rfl

/-- C24: the worker handles the popped payloads in order up to the first payload
equal to `end`, returns on that payload and pops nothing after it: its events
are those of the payloads before the sentinel followed by one pop, whatever
follows the sentinel, and it has popped one payload more than precede the
sentinel; a payload that does not parse is logged and skipped, and payloads
without the sentinel, unparsable ones included, leave the worker waiting for the
next payload. -/
theorem C24_end_terminates_worker (D : WorkerDeps) (key : String) (pre post : List String)
    (hpre : "end" ∉ pre) :
    isWorker D (popReplies key (pre ++ "end" :: post)) =
      (pre.flatMap (handlePayload D) ++ [WorkerEvent.pop], WorkerEnd.returned) ∧
    ((isWorker D (popReplies key (pre ++ "end" :: post))).1.filter WorkerEvent.isPop).length =
      pre.length + 1 ∧
    isWorker D (popReplies key pre) = (pre.flatMap (handlePayload D), WorkerEnd.blocked) ∧
    (∀ payload, D.json_loads payload = none →
      handlePayload D payload = [WorkerEvent.pop, WorkerEvent.parseError payload]) := by
  refine ⟨isWorker_until_end D key pre post hpre, ?_, isWorker_no_end D key pre hpre, ?_⟩
  · rw [isWorker_until_end D key pre post hpre]
    simp only [List.filter_append, List.length_append, flatMap_handlePayload_pops]
    rfl
  · intro payload hnone
    unfold handlePayload
    rw [hnone]

/-- C24, evaluated: a job, an unparsable payload, the sentinel, and a job after it. -/
theorem C24_end_terminates_worker_witness :
    isWorker exWorkerDeps (popReplies "q" (["jpegJob", "junk"] ++ "end" :: ["jpegJob"])) =
      (["jpegJob", "junk"].flatMap (handlePayload exWorkerDeps) ++ [WorkerEvent.pop],
        WorkerEnd.returned) ∧
    ((isWorker exWorkerDeps
        (popReplies "q" (["jpegJob", "junk"] ++ "end" :: ["jpegJob"]))).1.filter
      WorkerEvent.isPop).length = ["jpegJob", "junk"].length + 1 ∧
    isWorker exWorkerDeps (popReplies "q" ["jpegJob", "junk"]) =
      (["jpegJob", "junk"].flatMap (handlePayload exWorkerDeps), WorkerEnd.blocked) ∧
    (∀ payload, exWorkerDeps.json_loads payload = none →
      handlePayload exWorkerDeps payload = [WorkerEvent.pop, WorkerEvent.parseError payload]) :=
  C24_end_terminates_worker exWorkerDeps "q" ["jpegJob", "junk"] ["jpegJob"] (by decide)

/-! ## Properties of the renderer: the rows that are read -/

/-- Truncation toward zero of a quotient that is at least `-1/2` is not negative. -/
theorem tdiv_nonneg_of_ge_neg_half (a b : Int) (hb : 0 < b) (ha : -b ≤ 2 * a) :
    0 ≤ Int.tdiv a b := by
  by_cases h : 0 ≤ a
  · exact Int.tdiv_nonneg h (le_of_lt hb)
  · have hneg : Int.tdiv (-a) b = 0 := Int.tdiv_eq_zero_of_lt (by omega) (by omega)
    have hflip : Int.tdiv a b = -Int.tdiv (-a) b := by
      rw [Int.neg_tdiv, neg_neg]
    rw [hflip, hneg]
    decide

/-- The two halves of a box size that is not negative are not negative. -/
theorem halves_nonneg (a : Int) (ha : 0 ≤ a) : 0 ≤ lowerHalf a ∧ 0 ≤ upperHalf a := by
  have h : 0 ≤ Int.tdiv a 2 := Int.tdiv_nonneg ha (by decide)
  unfold lowerHalf upperHalf
  constructor
  · exact h
  · split <;> omega

/-- What the row test of line 196 gives for a row position `k`: the row of
`nearestValue` and every row the outer loop of `maxBox` visits lie in
`[0, inHeight)`. -/
theorem row_test_bounds (k : Dbl) (hden : 0 < k.den) (yal yau inHeight : Int)
    (h1 : Dbl.le Dbl.half.neg (k.sub (Dbl.ofInt yal)) = true)
    (h2 : Dbl.lt (k.add (Dbl.ofInt yau)) ((Dbl.ofInt inHeight).sub Dbl.half) = true) :
    (0 ≤ yal → 0 ≤ yau →
      0 ≤ (k.add Dbl.half).toInt ∧ (k.add Dbl.half).toInt < inHeight) ∧
    (∀ m ∈ loopRange (k.sub (Dbl.ofInt yal)).toInt (k.add (Dbl.ofInt yau)),
      0 ≤ m ∧ m < inHeight) := by
  obtain ⟨n, d⟩ := k
  simp only at hden
  unfold Dbl.le Dbl.neg Dbl.half Dbl.sub Dbl.ofInt at h1
  unfold Dbl.lt Dbl.add Dbl.half Dbl.sub Dbl.ofInt at h2
  simp only [decide_eq_true_eq] at h1 h2
  have h1a : -d ≤ 2 * (n - yal * d) := by linarith
  have h2a : 2 * (n + yau * d) < (2 * inHeight - 1) * d := by linarith
  constructor
  · intro hyal hyau
    have hpl : 0 ≤ yal * d := mul_nonneg hyal (le_of_lt hden)
    have hpu : 0 ≤ yau * d := mul_nonneg hyau (le_of_lt hden)
    have hnum : 0 ≤ (Dbl.add ⟨n, d⟩ Dbl.half).num := by
      unfold Dbl.add Dbl.half
      simp only
      linarith
    have hden2 : 0 < (Dbl.add ⟨n, d⟩ Dbl.half).den := by
      unfold Dbl.add Dbl.half
      simp only
      linarith
    rw [toInt_eq_floor_of_nonneg _ hden2 hnum]
    unfold Dbl.floor
    constructor
    · exact Int.ediv_nonneg hnum (le_of_lt hden2)
    · apply Int.ediv_lt_of_lt_mul hden2
      unfold Dbl.add Dbl.half
      simp only
      linarith
  · intro m hm
    have hdenb : 0 < (Dbl.add ⟨n, d⟩ (Dbl.ofInt yau)).den := by
      unfold Dbl.add Dbl.ofInt
      simp only
      linarith
    rw [mem_loopRange _ _ _ hdenb] at hm
    obtain ⟨hlo, hhi⟩ := hm
    unfold Dbl.lt Dbl.add Dbl.ofInt at hhi
    simp only [decide_eq_true_eq] at hhi
    constructor
    · have hstart : 0 ≤ (Dbl.sub ⟨n, d⟩ (Dbl.ofInt yal)).toInt := by
        unfold Dbl.toInt Dbl.sub Dbl.ofInt
        simp only
        exact tdiv_nonneg_of_ge_neg_half _ _ (by linarith) (by linarith)
      exact le_trans hstart hlo
    · by_contra hge
      have hge2 : inHeight ≤ m := not_lt.1 hge
      have hmul : inHeight * d ≤ m * d := mul_le_mul_of_nonneg_right hge2 (le_of_lt hden)
      linarith

/-- C25: for an output row `i` that passes the row test of line 196, with
`height >= 0` and `ysize > 0`, every source row that is read lies in
`[0, inHeight)`: the row of every position the sampling of a pixel of the row
reads, the row `(int)(k + 0.5)` of `nearestValue`, and every `m` the outer loop
of `maxBox` visits. -/
theorem C25_row_reads_in_bounds (is : isType) (i j : Int) (hheight : 0 ≤ is.height)
    (hysize : 0 < is.ysize) (hrow : is.rowTest i = true) :
    (∀ mn ∈ sampleReads is i j, 0 ≤ mn.1 ∧ mn.1 < is.inHeight) ∧
    (0 ≤ ((is.rowK i).add Dbl.half).toInt ∧
      ((is.rowK i).add Dbl.half).toInt < is.inHeight) ∧
    (∀ m ∈ loopRange ((is.rowK i).sub (Dbl.ofInt is.yal)).toInt
        ((is.rowK i).add (Dbl.ofInt is.yau)),
      0 ≤ m ∧ m < is.inHeight) := by
  have hden : 0 < (is.rowK i).den := by
    unfold isType.rowK Dbl.add Dbl.quot Dbl.ofInt
    simp only
    linarith
  have hya : 0 ≤ is.ya := Int.tdiv_nonneg hheight (le_of_lt hysize)
  have hhalves := halves_nonneg is.ya hya
  unfold isType.rowTest at hrow
  rw [Bool.and_eq_true] at hrow
  obtain ⟨hnear, hbox⟩ := row_test_bounds (is.rowK i) hden is.yal is.yau is.inHeight
    hrow.1 hrow.2
  have hnear2 := hnear hhalves.1 hhalves.2
  refine ⟨?_, hnear2, hbox⟩
  intro mn hmn
  unfold sampleReads at hmn
  split at hmn
  · rw [List.mem_singleton] at hmn
    rw [hmn]
    exact hnear2
  · rw [List.mem_flatMap] at hmn
    obtain ⟨m, hm, hmem⟩ := hmn
    rw [List.mem_map] at hmem
    obtain ⟨n, _, hn⟩ := hmem
    rw [← hn]
    exact hbox m hm

/-- C25, evaluated on output pixel `(2, 2)` of the rendering of an 8 x 8 source to
4 x 4. -/
theorem C25_row_reads_in_bounds_witness :
    (∀ mn ∈ sampleReads exIs8to4 2 2, 0 ≤ mn.1 ∧ mn.1 < exIs8to4.inHeight) ∧
    (0 ≤ ((exIs8to4.rowK 2).add Dbl.half).toInt ∧
      ((exIs8to4.rowK 2).add Dbl.half).toInt < exIs8to4.inHeight) ∧
    (∀ m ∈ loopRange ((exIs8to4.rowK 2).sub (Dbl.ofInt exIs8to4.yal)).toInt
        ((exIs8to4.rowK 2).add (Dbl.ofInt exIs8to4.yau)),
      0 ≤ m ∧ m < exIs8to4.inHeight) :=
  C25_row_reads_in_bounds exIs8to4 2 2 (by decide) (by decide) (by decide)

/-! ## Properties of the renderer: the division of the contrast mapping -/

/-- C26: for every sample `d` and every `int` pair `wval`, `contrast` (whatever
their order), the division of line 230 is executed only when
`wval < d < contrast`; it is not executed when `d <= wval` or `d >= contrast`,
so never when `contrast <= wval`; the divisor is `contrast - wval`, at least 2;
the quotient lies in `[0, 254]`, so its store in the 8-bit `dout` keeps it
unchanged, and it is the value of the contrast mapping. -/
theorem C26_division_guarded (wval contrast d : Int) (hw : IsInt32 wval)
    (hc : IsInt32 contrast) :
    (∀ v, contrastDivisor wval contrast d = some v →
      wval < d ∧ d < contrast ∧ v = contrast - wval ∧ 2 ≤ v ∧ v ≠ 0) ∧
    (d ≤ wval ∨ contrast ≤ d → contrastDivisor wval contrast d = none ∧
      contrastQuotient wval contrast d = none) ∧
    (contrast ≤ wval → contrastDivisor wval contrast d = none ∧
      contrastQuotient wval contrast d = none) ∧
    (wval < d → d < contrast →
      contrastDivisor wval contrast d = some (contrast - wval) ∧
      contrastQuotient wval contrast d =
        some ((((d - wval) * 255) % 2 ^ 32) / (contrast - wval))) ∧
    (∀ q, contrastQuotient wval contrast d = some q →
      0 ≤ q ∧ q ≤ 254 ∧ q % 256 = q ∧ contrastMap wval contrast d = q) := by
  unfold IsInt32 at hw hc
  have hguard : d ≤ wval ∨ contrast ≤ d → contrastDivisor wval contrast d = none ∧
      contrastQuotient wval contrast d = none := by
    intro h
    unfold contrastDivisor contrastQuotient
    rcases h with h | h
    · simp only [h, if_true, and_self]
    · by_cases h2 : d ≤ wval
      · simp only [h2, if_true, and_self]
      · simp only [h2, if_false, ge_iff_le, h, if_true, and_self]
  have hin : wval < d → d < contrast →
      (contrast - wval) % 2 ^ 32 = contrast - wval := by
    intro h1 h2
    exact Int.emod_eq_of_lt (by omega) (by omega)
  have hreach : wval < d → d < contrast →
      contrastDivisor wval contrast d = some (contrast - wval) ∧
      contrastQuotient wval contrast d =
        some ((((d - wval) * 255) % 2 ^ 32) / (contrast - wval)) := by
    intro h1 h2
    unfold contrastDivisor contrastQuotient
    simp only [not_le.2 h1, if_false, ge_iff_le, not_le.2 h2, hin h1 h2, and_self]
  refine ⟨?_, hguard, ?_, hreach, ?_⟩
  · intro v hv
    by_cases h1 : d ≤ wval
    · rw [(hguard (Or.inl h1)).1] at hv
      cases hv
    · by_cases h2 : contrast ≤ d
      · rw [(hguard (Or.inr h2)).1] at hv
        cases hv
      · rw [(hreach (not_le.1 h1) (not_le.1 h2)).1] at hv
        injection hv with hv
        omega
  · intro h
    by_cases h1 : d ≤ wval
    · exact hguard (Or.inl h1)
    · exact hguard (Or.inr (by omega))
  · intro q hq
    by_cases h1 : d ≤ wval
    · rw [(hguard (Or.inl h1)).2] at hq
      cases hq
    · by_cases h2 : contrast ≤ d
      · rw [(hguard (Or.inr h2)).2] at hq
        cases hq
      · have h1a : wval < d := not_le.1 h1
        have h2a : d < contrast := not_le.1 h2
        rw [(hreach h1a h2a).2] at hq
        injection hq with hq
        have hpos : 0 < contrast - wval := by omega
        have hr0 : 0 ≤ ((d - wval) * 255) % 2 ^ 32 := Int.emod_nonneg _ (by norm_num)
        have hr1 : ((d - wval) * 255) % 2 ^ 32 ≤ (d - wval) * 255 := by omega
        have hq0 : 0 ≤ q := by
          rw [← hq]
          exact Int.ediv_nonneg hr0 (le_of_lt hpos)
        have hq1 : q < 255 := by
          rw [← hq]
          apply Int.ediv_lt_of_lt_mul hpos
          have : (d - wval) * 255 < 255 * (contrast - wval) := by omega
          omega
        have hfit : q % 256 = q := Int.emod_eq_of_lt hq0 (by omega)
        refine ⟨hq0, by omega, hfit, ?_⟩
        unfold contrastMap
        simp only [h1, if_false, ge_iff_le, h2, hin h1a h2a]
        rw [hq, hfit]

/-- C26, evaluated at `wval = 100`, `contrast = 5000`, `d = 1000`. -/
theorem C26_division_guarded_witness :
    (∀ v, contrastDivisor 100 5000 1000 = some v →
      (100 : Int) < 1000 ∧ (1000 : Int) < 5000 ∧ v = 5000 - 100 ∧ 2 ≤ v ∧ v ≠ 0) ∧
    ((1000 : Int) ≤ 100 ∨ (5000 : Int) ≤ 1000 → contrastDivisor 100 5000 1000 = none ∧
      contrastQuotient 100 5000 1000 = none) ∧
    ((5000 : Int) ≤ 100 → contrastDivisor 100 5000 1000 = none ∧
      contrastQuotient 100 5000 1000 = none) ∧
    ((100 : Int) < 1000 → (1000 : Int) < 5000 →
      contrastDivisor 100 5000 1000 = some (5000 - 100) ∧
      contrastQuotient 100 5000 1000 =
        some ((((1000 - 100) * 255) % 2 ^ 32) / (5000 - 100))) ∧
    (∀ q, contrastQuotient 100 5000 1000 = some q →
      0 ≤ q ∧ q ≤ 254 ∧ q % 256 = q ∧ contrastMap 100 5000 1000 = q) :=
  C26_division_guarded 100 5000 1000 (by unfold IsInt32; decide) (by unfold IsInt32; decide)

/-! ## Properties of the frame reader: calls after a failed first access -/

/-- Neither the call of `get_one_frame` nor a set `failed` flag changes
`bad_pixel_map`. -/
theorem finishGetData_bad_pixel_map (h5 : H5Lib) (imb : isImageBufType) (failed : Bool) :
    (finishGetData h5 imb failed).1.bad_pixel_map = imb.bad_pixel_map := by
  unfold finishGetData
  split
  · rfl
  · split
    next out hok =>
      obtain ⟨-, -, -, -, -, -, -, -, -, -, hmap⟩ := get_one_frame_success h5 imb out hok
      exact hmap
    · rfl
    · rfl
    · rfl

/-- With the `failed` flag set no frame is read: the call returns -1. -/
theorem finishGetData_failed (h5 : H5Lib) (imb : isImageBufType) :
    (finishGetData h5 imb true).2 = GetDataResult.ret (-1) := by
  unfold finishGetData
  rfl

/-- The first access when every step of the initialisation succeeds: the pixel
mask is loaded before the frame is read, and stays loaded. -/
theorem first_call_mask_loaded (h5 : H5Lib) (m : MasterLib) (fn : String)
    (imb : isImageBufType) (links : List LinkCalls) (base : List frame_discovery_t)
    (hextra : imb.extra = none) (hopen : ¬ m.H5Fopen fn < 0) (halloc : ¬ m.extraAlloc = false)
    (hlinks : m.links (m.H5Fopen fn) = some links)
    (hvisit : visitLinks links [] = (base, VisitStatus.done))
    (hmask : readPixelMask h5 m (m.H5Fopen fn) = some true) :
    (isH5GetData h5 m fn imb).1.bad_pixel_map = true := by
  unfold isH5GetData
  simp only [hextra, hopen, if_false]
  unfold firstAccess
  simp only [halloc, Bool.true_eq_false, if_false, hlinks, hvisit, hmask]
  rw [finishGetData_bad_pixel_map]

/-- The call that performs the first access (`extra = NULL`) returns success only
if the walk under `/entry/data` succeeded and the pixel mask was read, and then
`bad_pixel_map` is loaded. -/
theorem first_call_success_initialised (h5 : H5Lib) (m : MasterLib) (fn : String)
    (imb : isImageBufType) (hextra : imb.extra = none)
    (hok : (isH5GetData h5 m fn imb).2 = GetDataResult.ret 0) :
    (∃ links base, m.links (m.H5Fopen fn) = some links ∧
      visitLinks links [] = (base, VisitStatus.done)) ∧
    readPixelMask h5 m (m.H5Fopen fn) = some true ∧
    (isH5GetData h5 m fn imb).1.bad_pixel_map = true := by
  have hok2 := hok
  unfold isH5GetData at hok2
  simp only [hextra] at hok2
  split at hok2
  · cases hok2
  next hopen =>
    unfold firstAccess at hok2
    split at hok2
    · cases hok2
    next halloc =>
      cases hlinks : m.links (m.H5Fopen fn) with
      | none =>
        rw [hlinks] at hok2
        cases hok2
      | some links =>
        rw [hlinks] at hok2
        simp only at hok2
        rcases hvisit : visitLinks links [] with ⟨base, status⟩
        rw [hvisit] at hok2
        cases status with
        | exit => cases hok2
        | failed => cases hok2
        | done =>
          simp only at hok2
          cases hmask : readPixelMask h5 m (m.H5Fopen fn) with
          | none =>
            rw [hmask] at hok2
            simp only at hok2
            rw [finishGetData_failed] at hok2
            cases hok2
          | some loaded =>
            rw [hmask] at hok2
            cases loaded with
            | false =>
              simp only [Bool.not_false] at hok2
              rw [finishGetData_failed] at hok2
              cases hok2
            | true =>
              exact ⟨⟨links, base, rfl, hvisit⟩, rfl,
                first_call_mask_loaded h5 m fn imb links base hextra hopen halloc hlinks
                  hvisit hmask⟩

/-- C27 fails on the code: on a master whose pixel mask cannot be opened, the
first call on a buffer with `extra = NULL` returns -1 but leaves `extra` set
(line 751 stores it before the walk and nothing resets it); the next call on the
same buffer skips the initialisation, reads frame 150 and returns 0 although
`bad_pixel_map` was never loaded. -/
theorem C27_failed_first_access_masked :
    (exImbFresh 150).extra.isSome = false ∧
    readPixelMask exH5Master { exMaster with H5Dopen2_mask := fun _ => -1 } 3 = none ∧
    (isH5GetData exH5Master { exMaster with H5Dopen2_mask := fun _ => -1 } "master.h5"
      (exImbFresh 150)).2 = GetDataResult.ret (-1) ∧
    (isH5GetData exH5Master { exMaster with H5Dopen2_mask := fun _ => -1 } "master.h5"
      (exImbFresh 150)).1.extra.isSome = true ∧
    (isH5GetData exH5Master { exMaster with H5Dopen2_mask := fun _ => -1 } "master.h5"
      (isH5GetData exH5Master { exMaster with H5Dopen2_mask := fun _ => -1 } "master.h5"
        (exImbFresh 150)).1).2 = GetDataResult.ret 0 ∧
    (isH5GetData exH5Master { exMaster with H5Dopen2_mask := fun _ => -1 } "master.h5"
      (isH5GetData exH5Master { exMaster with H5Dopen2_mask := fun _ => -1 } "master.h5"
        (exImbFresh 150)).1).1.bad_pixel_map = false ∧
    (isH5GetData exH5Master { exMaster with H5Dopen2_mask := fun _ => -1 } "master.h5"
      (isH5GetData exH5Master { exMaster with H5Dopen2_mask := fun _ => -1 } "master.h5"
        (exImbFresh 150)).1).1.buf = true := by
  decide

end IS
